import Mathlib

/-!
# Ride-hailing dispatch core: embedding and verified properties

A shallow embedding of the C++ headers under `src/`:

* `common/types.h`            : the enumerations and `Location`
* `vehicles/vehicle.h`        : `Vehicle` and the four built-in classes
* `users/rider.h`, `driver.h` : `Rider`, `Driver`
* `rides/ride.h`              : `Ride`
* `strategies/matching_strategy.h` : the two matching policies
* `pricing/fare_calculator.h` : the base calculator and its decorators
* `managers/ride_manager.h`   : the orchestrator `RideManager`

Modelling conventions.

* `double` is the ordered field `ℚ` (exact arithmetic: rounding, infinities and NaN are not
  represented); `numeric_limits<double>::max()` is the constant `DBL_MAX`.  The library
  function `sqrt` is a parameter of every definition that reaches `Location::distanceTo`.
* Where the sign of a fare is concerned (C17 and C26) exact arithmetic is not enough: an
  amount that overflows is +∞ and +∞ times 0 is NaN.  `Location::distanceTo` and the fare
  calculators are therefore embedded a second time over the IEEE 754 binary64 values
  (`Binary64`, the definitions with the suffix `64`), every operation rounded to nearest,
  ties to even; a member of type `double` holds a finite value there.
* `shared_ptr<Rider>` and `shared_ptr<Driver>` are addresses into two heaps of objects.
  Dereferencing an address that holds no object (a null or invalid pointer), dereferencing
  the null vehicle of a driver, and overflowing the `int` ride counter are undefined
  behaviour in C++: the embedded function returns `none` there.
* A `Ride` is created by the orchestrator and lives in its ride table; the table stores the
  ride by value and an in-place mutation through the pointer is a write-back under its key.
* Notification sinks are handles; invoking a handler appends one `Event` that holds the ride
  as the handler observes it.  Console output and the wall-clock time stamps are left out.
* `World.statusLog` is an instrumentation: one entry per assignment to `Ride::status`.
-/

namespace RideShare

/-! ## common/types.h -/

inductive RideStatus where
  | REQUESTED
  | DRIVER_ASSIGNED
  | DRIVER_EN_ROUTE
  | IN_PROGRESS
  | COMPLETED
  | CANCELLED
  deriving DecidableEq, Repr

inductive DriverStatus where
  | AVAILABLE
  | ON_TRIP
  | OFFLINE
  deriving DecidableEq, Repr

inductive VehicleType where
  | BIKE
  | SEDAN
  | SUV
  | AUTO_RICKSHAW
  deriving DecidableEq, Repr

inductive RideType where
  | NORMAL
  | CARPOOL
  deriving DecidableEq, Repr

/-- The C++ type `double`, in exact arithmetic. -/
abbrev Double := ℚ

/-- The constant `numeric_limits<double>::max()`, that is `(2 - 2^(-52)) * 2^1023`. -/
def DBL_MAX : Double := (2 ^ 53 - 1) * 2 ^ 971

/-- The constant `INT_MAX` of a 32-bit `int`. -/
def INT_MAX : Int := 2147483647

structure Location where
  latitude : Double
  longitude : Double
  address : String
  deriving DecidableEq, Repr

/-- `Location::distanceTo`; `sqrt` is the library square root. -/
def Location.distanceTo (sqrt : Double → Double) (self other : Location) : Double :=
  let dx := self.latitude - other.latitude
  let dy := self.longitude - other.longitude
  sqrt (dx * dx + dy * dy) * 111

/-! ## vehicles/vehicle.h -/

structure Vehicle where
  vehicleId : String
  licensePlate : String
  type : VehicleType
  capacity : Int
  baseFareRate : Double
  deriving DecidableEq, Repr

def Bike (id plate : String) : Vehicle := ⟨id, plate, .BIKE, 1, 8⟩

def Sedan (id plate : String) : Vehicle := ⟨id, plate, .SEDAN, 4, 12⟩

def SUV (id plate : String) : Vehicle := ⟨id, plate, .SUV, 6, 18⟩

def AutoRickshaw (id plate : String) : Vehicle := ⟨id, plate, .AUTO_RICKSHAW, 3, 6⟩

/-! ## users/user.h, users/rider.h, users/driver.h -/

structure Rider where
  userId : String
  name : String
  phone : String
  currentLocation : Location
  rating : Double
  rideHistory : List String
  deriving DecidableEq, Repr

/-- The constructor `Rider::Rider`. -/
def Rider.new (id name phone : String) (loc : Location) (r : Double) : Rider :=
  ⟨id, name, phone, loc, r, []⟩

/-- `Rider::addRideToHistory` (a `push_back`). -/
def Rider.addRideToHistory (self : Rider) (rideId : String) : Rider :=
  { self with rideHistory := self.rideHistory ++ [rideId] }

structure Driver where
  userId : String
  name : String
  phone : String
  currentLocation : Location
  rating : Double
  status : DriverStatus
  vehicle : Option Vehicle
  rideHistory : List String
  deriving DecidableEq, Repr

/-- The constructor `Driver::Driver`; `v` is the `unique_ptr<Vehicle>`, `none` when null. -/
def Driver.new (id name phone : String) (loc : Location) (v : Option Vehicle) (r : Double) :
    Driver :=
  ⟨id, name, phone, loc, r, .AVAILABLE, v, []⟩

def Driver.setStatus (self : Driver) (s : DriverStatus) : Driver :=
  { self with status := s }

def Driver.isAvailable (self : Driver) : Bool :=
  self.status = .AVAILABLE

/-- `Driver::addRideToHistory` (a `push_back`). -/
def Driver.addRideToHistory (self : Driver) (rideId : String) : Driver :=
  { self with rideHistory := self.rideHistory ++ [rideId] }

/-- Address of a `Rider` object. -/
abbrev RiderPtr := Nat

/-- Address of a `Driver` object. -/
abbrev DriverPtr := Nat

/-- Handle of a notification sink. -/
abbrev ObserverPtr := Nat

/-! ## rides/ride.h -/

structure Ride where
  rideId : String
  rider : RiderPtr
  driver : Option DriverPtr
  pickupLocation : Location
  dropoffLocation : Location
  status : RideStatus
  rideType : RideType
  requestedVehicleType : VehicleType
  fare : Double
  deriving DecidableEq, Repr

/-- The constructor `Ride::Ride`: no driver, status `REQUESTED`, fare `0.0`. -/
def Ride.new (id : String) (r : RiderPtr) (pickup dropoff : Location)
    (vehicleType : VehicleType) (type : RideType) : Ride :=
  ⟨id, r, none, pickup, dropoff, .REQUESTED, type, vehicleType, 0⟩

def Ride.setDriver (self : Ride) (d : Option DriverPtr) : Ride :=
  { self with driver := d }

def Ride.setStatus (self : Ride) (s : RideStatus) : Ride :=
  { self with status := s }

def Ride.setFare (self : Ride) (f : Double) : Ride :=
  { self with fare := f }

def Ride.startRide (self : Ride) : Ride :=
  { self with status := .IN_PROGRESS }

def Ride.completeRide (self : Ride) : Ride :=
  { self with status := .COMPLETED }

def Ride.getDistance (sqrt : Double → Double) (self : Ride) : Double :=
  self.pickupLocation.distanceTo sqrt self.dropoffLocation

/-! ## strategies/matching_strategy.h -/

/-- The loop of `NearestDriverStrategy::findBestDriver`, with the loop variables `bestDriver`
and `minDistance` as arguments.  `none` is undefined behaviour. -/
def NearestDriverStrategy.loop (sqrt : Double → Double) (heap : List Driver) (ride : Ride) :
    List DriverPtr → Option DriverPtr → Double → Option (Option DriverPtr)
  | [], bestDriver, _ => some bestDriver
  | p :: rest, bestDriver, minDistance =>
    match heap[p]? with
    | none => none
    | some driver =>
      if !driver.isAvailable then loop sqrt heap ride rest bestDriver minDistance
      else
        match driver.vehicle with
        | none => none
        | some vehicle =>
          if vehicle.type ≠ ride.requestedVehicleType then
            loop sqrt heap ride rest bestDriver minDistance
          else
            let distance := driver.currentLocation.distanceTo sqrt ride.pickupLocation
            if distance < minDistance then loop sqrt heap ride rest (some p) distance
            else loop sqrt heap ride rest bestDriver minDistance

/-- `NearestDriverStrategy::findBestDriver`. -/
def NearestDriverStrategy.findBestDriver (sqrt : Double → Double) (heap : List Driver)
    (availableDrivers : List DriverPtr) (ride : Ride) : Option (Option DriverPtr) :=
  if availableDrivers.isEmpty then some none
  else NearestDriverStrategy.loop sqrt heap ride availableDrivers none DBL_MAX

/-- The loop of `HighestRatedDriverStrategy::findBestDriver`, with the loop variables
`bestDriver` and `highestRating` as arguments.  `none` is undefined behaviour. -/
def HighestRatedDriverStrategy.loop (heap : List Driver) (ride : Ride) :
    List DriverPtr → Option DriverPtr → Double → Option (Option DriverPtr)
  | [], bestDriver, _ => some bestDriver
  | p :: rest, bestDriver, highestRating =>
    match heap[p]? with
    | none => none
    | some driver =>
      if !driver.isAvailable then loop heap ride rest bestDriver highestRating
      else
        match driver.vehicle with
        | none => none
        | some vehicle =>
          if vehicle.type ≠ ride.requestedVehicleType then
            loop heap ride rest bestDriver highestRating
          else if driver.rating > highestRating then loop heap ride rest (some p) driver.rating
          else loop heap ride rest bestDriver highestRating

/-- `HighestRatedDriverStrategy::findBestDriver`. -/
def HighestRatedDriverStrategy.findBestDriver (heap : List Driver)
    (availableDrivers : List DriverPtr) (ride : Ride) : Option (Option DriverPtr) :=
  if availableDrivers.isEmpty then some none
  else HighestRatedDriverStrategy.loop heap ride availableDrivers none 0

/-- The implementations of the abstract class `MatchingStrategy`. -/
inductive MatchingStrategy where
  | NearestDriverStrategy
  | HighestRatedDriverStrategy
  deriving DecidableEq, Repr

/-- Virtual dispatch of `MatchingStrategy::findBestDriver`. -/
def MatchingStrategy.findBestDriver (sqrt : Double → Double) (self : MatchingStrategy)
    (heap : List Driver) (availableDrivers : List DriverPtr) (ride : Ride) :
    Option (Option DriverPtr) :=
  match self with
  | .NearestDriverStrategy =>
    RideShare.NearestDriverStrategy.findBestDriver sqrt heap availableDrivers ride
  | .HighestRatedDriverStrategy =>
    RideShare.HighestRatedDriverStrategy.findBestDriver heap availableDrivers ride

/-! ## pricing/fare_calculator.h -/

/-- `BaseFareCalculator::calculateFare`.  `none` is undefined behaviour (the ride holds an
address without a driver object). -/
def BaseFareCalculator.calculateFare (sqrt : Double → Double) (heap : List Driver)
    (baseFare perKmRate : Double) (ride : Ride) : Option Double :=
  let distance := ride.getDistance sqrt
  match ride.driver with
  | none => some ((baseFare + distance * perKmRate) * 1)
  | some p =>
    match heap[p]? with
    | none => none
    | some driver =>
      match driver.vehicle with
      | none => some ((baseFare + distance * perKmRate) * 1)
      | some vehicle => some ((baseFare + distance * perKmRate) * (vehicle.baseFareRate / 10))

/-- The implementations of the abstract class `FareCalculator`, each with its members. -/
inductive FareCalculator where
  | BaseFareCalculator (baseFare perKmRate : Double)
  | SurgePricingDecorator (baseCalculator : FareCalculator) (surgeMultiplier : Double)
  | DiscountDecorator (baseCalculator : FareCalculator) (discountPercentage : Double)
  deriving DecidableEq, Repr

/-- Virtual dispatch of `FareCalculator::calculateFare`. -/
def FareCalculator.calculateFare (sqrt : Double → Double) (heap : List Driver) (ride : Ride) :
    FareCalculator → Option Double
  | .BaseFareCalculator baseFare perKmRate =>
    RideShare.BaseFareCalculator.calculateFare sqrt heap baseFare perKmRate ride
  | .SurgePricingDecorator baseCalculator surgeMultiplier =>
    match calculateFare sqrt heap ride baseCalculator with
    | none => none
    | some baseFare => some (baseFare * surgeMultiplier)
  | .DiscountDecorator baseCalculator discountPercentage =>
    match calculateFare sqrt heap ride baseCalculator with
    | none => none
    | some baseFare => some (baseFare * (1 - discountPercentage))

/-- Virtual dispatch of `FareCalculator::getDescription`. -/
def FareCalculator.getDescription : FareCalculator → String
  | .BaseFareCalculator _ _ => "Base Fare Calculator"
  | .SurgePricingDecorator baseCalculator _ => getDescription baseCalculator ++ " + Surge Pricing"
  | .DiscountDecorator baseCalculator _ => getDescription baseCalculator ++ " + Discount Applied"

/-! ## observers/notification_observer.h -/

/-- The three handlers of `NotificationObserver`. -/
inductive EventKind where
  | onRideStatusChanged
  | onDriverAssigned
  | onPaymentCompleted
  deriving DecidableEq, Repr

/-- One handler invocation: the sink, the handler, and the ride as the handler sees it. -/
structure Event where
  observer : ObserverPtr
  kind : EventKind
  ride : Ride
  deriving DecidableEq, Repr

/-! ## managers/ride_manager.h -/

/-- The member `rides`, an `unordered_map<string, shared_ptr<Ride>>`, as an association list. -/
abbrev RideTable := List (String × Ride)

/-- The lookup `rides.find(key)`. -/
def RideTable.find : RideTable → String → Option Ride
  | [], _ => none
  | (k, v) :: t, key => if k = key then some v else RideTable.find t key

/-- The assignment `rides[key] = ride`, also the write-back of a ride mutated in place. -/
def RideTable.assign : RideTable → String → Ride → RideTable
  | [], key, ride => [(key, ride)]
  | (k, v) :: t, key, ride =>
    if k = key then (k, ride) :: t else (k, v) :: RideTable.assign t key ride

/-- The data members of `RideManager`. -/
structure RideManager where
  riders : List RiderPtr
  drivers : List DriverPtr
  rides : RideTable
  observers : List ObserverPtr
  matchingStrategy : MatchingStrategy
  fareCalculator : FareCalculator
  rideCounter : Int
  deriving DecidableEq, Repr

/-- The constructor `RideManager::RideManager`. -/
def RideManager.new : RideManager :=
  ⟨[], [], [], [], .NearestDriverStrategy, .BaseFareCalculator 50 10, 1⟩

/-- One assignment to the member `status` of a ride; `rideId` is its key in the ride table. -/
structure StatusWrite where
  rideId : String
  old : RideStatus
  new : RideStatus
  deriving DecidableEq, Repr

/-- The orchestrator together with the objects it points to and what it has emitted. -/
structure World where
  riderHeap : List Rider
  driverHeap : List Driver
  manager : RideManager
  events : List Event
  statusLog : List StatusWrite
  deriving DecidableEq, Repr

def World.addRider (w : World) (rider : RiderPtr) : World :=
  { w with manager := { w.manager with riders := w.manager.riders ++ [rider] } }

def World.addDriver (w : World) (driver : DriverPtr) : World :=
  { w with manager := { w.manager with drivers := w.manager.drivers ++ [driver] } }

def World.addObserver (w : World) (observer : ObserverPtr) : World :=
  { w with manager := { w.manager with observers := w.manager.observers ++ [observer] } }

/-- `RideManager::removeObserver`: the erase-remove idiom drops every equal pointer. -/
def World.removeObserver (w : World) (observer : ObserverPtr) : World :=
  { w with manager :=
      { w.manager with observers := w.manager.observers.filter (fun o => o ≠ observer) } }

def World.setMatchingStrategy (w : World) (strategy : MatchingStrategy) : World :=
  { w with manager := { w.manager with matchingStrategy := strategy } }

def World.setFareCalculator (w : World) (calculator : FareCalculator) : World :=
  { w with manager := { w.manager with fareCalculator := calculator } }

/-- One notification round: the handler `kind` of every registered sink, in vector order. -/
def World.notify (w : World) (kind : EventKind) (ride : Ride) : World :=
  { w with events := w.events ++ w.manager.observers.map (fun o => ⟨o, kind, ride⟩) }

def World.notifyRideStatusChanged (w : World) (ride : Ride) : World :=
  w.notify .onRideStatusChanged ride

def World.notifyDriverAssigned (w : World) (ride : Ride) : World :=
  w.notify .onDriverAssigned ride

def World.notifyPaymentCompleted (w : World) (ride : Ride) : World :=
  w.notify .onPaymentCompleted ride

/-- An assignment to `status` that turns the ride `old` of key `rideId` into `new`, recorded
in the status log. -/
def World.logStatus (w : World) (rideId : String) (old new : Ride) : World :=
  { w with statusLog := w.statusLog ++ [⟨rideId, old.status, new.status⟩] }

/-- The in-place mutation of the table ride under `key` into `ride`. -/
def World.storeRide (w : World) (key : String) (ride : Ride) : World :=
  { w with manager := { w.manager with rides := w.manager.rides.assign key ride } }

/-- The `find_if` over `riders` in `requestRide`: the first rider whose id is `riderId`. -/
def findRider (heap : List Rider) (riderId : String) : List RiderPtr → Option (Option RiderPtr)
  | [] => some none
  | p :: rest =>
    match heap[p]? with
    | none => none
    | some r => if r.userId = riderId then some (some p) else findRider heap riderId rest

/-- The loop of `requestRide` that collects the drivers with `isAvailable()`. -/
def availableDrivers (heap : List Driver) : List DriverPtr → Option (List DriverPtr)
  | [] => some []
  | p :: rest =>
    match heap[p]? with
    | none => none
    | some driver =>
      match availableDrivers heap rest with
      | none => none
      | some l => some (if driver.isAvailable then p :: l else l)

/-- `RideManager::requestRide`: the returned pointer (`none` for `nullptr`) and the state
afterwards.  The outer `none` is undefined behaviour. -/
def World.requestRide (sqrt : Double → Double) (w : World) (riderId : String)
    (pickup dropoff : Location) (vehicleType : VehicleType) (rideType : RideType) :
    Option (Option Ride × World) :=
  match findRider w.riderHeap riderId w.manager.riders with
  | none => none
  | some none => some (none, w)
  | some (some rider) =>
    if ¬ w.manager.rideCounter < INT_MAX then none
    else
      let rideId := "RIDE_" ++ toString w.manager.rideCounter
      let w1 := { w with manager := { w.manager with rideCounter := w.manager.rideCounter + 1 } }
      let ride := Ride.new rideId rider pickup dropoff vehicleType rideType
      match availableDrivers w1.driverHeap w1.manager.drivers with
      | none => none
      | some available =>
        match w1.manager.matchingStrategy.findBestDriver sqrt w1.driverHeap available ride with
        | none => none
        | some none => some (none, w1)
        | some (some assignedDriver) =>
          let ride1 := ride.setDriver (some assignedDriver)
          let ride2 := ride1.setStatus .DRIVER_ASSIGNED
          let w2 := w1.logStatus rideId ride1 ride2
          match w2.driverHeap[assignedDriver]? with
          | none => none
          | some driver =>
            let driver1 := driver.setStatus .ON_TRIP
            let w3 := { w2 with driverHeap := w2.driverHeap.set assignedDriver driver1 }
            let w4 := w3.storeRide rideId ride2
            let w5 := w4.notifyDriverAssigned ride2
            let w6 := w5.notifyRideStatusChanged ride2
            some (some ride2, w6)

/-- `RideManager::startRide`.  `none` is undefined behaviour. -/
def World.startRide (w : World) (rideId : String) : Option World :=
  match w.manager.rides.find rideId with
  | none => some w
  | some ride =>
    let ride1 := ride.setStatus .DRIVER_EN_ROUTE
    let w1 := (w.logStatus rideId ride ride1).storeRide rideId ride1
    let w2 := w1.notifyRideStatusChanged ride1
    let ride2 := ride1.startRide
    let w3 := (w2.logStatus rideId ride1 ride2).storeRide rideId ride2
    let w4 := w3.notifyRideStatusChanged ride2
    some w4

/-- `RideManager::completeRide`.  `none` is undefined behaviour. -/
def World.completeRide (sqrt : Double → Double) (w : World) (rideId : String) : Option World :=
  match w.manager.rides.find rideId with
  | none => some w
  | some ride =>
    let ride1 := ride.completeRide
    let w1 := (w.logStatus rideId ride ride1).storeRide rideId ride1
    match w1.manager.fareCalculator.calculateFare sqrt w1.driverHeap ride1 with
    | none => none
    | some fare =>
      let ride2 := ride1.setFare fare
      let w2 := w1.storeRide rideId ride2
      let afterDriver : Option World :=
        match ride2.driver with
        | none => some w2
        | some p =>
          match w2.driverHeap[p]? with
          | none => none
          | some driver =>
            let driver1 := (driver.setStatus .AVAILABLE).addRideToHistory rideId
            some { w2 with driverHeap := w2.driverHeap.set p driver1 }
      match afterDriver with
      | none => none
      | some w3 =>
        match w3.riderHeap[ride2.rider]? with
        | none => none
        | some rider =>
          let riders1 := w3.riderHeap.set ride2.rider (rider.addRideToHistory rideId)
          let w4 := { w3 with riderHeap := riders1 }
          let w5 := w4.notifyRideStatusChanged ride2
          let w6 := w5.notifyPaymentCompleted ride2
          some w6

/-- `RideManager::getRide`. -/
def World.getRide (w : World) (rideId : String) : Option Ride :=
  w.manager.rides.find rideId

/-! ## The orchestrator as a transition system -/

/-- The operations of the orchestrator, each with its arguments. -/
inductive Op where
  | addRider (rider : RiderPtr)
  | addDriver (driver : DriverPtr)
  | addObserver (observer : ObserverPtr)
  | removeObserver (observer : ObserverPtr)
  | setMatchingStrategy (strategy : MatchingStrategy)
  | setFareCalculator (calculator : FareCalculator)
  | requestRide (riderId : String) (pickup dropoff : Location) (vehicleType : VehicleType)
      (rideType : RideType)
  | startRide (rideId : String)
  | completeRide (rideId : String)
  deriving DecidableEq, Repr

/-- The state after one operation; `none` when its behaviour is undefined. -/
def World.step (sqrt : Double → Double) (w : World) : Op → Option World
  | .addRider rider => some (w.addRider rider)
  | .addDriver driver => some (w.addDriver driver)
  | .addObserver observer => some (w.addObserver observer)
  | .removeObserver observer => some (w.removeObserver observer)
  | .setMatchingStrategy strategy => some (w.setMatchingStrategy strategy)
  | .setFareCalculator calculator => some (w.setFareCalculator calculator)
  | .requestRide riderId pickup dropoff vehicleType rideType =>
    match w.requestRide sqrt riderId pickup dropoff vehicleType rideType with
    | none => none
    | some (_, w1) => some w1
  | .startRide rideId => w.startRide rideId
  | .completeRide rideId => w.completeRide sqrt rideId

/-- The state after a sequence of operations. -/
def World.run (sqrt : Double → Double) (w : World) : List Op → Option World
  | [] => some w
  | op :: ops =>
    match w.step sqrt op with
    | none => none
    | some w1 => World.run sqrt w1 ops

/-- An initial state: a freshly constructed orchestrator, nothing emitted, and heaps of
riders and drivers as their constructors leave them. -/
def World.Initial (w : World) : Prop :=
  w.manager = RideManager.new ∧ w.events = [] ∧ w.statusLog = [] ∧
    (∀ r ∈ w.riderHeap, r.rideHistory = []) ∧
    (∀ d ∈ w.driverHeap, d.status = .AVAILABLE ∧ d.rideHistory = [])

/-- The states reachable from an initial state by orchestrator operations. -/
inductive Reachable (sqrt : Double → Double) : World → Prop
  | init (w : World) : w.Initial → Reachable sqrt w
  | step (w w1 : World) (op : Op) : Reachable sqrt w → w.step sqrt op = some w1 →
      Reachable sqrt w1

/-! ## Specification vocabulary -/

/-- The filter of both matching policies: the driver is `AVAILABLE` and owns a vehicle of the
type the ride requests. -/
def Driver.Eligible (d : Driver) (ride : Ride) : Prop :=
  d.status = .AVAILABLE ∧ d.vehicle.map Vehicle.type = some ride.requestedVehicleType

instance (d : Driver) (ride : Ride) : Decidable (d.Eligible ride) :=
  inferInstanceAs (Decidable (_ ∧ _))

/-- The candidate list can be scanned without undefined behaviour: every address holds a
driver, and every `AVAILABLE` one owns a vehicle. -/
def CandidatesDefined (heap : List Driver) (candidates : List DriverPtr) : Prop :=
  ∀ p ∈ candidates, ∃ d, heap[p]? = some d ∧ (d.status = .AVAILABLE → d.vehicle ≠ none)

/-- Scan for the first strictly smallest key below the threshold `m`; `key p = none` means
that `p` is filtered out.  Both policy loops are instances of this scan. -/
def scanMin (key : Nat → Option ℚ) : List Nat → Option Nat → ℚ → Option Nat
  | [], best, _ => best
  | p :: rest, best, m =>
    match key p with
    | none => scanMin key rest best m
    | some k => if k < m then scanMin key rest (some p) k else scanMin key rest best m

/-- Key of a candidate under a measure `f`: defined for the eligible drivers only. -/
def candidateKey (heap : List Driver) (ride : Ride) (f : Driver → ℚ) (p : DriverPtr) :
    Option ℚ :=
  match heap[p]? with
  | none => none
  | some d => if d.Eligible ride then some (f d) else none

/-- Distance from a driver to the pickup location of the ride. -/
def pickupDistance (sqrt : Double → Double) (ride : Ride) (d : Driver) : Double :=
  d.currentLocation.distanceTo sqrt ride.pickupLocation

/-! ## Concrete inputs -/

/-- The origin, used as pickup location. -/
def origin : Location := ⟨0, 0, "origin"⟩

/-- A point on the first axis at `km` kilometres from the origin. -/
def pointAt (km : Double) : Location := ⟨km / 111, 0, "east"⟩

/-- Three available sedan drivers at distances 3, 1 and 5 km from the origin, rated 4.8, 4.9
and 4.7. -/
def exampleDrivers : List Driver :=
  [Driver.new "D001" "A" "1" (pointAt 3) (some (Sedan "V001" "P1")) 4.8,
   Driver.new "D002" "B" "2" (pointAt 1) (some (Sedan "V002" "P2")) 4.9,
   Driver.new "D003" "C" "3" (pointAt 5) (some (Sedan "V003" "P3")) 4.7]

/-- Two available sedan drivers, both rated 0. -/
def zeroRatedDrivers : List Driver :=
  [Driver.new "D001" "A" "1" origin (some (Sedan "V001" "P1")) 0,
   Driver.new "D002" "B" "2" origin (some (Sedan "V002" "P2")) 0]

/-- A requested ride from the origin, as `requestRide` constructs it. -/
def exampleRide (vehicleType : VehicleType) : Ride :=
  Ride.new "RIDE_1" 0 origin origin vehicleType .NORMAL

/-- Value of a decimal digit character. -/
def digitValue (c : Char) : Nat := c.toNat - 48

/-- The number a list of decimal digits denotes, most significant digit first. -/
def readDigits (l : List Char) : Nat := l.foldl (fun a c => a * 10 + digitValue c) 0

/-- The identifier `"RIDE_" + to_string(n)` that `requestRide` generates from its counter. -/
def rideIdOf (n : Int) : String := "RIDE_" ++ toString n

/-- The ride `requestRide` stores and returns on a match with driver `d`. -/
def Ride.matched (id : String) (rider : RiderPtr) (pickup dropoff : Location)
    (vehicleType : VehicleType) (rideType : RideType) (d : DriverPtr) : Ride :=
  ((Ride.new id rider pickup dropoff vehicleType rideType).setDriver (some d)).setStatus
    .DRIVER_ASSIGNED

/-- The state `requestRide` leaves when the rider is found and no driver matches: only the
counter has moved. -/
def World.afterNoMatch (w : World) : World :=
  { w with manager := { w.manager with rideCounter := w.manager.rideCounter + 1 } }

/-- The state `requestRide` leaves on a match: `ride` is stored under `id`, `driver` (the
object at address `d`) is ON_TRIP, the counter has moved, and two notification rounds and one
status write are recorded. -/
def World.afterMatch (w : World) (id : String) (ride : Ride) (d : DriverPtr) (driver : Driver) :
    World :=
  { riderHeap := w.riderHeap
    driverHeap := w.driverHeap.set d (driver.setStatus .ON_TRIP)
    manager := { w.manager with
      rideCounter := w.manager.rideCounter + 1
      rides := w.manager.rides.assign id ride }
    events := w.events ++ w.manager.observers.map (fun o => ⟨o, .onDriverAssigned, ride⟩)
      ++ w.manager.observers.map (fun o => ⟨o, .onRideStatusChanged, ride⟩)
    statusLog := w.statusLog ++ [⟨id, .REQUESTED, .DRIVER_ASSIGNED⟩] }

/-- The state `startRide` leaves for the table ride `ride` of key `id`. -/
def World.afterStart (w : World) (id : String) (ride : Ride) : World :=
  { w with
    manager := { w.manager with
      rides := w.manager.rides.assign id (ride.setStatus .DRIVER_EN_ROUTE).startRide }
    events := w.events
      ++ w.manager.observers.map
        (fun o => ⟨o, .onRideStatusChanged, ride.setStatus .DRIVER_EN_ROUTE⟩)
      ++ w.manager.observers.map
        (fun o => ⟨o, .onRideStatusChanged, (ride.setStatus .DRIVER_EN_ROUTE).startRide⟩)
    statusLog := w.statusLog ++
      [⟨id, ride.status, .DRIVER_EN_ROUTE⟩, ⟨id, .DRIVER_EN_ROUTE, .IN_PROGRESS⟩] }

/-- The state `completeRide` leaves for the table ride `ride` of key `id`, given the fare and
the heaps of drivers and riders after the release of the driver and the two history
updates. -/
def World.afterComplete (w : World) (id : String) (ride : Ride) (fare : Double)
    (drivers : List Driver) (riders : List Rider) : World :=
  { riderHeap := riders
    driverHeap := drivers
    manager := { w.manager with
      rides := w.manager.rides.assign id (ride.completeRide.setFare fare) }
    events := w.events
      ++ w.manager.observers.map
        (fun o => ⟨o, .onRideStatusChanged, ride.completeRide.setFare fare⟩)
      ++ w.manager.observers.map
        (fun o => ⟨o, .onPaymentCompleted, ride.completeRide.setFare fare⟩)
    statusLog := w.statusLog ++ [⟨id, ride.status, .COMPLETED⟩] }

/-- The driver heap after `completeRide` has released the driver of `ride`: the driver is
AVAILABLE and `id` is the last entry of its history.  `none` is undefined behaviour. -/
def releaseDriver (heap : List Driver) (id : String) (ride : Ride) : Option (List Driver) :=
  match ride.driver with
  | none => some heap
  | some p =>
    match heap[p]? with
    | none => none
    | some driver => some (heap.set p ((driver.setStatus .AVAILABLE).addRideToHistory id))

/-- The rider heap after `completeRide` has appended `id` to the history of the rider of
`ride`.  `none` is undefined behaviour. -/
def recordRider (heap : List Rider) (id : String) (ride : Ride) : Option (List Rider) :=
  match heap[ride.rider]? with
  | none => none
  | some rider => some (heap.set ride.rider (rider.addRideToHistory id))

/-- Heaps with one rider and one available sedan driver, both at the origin, and a freshly
constructed orchestrator. -/
def freshWorld : World :=
  ⟨[Rider.new "R001" "P" "9" origin 4.5],
   [Driver.new "D001" "A" "1" origin (some (Sedan "V001" "P1")) 4.8],
   RideManager.new, [], []⟩

/-- Registration of a sink, the rider and the driver. -/
def registerOps : List Op := [.addObserver 7, .addRider 0, .addDriver 0]

/-- The request of the registered rider for a sedan. -/
def requestOp : Op := .requestRide "R001" origin origin .SEDAN .NORMAL

/-- The state after `registerOps`: one sink, the rider and the driver are registered. -/
def registeredWorld : World := ((freshWorld.addObserver 7).addRider 0).addDriver 0

/-- The ride that `requestOp` creates in `registeredWorld`. -/
def firstRide : Ride := Ride.matched "RIDE_1" 0 origin origin .SEDAN .NORMAL 0

/-- The state after `requestOp` in `registeredWorld`: `RIDE_1` is assigned to the driver. -/
def requestedWorld : World :=
  registeredWorld.afterMatch "RIDE_1" firstRide 0
    (Driver.new "D001" "A" "1" origin (some (Sedan "V001" "P1")) 4.8)

/-- The state after `startRide("RIDE_1")` in `requestedWorld`. -/
def startedWorld : World := requestedWorld.afterStart "RIDE_1" firstRide

/-- The table ride of `startedWorld`: `RIDE_1` in progress. -/
def startedRide : Ride := (firstRide.setStatus .DRIVER_EN_ROUTE).startRide

/-- The table ride of `completedWorld`: `RIDE_1` completed at fare 60 (base 50, no distance,
sedan coefficient 12 over 10). -/
def completedRide : Ride := startedRide.completeRide.setFare 60

/-- The state after `completeRide("RIDE_1")` in `startedWorld`. -/
def completedWorld : World :=
  startedWorld.afterComplete "RIDE_1" startedRide 60
    [{ Driver.new "D001" "A" "1" origin (some (Sedan "V001" "P1")) 4.8 with
        rideHistory := ["RIDE_1"] }]
    [{ Rider.new "R001" "P" "9" origin 4.5 with rideHistory := ["RIDE_1"] }]

/-- The state after a second request in `completedWorld`: `RIDE_1` is completed and the same
driver is assigned to `RIDE_2`. -/
def rebookedWorld : World :=
  ((completedWorld.requestRide Rat.sqrt "R001" origin origin .SEDAN .NORMAL).map
    Prod.snd).getD completedWorld

/-- A ride of 10 km to the origin without a driver. -/
def tenKmRide : Ride := Ride.new "RIDE_1" 0 (pointAt 10) origin .SEDAN .NORMAL

/-- The parameters of a fare policy chain are in the range that keeps fares non-negative:
base and rate of the base calculator and every surge factor are at least 0, every discount
fraction is at most 1. -/
def FareCalculator.NonNegParams : FareCalculator → Prop
  | .BaseFareCalculator baseFare perKmRate => 0 ≤ baseFare ∧ 0 ≤ perKmRate
  | .SurgePricingDecorator baseCalculator surgeMultiplier =>
    NonNegParams baseCalculator ∧ 0 ≤ surgeMultiplier
  | .DiscountDecorator baseCalculator discountPercentage =>
    NonNegParams baseCalculator ∧ discountPercentage ≤ 1

/-- The state after `completeRide("RIDE_1")` in `requestedWorld`, where the ride is still
DRIVER_ASSIGNED. -/
def skippedWorld : World :=
  requestedWorld.afterComplete "RIDE_1" firstRide 60
    [{ Driver.new "D001" "A" "1" origin (some (Sedan "V001" "P1")) 4.8 with
        rideHistory := ["RIDE_1"] }]
    [{ Rider.new "R001" "P" "9" origin 4.5 with rideHistory := ["RIDE_1"] }]

/-- The state after `startRide("RIDE_1")` in `completedWorld`, where the ride is already
COMPLETED. -/
def restartedWorld : World := completedWorld.afterStart "RIDE_1" completedRide

/-! ## Lifecycle vocabulary -/

/-- The edges of the ride lifecycle: REQUESTED to DRIVER_ASSIGNED to DRIVER_EN_ROUTE to
IN_PROGRESS to COMPLETED, and any status to CANCELLED. -/
def RideStatus.allowedEdge : RideStatus → RideStatus → Bool
  | .REQUESTED, .DRIVER_ASSIGNED => true
  | .DRIVER_ASSIGNED, .DRIVER_EN_ROUTE => true
  | .DRIVER_EN_ROUTE, .IN_PROGRESS => true
  | .IN_PROGRESS, .COMPLETED => true
  | _, .CANCELLED => true
  | _, _ => false

/-- The status of the ride of key `key` after the writes `log`, starting from `s` (`none`
when the table has no such ride). -/
def replayStatus (key : String) : Option RideStatus → List StatusWrite → Option RideStatus
  | s, [] => s
  | s, c :: cs => if c.rideId = key then replayStatus key (some c.new) cs
    else replayStatus key s cs

/-- The ride is neither COMPLETED nor CANCELLED. -/
def Ride.Active (r : Ride) : Prop := r.status ≠ .COMPLETED ∧ r.status ≠ .CANCELLED

instance (r : Ride) : Decidable r.Active := inferInstanceAs (Decidable (_ ∧ _))

/-- A registered driver is ON_TRIP exactly when some table ride that is neither COMPLETED nor
CANCELLED has it as driver. -/
def OnTripIffAssigned (w : World) : Prop :=
  ∀ p ∈ w.manager.drivers, ∀ d ∈ w.driverHeap[p]?,
    (d.status = .ON_TRIP ↔ ∃ e ∈ w.manager.rides, e.2.driver = some p ∧ e.2.Active)

instance (w : World) : Decidable (OnTripIffAssigned w) :=
  inferInstanceAs (Decidable (∀ p ∈ w.manager.drivers, ∀ d ∈ w.driverHeap[p]?, _))

/-- No driver is the driver of two distinct table rides that are both active. -/
def NoDoubleBooking (w : World) : Prop :=
  ∀ e1 ∈ w.manager.rides, ∀ e2 ∈ w.manager.rides, e1.2.Active → e2.2.Active →
    e1.2.driver ≠ none → e1.2.driver = e2.2.driver → e1 = e2

instance (w : World) : Decidable (NoDoubleBooking w) :=
  inferInstanceAs (Decidable (∀ e1 ∈ w.manager.rides, ∀ e2 ∈ w.manager.rides, _))

/-- Every table ride has a driver and a status at or beyond DRIVER_ASSIGNED. -/
def RidesAssigned (w : World) : Prop :=
  ∀ e ∈ w.manager.rides, e.2.driver ≠ none ∧
    (e.2.status = .DRIVER_ASSIGNED ∨ e.2.status = .DRIVER_EN_ROUTE ∨
      e.2.status = .IN_PROGRESS ∨ e.2.status = .COMPLETED)

/-- A table ride has a stored fare other than 0 only when it is COMPLETED. -/
def FareOnlyWhenCompleted (w : World) : Prop :=
  ∀ e ∈ w.manager.rides, e.2.fare ≠ 0 → e.2.status = .COMPLETED

instance (w : World) : Decidable (FareOnlyWhenCompleted w) :=
  inferInstanceAs (Decidable (∀ e ∈ w.manager.rides, _))

/-- The operation is not `startRide` or `completeRide` of a ride that is already COMPLETED
or CANCELLED. -/
def Op.AvoidsFinished (w : World) : Op → Prop
  | .startRide rideId => ∀ r, w.manager.rides.find rideId = some r → r.Active
  | .completeRide rideId => ∀ r, w.manager.rides.find rideId = some r → r.Active
  | _ => True

/-- The operation is not `startRide` of a ride that is already COMPLETED. -/
def Op.StartsUncompleted (w : World) : Op → Prop
  | .startRide rideId => ∀ r, w.manager.rides.find rideId = some r → r.status ≠ .COMPLETED
  | _ => True

/-- The operation meets the ride in the status the lifecycle expects: `startRide` a
DRIVER_ASSIGNED ride, `completeRide` an IN_PROGRESS ride. -/
def Op.InExpectedState (w : World) : Op → Prop
  | .startRide rideId =>
    ∀ r, w.manager.rides.find rideId = some r → r.status = .DRIVER_ASSIGNED
  | .completeRide rideId =>
    ∀ r, w.manager.rides.find rideId = some r → r.status = .IN_PROGRESS
  | _ => True

/-- The states reachable from an initial state by operations that `allowed` admits in the
state in which they are invoked. -/
inductive ReachableUnder (sqrt : Double → Double) (allowed : World → Op → Prop) :
    World → Prop
  | init (w : World) : w.Initial → ReachableUnder sqrt allowed w
  | step (w w1 : World) (op : Op) : ReachableUnder sqrt allowed w → allowed w op →
      w.step sqrt op = some w1 → ReachableUnder sqrt allowed w1

/-- The keys of the ride table are distinct identifiers generated from counter values below
the current one. -/
def KeysInv (rides : RideTable) (counter : Int) : Prop :=
  (rides.map Prod.fst).Nodup ∧ 1 ≤ counter ∧
    ∀ e ∈ rides, ∃ n : Int, 1 ≤ n ∧ n < counter ∧ e.1 = rideIdOf n

/-- Drivers and active rides correspond one to one: an ON_TRIP driver has an active ride, the
driver of an active ride is ON_TRIP, and two active rides with the same driver are the same
table entry. -/
def BookingInv (heap : List Driver) (rides : RideTable) : Prop :=
  (∀ p d, heap[p]? = some d → d.status = .ON_TRIP →
    ∃ e ∈ rides, e.2.driver = some p ∧ e.2.Active) ∧
  (∀ e ∈ rides, e.2.Active → ∀ p d, e.2.driver = some p → heap[p]? = some d →
    d.status = .ON_TRIP) ∧
  (∀ e1 ∈ rides, ∀ e2 ∈ rides, e1.2.Active → e2.2.Active → ∀ p, e1.2.driver = some p →
    e2.2.driver = some p → e1 = e2)

/-- Request, complete, request again, complete the first ride a second time, request a third
time: the operations after registration that book the driver twice. -/
def doubleBookingOps : List Op :=
  [requestOp, .completeRide "RIDE_1", requestOp, .completeRide "RIDE_1", requestOp]

/-- The state after `doubleBookingOps` in `registeredWorld`. -/
def doubleBookedWorld : World :=
  (registeredWorld.run Rat.sqrt doubleBookingOps).getD registeredWorld

/-! ## Vocabulary for identifiers, sinks and policy chains -/

/-- The two rides are the same object as far as its immutable members tell: they agree on
everything but status and fare. -/
def Ride.SameIdentity (r1 r2 : Ride) : Prop :=
  r1.rideId = r2.rideId ∧ r1.rider = r2.rider ∧ r1.driver = r2.driver ∧
    r1.pickupLocation = r2.pickupLocation ∧ r1.dropoffLocation = r2.dropoffLocation ∧
    r1.rideType = r2.rideType ∧ r1.requestedVehicleType = r2.requestedVehicleType

/-- The state after a sequence of operations together with the rides that its successful
`requestRide` calls returned, in call order. -/
def World.runReturned (sqrt : Double → Double) (w : World) :
    List Op → Option (List Ride × World)
  | [] => some ([], w)
  | op :: ops =>
    match op with
    | .requestRide riderId pickup dropoff vehicleType rideType =>
      match w.requestRide sqrt riderId pickup dropoff vehicleType rideType with
      | none => none
      | some (res, w1) =>
        match World.runReturned sqrt w1 ops with
        | none => none
        | some (rides, w2) => some (res.toList ++ rides, w2)
    | _ =>
      match w.step sqrt op with
      | none => none
      | some w1 => World.runReturned sqrt w1 ops

/-- One decorator of a fare policy chain, with its configured value. -/
inductive Decorator where
  | surge (surgeMultiplier : Double)
  | discount (discountPercentage : Double)
  deriving DecidableEq, Repr

/-- The decorator wrapped around an inner calculator. -/
def Decorator.apply (d : Decorator) (inner : FareCalculator) : FareCalculator :=
  match d with
  | .surge f => .SurgePricingDecorator inner f
  | .discount p => .DiscountDecorator inner p

/-- The text a decorator appends to the description of its inner calculator. -/
def Decorator.fragment : Decorator → String
  | .surge _ => " + Surge Pricing"
  | .discount _ => " + Discount Applied"

/-- The factor by which a decorator multiplies the inner fare. -/
def Decorator.factor : Decorator → Double
  | .surge f => f
  | .discount p => 1 - p

/-- The chain obtained by wrapping the decorators around `inner`, the first of the list
innermost. -/
def FareCalculator.wrap (inner : FareCalculator) : List Decorator → FareCalculator
  | [] => inner
  | d :: ds => FareCalculator.wrap (d.apply inner) ds

/-- The concatenation of a list of strings. -/
def concatAll : List String → String
  | [] => ""
  | s :: ss => s ++ concatAll ss

/-- What the base calculator reads of the driver of a ride: `none` when the driver pointer
holds no object (undefined behaviour), `some none` when the ride has no driver or the driver
no vehicle, and the base-fare-rate coefficient of the vehicle otherwise. -/
def vehicleCoefficient (heap : List Driver) (ride : Ride) : Option (Option Double) :=
  match ride.driver with
  | none => some none
  | some p =>
    match heap[p]? with
    | none => none
    | some driver => some (driver.vehicle.map Vehicle.baseFareRate)

/-- The vehicle is one of the four built-in classes. -/
def Vehicle.BuiltIn (v : Vehicle) : Prop :=
  ∃ id plate, v = Bike id plate ∨ v = Sedan id plate ∨ v = SUV id plate ∨
    v = AutoRickshaw id plate

/-- Three registrations, the sink 7 twice. -/
def threeSinksWorld : World := ((freshWorld.addObserver 7).addObserver 8).addObserver 7

/-! ## The type `double` as IEEE 754 binary64

The definitions above compute with `double` in exact arithmetic.  For the sign of a fare the
overflow of an amount to infinity matters, so the fare calculators are embedded a second time
over the binary64 values, each operation rounded to nearest, ties to even. -/

/-- A binary64 value: a finite number, one of the two infinities, or NaN.  The two zeros are
not told apart (the embedded code does not divide by zero). -/
inductive Binary64 where
  | finite (value : ℚ)
  | posInf
  | negInf
  | nan
  deriving DecidableEq, Repr

/-- Exponent of the binade of the magnitude `a`: the integer part of its binary logarithm, and
-1022 for the subnormal numbers. -/
def Binary64.exponent (a : ℚ) : ℤ := max (Int.log 2 a) (-1022)

/-- Distance of neighbouring binary64 numbers in the binade of `a` (53 significant bits). -/
def Binary64.quantum (a : ℚ) : ℚ := 2 ^ (Binary64.exponent a - 52)

/-- The integer nearest to `x`, the even one of two that are equally near. -/
def Binary64.roundHalfEven (x : ℚ) : ℤ :=
  if x - ⌊x⌋ < 1 / 2 then ⌊x⌋
  else if 1 / 2 < x - ⌊x⌋ then ⌊x⌋ + 1
  else if ⌊x⌋ % 2 = 0 then ⌊x⌋ else ⌊x⌋ + 1

/-- The multiple of the quantum nearest to the magnitude `a`. -/
def Binary64.nearestMagnitude (a : ℚ) : ℚ :=
  Binary64.roundHalfEven (a / Binary64.quantum a) * Binary64.quantum a

/-- The binary64 result of an operation whose exact result is `q`: round to nearest, ties to
even; a magnitude that rounds above `DBL_MAX` overflows to the infinity of its sign. -/
def Binary64.round (q : ℚ) : Binary64 :=
  if 0 ≤ q then
    if DBL_MAX < Binary64.nearestMagnitude q then .posInf
    else .finite (Binary64.nearestMagnitude q)
  else
    if DBL_MAX < Binary64.nearestMagnitude (-q) then .negInf
    else .finite (-Binary64.nearestMagnitude (-q))

/-- The sign change `-x`. -/
def Binary64.neg : Binary64 → Binary64
  | .finite a => .finite (-a)
  | .posInf => .negInf
  | .negInf => .posInf
  | .nan => .nan

/-- The sum `x + y`. -/
def Binary64.add : Binary64 → Binary64 → Binary64
  | .finite a, .finite b => Binary64.round (a + b)
  | .finite _, .posInf => .posInf
  | .finite _, .negInf => .negInf
  | .posInf, .finite _ => .posInf
  | .posInf, .posInf => .posInf
  | .negInf, .finite _ => .negInf
  | .negInf, .negInf => .negInf
  | _, _ => .nan

/-- The difference `x - y`. -/
def Binary64.sub (x y : Binary64) : Binary64 := x.add y.neg

/-- The product of the infinity of the given sign with the finite number `a`: NaN when `a` is
zero, and the infinity of the product of the two signs otherwise. -/
def Binary64.infTimes (positive : Bool) (a : ℚ) : Binary64 :=
  if a = 0 then .nan
  else if decide (0 < a) = positive then .posInf else .negInf

/-- The product `x * y`. -/
def Binary64.mul : Binary64 → Binary64 → Binary64
  | .finite a, .finite b => Binary64.round (a * b)
  | .finite a, .posInf => Binary64.infTimes true a
  | .finite a, .negInf => Binary64.infTimes false a
  | .posInf, .finite b => Binary64.infTimes true b
  | .negInf, .finite b => Binary64.infTimes false b
  | .posInf, .posInf => .posInf
  | .posInf, .negInf => .negInf
  | .negInf, .posInf => .negInf
  | .negInf, .negInf => .posInf
  | _, _ => .nan

/-- The quotient `x / y`; a zero divisor is taken as positive. -/
def Binary64.div : Binary64 → Binary64 → Binary64
  | .finite a, .finite b =>
    if b = 0 then (if a = 0 then .nan else if 0 < a then .posInf else .negInf)
    else Binary64.round (a / b)
  | .finite _, .posInf => .finite 0
  | .finite _, .negInf => .finite 0
  | .posInf, .finite b => if 0 ≤ b then .posInf else .negInf
  | .negInf, .finite b => if 0 ≤ b then .negInf else .posInf
  | _, _ => .nan

/-- The library function `sqrt` on binary64 values, from the square root `sqrt` of exact
arithmetic. -/
def Binary64.sqrt (sqrt : Double → Double) : Binary64 → Binary64
  | .finite a => if a < 0 then .nan else Binary64.round (sqrt a)
  | .posInf => .posInf
  | _ => .nan

/-- The comparison `x <= y`, false when one side is NaN. -/
def Binary64.le : Binary64 → Binary64 → Prop
  | .finite a, .finite b => a ≤ b
  | .finite _, .posInf => True
  | .negInf, .finite _ => True
  | .negInf, .negInf => True
  | .negInf, .posInf => True
  | .posInf, .posInf => True
  | _, _ => False

instance Binary64.decidableLe (x y : Binary64) : Decidable (x.le y) := by
  cases x <;> cases y <;> simp only [Binary64.le] <;> infer_instance

/-- The value is finite and greater than zero. -/
def Binary64.IsPos : Binary64 → Prop
  | .finite a => 0 < a
  | _ => False

instance Binary64.decidableIsPos (x : Binary64) : Decidable x.IsPos := by
  cases x <;> simp only [Binary64.IsPos] <;> infer_instance

/-- `Location::distanceTo` over binary64; the members hold finite values. -/
def Location.distanceTo64 (sqrt : Double → Double) (self other : Location) : Binary64 :=
  let dx := (Binary64.finite self.latitude).sub (.finite other.latitude)
  let dy := (Binary64.finite self.longitude).sub (.finite other.longitude)
  (Binary64.sqrt sqrt ((dx.mul dx).add (dy.mul dy))).mul (.finite 111)

/-- `Ride::getDistance` over binary64. -/
def Ride.getDistance64 (sqrt : Double → Double) (self : Ride) : Binary64 :=
  self.pickupLocation.distanceTo64 sqrt self.dropoffLocation

/-- `BaseFareCalculator::calculateFare` over binary64; the members hold finite values.
`none` is undefined behaviour (the ride holds an address without a driver object). -/
def BaseFareCalculator.calculateFare64 (sqrt : Double → Double) (heap : List Driver)
    (baseFare perKmRate : Double) (ride : Ride) : Option Binary64 :=
  let distance := ride.getDistance64 sqrt
  let amount := (Binary64.finite baseFare).add (distance.mul (.finite perKmRate))
  match ride.driver with
  | none => some (amount.mul (.finite 1))
  | some p =>
    match heap[p]? with
    | none => none
    | some driver =>
      match driver.vehicle with
      | none => some (amount.mul (.finite 1))
      | some vehicle =>
        some (amount.mul ((Binary64.finite vehicle.baseFareRate).div (.finite 10)))

/-- Virtual dispatch of `FareCalculator::calculateFare` over binary64. -/
def FareCalculator.calculateFare64 (sqrt : Double → Double) (heap : List Driver) (ride : Ride) :
    FareCalculator → Option Binary64
  | .BaseFareCalculator baseFare perKmRate =>
    RideShare.BaseFareCalculator.calculateFare64 sqrt heap baseFare perKmRate ride
  | .SurgePricingDecorator baseCalculator surgeMultiplier =>
    match calculateFare64 sqrt heap ride baseCalculator with
    | none => none
    | some baseFare => some (baseFare.mul (.finite surgeMultiplier))
  | .DiscountDecorator baseCalculator discountPercentage =>
    match calculateFare64 sqrt heap ride baseCalculator with
    | none => none
    | some baseFare =>
      some (baseFare.mul ((Binary64.finite 1).sub (.finite discountPercentage)))

/-- What the base calculator multiplies the amount by: 1.0 when the ride has no driver or the
driver no vehicle, the base-fare-rate coefficient of the vehicle divided by 10.0 otherwise;
`none` when the driver pointer holds no object. -/
def vehicleMultiplier64 (heap : List Driver) (ride : Ride) : Option Binary64 :=
  (vehicleCoefficient heap ride).map (fun co =>
    match co with
    | none => .finite 1
    | some x => (Binary64.finite x).div (.finite 10))

/-- Every factor of the policy chain is finite and greater than zero as the code computes it:
the surge factors, and one minus the discount fraction; base and rate are at least 0. -/
def FareCalculator.PosFactors : FareCalculator → Prop
  | .BaseFareCalculator baseFare perKmRate => 0 ≤ baseFare ∧ 0 ≤ perKmRate
  | .SurgePricingDecorator baseCalculator surgeMultiplier =>
    PosFactors baseCalculator ∧ 0 < surgeMultiplier
  | .DiscountDecorator baseCalculator discountPercentage =>
    PosFactors baseCalculator ∧
      ((Binary64.finite 1).sub (.finite discountPercentage)).IsPos

/-- A ride of 333 km to the origin without a driver. -/
def longRide : Ride := Ride.new "RIDE_1" 0 ⟨3, 0, "north"⟩ origin .SEDAN .NORMAL

/-- The binary64 number 2^1023, about 8.99e307; `DBL_MAX` is just below twice this amount. -/
def hugeAmount : Double := 2 ^ 1023

/-! # Theorems -/

/-! ## The scan behind both matching policies -/

theorem scanMin_of_no_smaller (key : Nat → Option ℚ) (l : List Nat) (best : Option Nat) (m : ℚ)
    (h : ∀ p ∈ l, ∀ k, key p = some k → ¬ k < m) : scanMin key l best m = best := by
  induction l with
  | nil => rfl
  | cons a rest ih =>
    have hrest : ∀ p ∈ rest, ∀ k, key p = some k → ¬ k < m :=
      fun p hp k hk => h p (List.mem_cons_of_mem _ hp) k hk
    unfold scanMin
    cases hka : key a with
    | none => simpa using ih hrest
    | some ka =>
      have hnot : ¬ ka < m := h a (List.mem_cons_self _ _) ka hka
      simpa [hnot] using ih hrest

theorem scanMin_of_smaller (key : Nat → Option ℚ) (l : List Nat) :
    ∀ (best : Option Nat) (m : ℚ), (∃ p ∈ l, ∃ k, key p = some k ∧ k < m) →
      ∃ (i : Nat) (p : Nat) (k : ℚ), l[i]? = some p ∧ key p = some k ∧ k < m ∧ scanMin key l best m = some p ∧
        (∀ q ∈ l, ∀ kq, key q = some kq → k ≤ kq) ∧
        (∀ (j : Nat) (q : Nat) (kq : ℚ), j < i → l[j]? = some q → key q = some kq → k < kq) := by
  induction l with
  | nil => intro best m h; obtain ⟨p, hp, _⟩ := h; cases hp
  | cons a rest ih =>
    intro best m h
    obtain ⟨p0, hp0, k0, hk0, hlt0⟩ := h
    cases hka : key a with
    | none =>
      have hp0r : p0 ∈ rest := by
        rcases List.mem_cons.1 hp0 with rfl | hr
        · rw [hka] at hk0; cases hk0
        · exact hr
      obtain ⟨i, p, k, hi, hk, hlt, hres, hmin, hfirst⟩ := ih best m ⟨p0, hp0r, k0, hk0, hlt0⟩
      refine ⟨i + 1, p, k, by simpa using hi, hk, hlt, ?_, ?_, ?_⟩
      · unfold scanMin; simpa [hka] using hres
      · intro q hq kq hkq
        rcases List.mem_cons.1 hq with rfl | hr
        · rw [hka] at hkq; cases hkq
        · exact hmin q hr kq hkq
      · intro j q kq hj hjq hkq
        cases j with
        | zero =>
          simp only [List.getElem?_cons_zero, Option.some.injEq] at hjq
          subst hjq; rw [hka] at hkq; cases hkq
        | succ j =>
          exact hfirst j q kq (by omega) (by simpa using hjq) hkq
    | some ka =>
      by_cases hlt : ka < m
      · by_cases hex : ∃ p ∈ rest, ∃ k, key p = some k ∧ k < ka
        · obtain ⟨i, p, k, hi, hk, hlt1, hres, hmin, hfirst⟩ := ih (some a) ka hex
          refine ⟨i + 1, p, k, by simpa using hi, hk, lt_trans hlt1 hlt, ?_, ?_, ?_⟩
          · unfold scanMin; simpa [hka, hlt] using hres
          · intro q hq kq hkq
            rcases List.mem_cons.1 hq with rfl | hr
            · rw [hka] at hkq; cases hkq; exact le_of_lt hlt1
            · exact hmin q hr kq hkq
          · intro j q kq hj hjq hkq
            cases j with
            | zero =>
              simp only [List.getElem?_cons_zero, Option.some.injEq] at hjq
              subst hjq; rw [hka] at hkq; cases hkq; exact hlt1
            | succ j =>
              exact hfirst j q kq (by omega) (by simpa using hjq) hkq
        · have hnone : ∀ p ∈ rest, ∀ k, key p = some k → ¬ k < ka :=
            fun p hp k hk hlt1 => hex ⟨p, hp, k, hk, hlt1⟩
          refine ⟨0, a, ka, by simp, hka, hlt, ?_, ?_, ?_⟩
          · unfold scanMin
            simpa [hka, hlt] using scanMin_of_no_smaller key rest (some a) ka hnone
          · intro q hq kq hkq
            rcases List.mem_cons.1 hq with rfl | hr
            · rw [hka] at hkq; cases hkq; exact le_refl _
            · exact not_lt.1 (hnone q hr kq hkq)
          · intro j q kq hj; omega
      · have hp0r : p0 ∈ rest := by
          rcases List.mem_cons.1 hp0 with rfl | hr
          · rw [hka] at hk0; cases hk0; exact absurd hlt0 hlt
          · exact hr
        obtain ⟨i, p, k, hi, hk, hlt1, hres, hmin, hfirst⟩ :=
          ih best m ⟨p0, hp0r, k0, hk0, hlt0⟩
        have hkka : k < ka := lt_of_lt_of_le hlt1 (not_lt.1 hlt)
        refine ⟨i + 1, p, k, by simpa using hi, hk, hlt1, ?_, ?_, ?_⟩
        · unfold scanMin; simpa [hka, hlt] using hres
        · intro q hq kq hkq
          rcases List.mem_cons.1 hq with rfl | hr
          · rw [hka] at hkq; cases hkq; exact le_of_lt hkka
          · exact hmin q hr kq hkq
        · intro j q kq hj hjq hkq
          cases j with
          | zero =>
            simp only [List.getElem?_cons_zero, Option.some.injEq] at hjq
            subst hjq; rw [hka] at hkq; cases hkq; exact hkka
          | succ j =>
            exact hfirst j q kq (by omega) (by simpa using hjq) hkq

/-! ## The policy loops as scans -/

theorem candidatesDefined_cons (heap : List Driver) (a : DriverPtr) (rest : List DriverPtr)
    (d : Driver) (hd : heap[a]? = some d) (hv : d.status = .AVAILABLE → d.vehicle ≠ none)
    (hrest : CandidatesDefined heap rest) : CandidatesDefined heap (a :: rest) := by
  intro p hp
  rcases List.mem_cons.1 hp with rfl | hr
  · exact ⟨d, hd, hv⟩
  · exact hrest p hr

theorem nearest_loop_eq_scanMin (sqrt : Double → Double) (heap : List Driver)
    (ride : Ride) (l : List DriverPtr) (hdef : CandidatesDefined heap l) :
    ∀ (best : Option DriverPtr) (m : Double),
      NearestDriverStrategy.loop sqrt heap ride l best m =
        some (scanMin (candidateKey heap ride (pickupDistance sqrt ride)) l best m) := by
  induction l with
  | nil => intro best m; rfl
  | cons a rest ih =>
    intro best m
    have ih1 := ih (fun p hp => hdef p (List.mem_cons_of_mem _ hp))
    obtain ⟨d, hd, hv⟩ := hdef a (List.mem_cons_self _ _)
    have hkey : candidateKey heap ride (pickupDistance sqrt ride) a =
        if d.Eligible ride then some (pickupDistance sqrt ride d) else none := by
      simp [candidateKey, hd]
    simp only [NearestDriverStrategy.loop, scanMin, hd, hkey]
    by_cases hav : d.status = .AVAILABLE
    · cases hveh : d.vehicle with
      | none => exact absurd hveh (hv hav)
      | some v =>
        by_cases hty : v.type = ride.requestedVehicleType
        · have hel : d.Eligible ride := ⟨hav, by simp [hveh, hty]⟩
          simp only [Driver.isAvailable, hav, hty, hel, decide_True, Bool.not_true,
            Bool.false_eq_true, if_false, if_true, ne_eq, not_true_eq_false]
          by_cases hlt : pickupDistance sqrt ride d < m
          · have hlt1 : Location.distanceTo sqrt d.currentLocation ride.pickupLocation < m := hlt
            rw [if_pos hlt, if_pos hlt1]; exact ih1 _ _
          · have hlt1 : ¬ Location.distanceTo sqrt d.currentLocation ride.pickupLocation < m := hlt
            rw [if_neg hlt, if_neg hlt1]; exact ih1 _ _
        · have hel : ¬ d.Eligible ride := fun h => hty (by simpa [hveh] using h.2)
          simpa [Driver.isAvailable, hav, hty, hel] using ih1 best m
    · have hel : ¬ d.Eligible ride := fun h => hav h.1
      simpa [Driver.isAvailable, hav, hel] using ih1 best m

theorem nearest_defined_of_loop (sqrt : Double → Double) (heap : List Driver)
    (ride : Ride) (l : List DriverPtr) :
    ∀ (best : Option DriverPtr) (m : Double) (r : Option DriverPtr),
      NearestDriverStrategy.loop sqrt heap ride l best m = some r → CandidatesDefined heap l := by
  induction l with
  | nil => intro _ _ _ _ p hp; cases hp
  | cons a rest ih =>
    intro best m r h
    unfold NearestDriverStrategy.loop at h
    cases hd : heap[a]? with
    | none => simp [hd] at h
    | some d =>
      simp only [hd] at h
      by_cases hav : d.status = .AVAILABLE
      · cases hveh : d.vehicle with
        | none => simp [Driver.isAvailable, hav, hveh] at h
        | some v =>
          simp only [Driver.isAvailable, hav, hveh, decide_True, Bool.not_true,
            Bool.false_eq_true, if_false] at h
          have hrest : CandidatesDefined heap rest := by
            split at h
            · exact ih _ _ _ h
            · split at h
              · exact ih _ _ _ h
              · exact ih _ _ _ h
          exact candidatesDefined_cons heap a rest d hd (by simp [hveh]) hrest
      · simp only [Driver.isAvailable, hav, decide_False, Bool.not_false, if_true] at h
        exact candidatesDefined_cons heap a rest d hd (fun h1 => absurd h1 hav) (ih _ _ _ h)

theorem highestRated_loop_eq_scanMin (heap : List Driver)
    (ride : Ride) (l : List DriverPtr) (hdef : CandidatesDefined heap l) :
    ∀ (best : Option DriverPtr) (h : Double),
      HighestRatedDriverStrategy.loop heap ride l best h =
        some (scanMin (candidateKey heap ride (fun d => - d.rating)) l best (- h)) := by
  induction l with
  | nil => intro best m; rfl
  | cons a rest ih =>
    intro best m
    have ih1 := ih (fun p hp => hdef p (List.mem_cons_of_mem _ hp))
    obtain ⟨d, hd, hv⟩ := hdef a (List.mem_cons_self _ _)
    have hkey : candidateKey heap ride (fun d => - d.rating) a =
        if d.Eligible ride then some (- d.rating) else none := by
      simp [candidateKey, hd]
    simp only [HighestRatedDriverStrategy.loop, scanMin, hd, hkey]
    by_cases hav : d.status = .AVAILABLE
    · cases hveh : d.vehicle with
      | none => exact absurd hveh (hv hav)
      | some v =>
        by_cases hty : v.type = ride.requestedVehicleType
        · have hel : d.Eligible ride := ⟨hav, by simp [hveh, hty]⟩
          simp only [Driver.isAvailable, hav, hty, hel, decide_True, Bool.not_true,
            Bool.false_eq_true, if_false, if_true, ne_eq, not_true_eq_false]
          by_cases hlt : d.rating > m
          · have hlt1 : - d.rating < - m := neg_lt_neg hlt
            simpa [hlt, hlt1] using ih1 (some a) d.rating
          · have hlt1 : ¬ - d.rating < - m := fun h => hlt (neg_lt_neg_iff.1 h)
            simpa [hlt, hlt1] using ih1 best m
        · have hel : ¬ d.Eligible ride := fun h => hty (by simpa [hveh] using h.2)
          simpa [Driver.isAvailable, hav, hty, hel] using ih1 best m
    · have hel : ¬ d.Eligible ride := fun h => hav h.1
      simpa [Driver.isAvailable, hav, hel] using ih1 best m

theorem highestRated_defined_of_loop (heap : List Driver)
    (ride : Ride) (l : List DriverPtr) :
    ∀ (best : Option DriverPtr) (m : Double) (r : Option DriverPtr),
      HighestRatedDriverStrategy.loop heap ride l best m = some r → CandidatesDefined heap l := by
  induction l with
  | nil => intro _ _ _ _ p hp; cases hp
  | cons a rest ih =>
    intro best m r h
    unfold HighestRatedDriverStrategy.loop at h
    cases hd : heap[a]? with
    | none => simp [hd] at h
    | some d =>
      simp only [hd] at h
      by_cases hav : d.status = .AVAILABLE
      · cases hveh : d.vehicle with
        | none => simp [Driver.isAvailable, hav, hveh] at h
        | some v =>
          simp only [Driver.isAvailable, hav, hveh, decide_True, Bool.not_true,
            Bool.false_eq_true, if_false] at h
          have hrest : CandidatesDefined heap rest := by
            split at h
            · exact ih _ _ _ h
            · split at h
              · exact ih _ _ _ h
              · exact ih _ _ _ h
          exact candidatesDefined_cons heap a rest d hd (by simp [hveh]) hrest
      · simp only [Driver.isAvailable, hav, decide_False, Bool.not_false, if_true] at h
        exact candidatesDefined_cons heap a rest d hd (fun h1 => absurd h1 hav) (ih _ _ _ h)

theorem candidateKey_eq_some (heap : List Driver) (ride : Ride) (f : Driver → ℚ)
    (p : DriverPtr) (k : ℚ) :
    candidateKey heap ride f p = some k ↔
      ∃ d, heap[p]? = some d ∧ d.Eligible ride ∧ f d = k := by
  unfold candidateKey
  cases hd : heap[p]? with
  | none => simp
  | some d =>
    by_cases hel : d.Eligible ride
    · simp [hel]
    · simp [hel]

theorem scanMin_none_eq_some (key : Nat → Option ℚ) (l : List Nat) (m : ℚ) (p : Nat)
    (h : scanMin key l none m = some p) :
    ∃ (i : Nat) (k : ℚ), l[i]? = some p ∧ key p = some k ∧ k < m ∧
      (∀ q ∈ l, ∀ kq, key q = some kq → k ≤ kq) ∧
      (∀ (j : Nat) (q : Nat) (kq : ℚ), j < i → l[j]? = some q → key q = some kq → k < kq) := by
  by_cases hex : ∃ q ∈ l, ∃ k, key q = some k ∧ k < m
  · obtain ⟨i, p1, k, hi, hk, hlt, hres, hmin, hfirst⟩ := scanMin_of_smaller key l none m hex
    rw [h] at hres
    cases hres
    exact ⟨i, k, hi, hk, hlt, hmin, hfirst⟩
  · have hnone := scanMin_of_no_smaller key l none m
      (fun q hq k hk hlt => hex ⟨q, hq, k, hk, hlt⟩)
    rw [h] at hnone
    cases hnone

theorem nearest_findBestDriver_eq_loop (sqrt : Double → Double)
    (heap : List Driver) (l : List DriverPtr) (ride : Ride) :
    NearestDriverStrategy.findBestDriver sqrt heap l ride =
      NearestDriverStrategy.loop sqrt heap ride l none DBL_MAX := by
  cases l with
  | nil => rfl
  | cons a rest => rfl

theorem highestRated_findBestDriver_eq_loop
    (heap : List Driver) (l : List DriverPtr) (ride : Ride) :
    HighestRatedDriverStrategy.findBestDriver heap l ride =
      HighestRatedDriverStrategy.loop heap ride l none 0 := by
  cases l with
  | nil => rfl
  | cons a rest => rfl

theorem nearest_findBestDriver_eq_scanMin (sqrt : Double → Double)
    (heap : List Driver) (l : List DriverPtr) (ride : Ride) (hdef : CandidatesDefined heap l) :
    NearestDriverStrategy.findBestDriver sqrt heap l ride =
      some (scanMin (candidateKey heap ride (pickupDistance sqrt ride)) l none DBL_MAX) := by
  rw [nearest_findBestDriver_eq_loop]
  exact nearest_loop_eq_scanMin sqrt heap ride l hdef none DBL_MAX

theorem highestRated_findBestDriver_eq_scanMin
    (heap : List Driver) (l : List DriverPtr) (ride : Ride) (hdef : CandidatesDefined heap l) :
    HighestRatedDriverStrategy.findBestDriver heap l ride =
      some (scanMin (candidateKey heap ride (fun d => - d.rating)) l none 0) := by
  rw [highestRated_findBestDriver_eq_loop]
  simpa using highestRated_loop_eq_scanMin heap ride l hdef none 0

/-- Whatever defined result a policy gives, the candidate list was scanned without undefined
behaviour. -/
theorem defined_of_findBestDriver (sqrt : Double → Double)
    (s : MatchingStrategy) (heap : List Driver) (l : List DriverPtr) (ride : Ride)
    (r : Option DriverPtr) (h : s.findBestDriver sqrt heap l ride = some r) :
    CandidatesDefined heap l := by
  cases s with
  | NearestDriverStrategy =>
    simp only [MatchingStrategy.findBestDriver,
      nearest_findBestDriver_eq_loop] at h
    exact nearest_defined_of_loop sqrt heap ride l _ _ _ h
  | HighestRatedDriverStrategy =>
    simp only [MatchingStrategy.findBestDriver,
      highestRated_findBestDriver_eq_loop] at h
    exact highestRated_defined_of_loop heap ride l _ _ _ h

/-- Both policies are a scan over the same filter; only the measure and the threshold
differ. -/
theorem policy_findBestDriver_eq_scanMin (sqrt : Double → Double)
    (s : MatchingStrategy) (heap : List Driver) (l : List DriverPtr) (ride : Ride)
    (hdef : CandidatesDefined heap l) :
    ∃ (f : Driver → ℚ) (m : ℚ),
      s.findBestDriver sqrt heap l ride = some (scanMin (candidateKey heap ride f) l none m) := by
  cases s with
  | NearestDriverStrategy =>
    exact ⟨_, _, nearest_findBestDriver_eq_scanMin sqrt heap l ride hdef⟩
  | HighestRatedDriverStrategy =>
    exact ⟨_, _, highestRated_findBestDriver_eq_scanMin heap l ride hdef⟩

/-- A driver returned by either policy is an eligible element of the candidate list. -/
theorem findBestDriver_eligible (sqrt : Double → Double)
    (s : MatchingStrategy) (heap : List Driver) (l : List DriverPtr) (ride : Ride)
    (p : DriverPtr) (h : s.findBestDriver sqrt heap l ride = some (some p)) :
    p ∈ l ∧ ∃ d, heap[p]? = some d ∧ d.Eligible ride := by
  have hdef := defined_of_findBestDriver sqrt s heap l ride _ h
  obtain ⟨f, m, hscan⟩ := policy_findBestDriver_eq_scanMin sqrt s heap l ride hdef
  rw [h] at hscan
  obtain ⟨i, k, hi, hk, -⟩ := scanMin_none_eq_some _ l m p (Option.some.inj hscan).symm
  obtain ⟨d, hd, hel, -⟩ := (candidateKey_eq_some heap ride f p k).1 hk
  exact ⟨List.getElem?_mem hi, d, hd, hel⟩

/-! ## Matching policies: C3 to C6 -/

/-- C3. On a candidate list that can be scanned, in which some eligible driver (AVAILABLE, of
the requested vehicle type) is at a distance below the max-double sentinel,
`NearestDriverStrategy::findBestDriver` returns an eligible candidate whose distance to the
pickup location is minimal among all eligible candidates, and it is the first one in the list
at that distance: every eligible candidate at an earlier position is strictly farther. -/
theorem nearest_findBestDriver_first_minimal (sqrt : Double → Double) (heap : List Driver)
    (candidates : List DriverPtr) (ride : Ride)
    (hdef : CandidatesDefined heap candidates)
    (hne : ∃ p ∈ candidates, ∃ d, heap[p]? = some d ∧ d.Eligible ride ∧
      pickupDistance sqrt ride d < DBL_MAX) :
    ∃ (i : Nat) (p : DriverPtr) (d : Driver),
      NearestDriverStrategy.findBestDriver sqrt heap candidates ride = some (some p) ∧
      candidates[i]? = some p ∧ heap[p]? = some d ∧ d.Eligible ride ∧
      (∀ q ∈ candidates, ∀ e, heap[q]? = some e → e.Eligible ride →
        pickupDistance sqrt ride d ≤ pickupDistance sqrt ride e) ∧
      (∀ (j : Nat) (q : DriverPtr) (e : Driver), j < i → candidates[j]? = some q →
        heap[q]? = some e → e.Eligible ride →
        pickupDistance sqrt ride d < pickupDistance sqrt ride e) := by
  obtain ⟨p0, hp0, d0, hd0, hel0, hlt0⟩ := hne
  have hex : ∃ p ∈ candidates, ∃ k,
      candidateKey heap ride (pickupDistance sqrt ride) p = some k ∧ k < DBL_MAX :=
    ⟨p0, hp0, _, (candidateKey_eq_some heap ride _ p0 _).2 ⟨d0, hd0, hel0, rfl⟩, hlt0⟩
  obtain ⟨i, p, k, hi, hk, -, hres, hmin, hfirst⟩ :=
    scanMin_of_smaller _ candidates none DBL_MAX hex
  obtain ⟨d, hd, hel, hkd⟩ := (candidateKey_eq_some heap ride _ p k).1 hk
  subst hkd
  refine ⟨i, p, d, ?_, hi, hd, hel, ?_, ?_⟩
  · rw [nearest_findBestDriver_eq_scanMin sqrt heap candidates ride hdef, hres]
  · intro q hq e he hele
    exact hmin q hq _ ((candidateKey_eq_some heap ride _ q _).2 ⟨e, he, hele, rfl⟩)
  · intro j q e hj hjq he hele
    exact hfirst j q _ hj hjq ((candidateKey_eq_some heap ride _ q _).2 ⟨e, he, hele, rfl⟩)

/-- C4. On a candidate list that can be scanned, in which some eligible driver (AVAILABLE, of
the requested vehicle type) has a rating greater than 0,
`HighestRatedDriverStrategy::findBestDriver` returns an eligible candidate whose rating is the
greatest among all eligible candidates, and it is the first one in the list with that rating:
every eligible candidate at an earlier position has a strictly smaller rating. -/
theorem highestRated_findBestDriver_first_maximal (heap : List Driver)
    (candidates : List DriverPtr) (ride : Ride)
    (hdef : CandidatesDefined heap candidates)
    (hpos : ∃ p ∈ candidates, ∃ d, heap[p]? = some d ∧ d.Eligible ride ∧ 0 < d.rating) :
    ∃ (i : Nat) (p : DriverPtr) (d : Driver),
      HighestRatedDriverStrategy.findBestDriver heap candidates ride = some (some p) ∧
      candidates[i]? = some p ∧ heap[p]? = some d ∧ d.Eligible ride ∧
      (∀ q ∈ candidates, ∀ e, heap[q]? = some e → e.Eligible ride → e.rating ≤ d.rating) ∧
      (∀ (j : Nat) (q : DriverPtr) (e : Driver), j < i → candidates[j]? = some q →
        heap[q]? = some e → e.Eligible ride → e.rating < d.rating) := by
  obtain ⟨p0, hp0, d0, hd0, hel0, hlt0⟩ := hpos
  have hex : ∃ p ∈ candidates, ∃ k,
      candidateKey heap ride (fun d => - d.rating) p = some k ∧ k < 0 :=
    ⟨p0, hp0, _, (candidateKey_eq_some heap ride _ p0 _).2 ⟨d0, hd0, hel0, rfl⟩,
      neg_neg_of_pos hlt0⟩
  obtain ⟨i, p, k, hi, hk, -, hres, hmin, hfirst⟩ :=
    scanMin_of_smaller _ candidates none 0 hex
  obtain ⟨d, hd, hel, hkd⟩ := (candidateKey_eq_some heap ride _ p k).1 hk
  subst hkd
  refine ⟨i, p, d, ?_, hi, hd, hel, ?_, ?_⟩
  · rw [highestRated_findBestDriver_eq_scanMin heap candidates ride hdef, hres]
  · intro q hq e he hele
    exact neg_le_neg_iff.1
      (hmin q hq _ ((candidateKey_eq_some heap ride _ q _).2 ⟨e, he, hele, rfl⟩))
  · intro j q e hj hjq he hele
    exact neg_lt_neg_iff.1
      (hfirst j q _ hj hjq ((candidateKey_eq_some heap ride _ q _).2 ⟨e, he, hele, rfl⟩))

/-- C5. `HighestRatedDriverStrategy::findBestDriver` never returns a driver whose rating is
not strictly positive, and on a candidate list that can be scanned it returns no driver if
and only if no eligible candidate has a rating strictly greater than 0. -/
theorem highestRated_findBestDriver_none_iff (heap : List Driver)
    (candidates : List DriverPtr) (ride : Ride) :
    (∀ p, HighestRatedDriverStrategy.findBestDriver heap candidates ride = some (some p) →
      ∃ d, heap[p]? = some d ∧ d.Eligible ride ∧ 0 < d.rating) ∧
    (CandidatesDefined heap candidates →
      (HighestRatedDriverStrategy.findBestDriver heap candidates ride = some none ↔
        ¬ ∃ p ∈ candidates, ∃ d, heap[p]? = some d ∧ d.Eligible ride ∧ 0 < d.rating)) := by
  constructor
  · intro p h
    have hdef : CandidatesDefined heap candidates := by
      rw [highestRated_findBestDriver_eq_loop] at h
      exact highestRated_defined_of_loop heap ride candidates _ _ _ h
    rw [highestRated_findBestDriver_eq_scanMin heap candidates ride hdef] at h
    obtain ⟨i, k, -, hk, hlt, -⟩ := scanMin_none_eq_some _ candidates 0 p (Option.some.inj h)
    obtain ⟨d, hd, hel, hkd⟩ := (candidateKey_eq_some heap ride _ p k).1 hk
    subst hkd
    exact ⟨d, hd, hel, neg_neg_iff_pos.1 hlt⟩
  · intro hdef
    constructor
    · intro hnone hex
      obtain ⟨p0, hp0, d0, hd0, hel0, hlt0⟩ := hex
      obtain ⟨i, p, k, -, -, -, hres, -⟩ :=
        scanMin_of_smaller (candidateKey heap ride (fun d => - d.rating)) candidates none 0
          ⟨p0, hp0, _, (candidateKey_eq_some heap ride _ p0 _).2 ⟨d0, hd0, hel0, rfl⟩,
            neg_neg_of_pos hlt0⟩
      rw [highestRated_findBestDriver_eq_scanMin heap candidates ride hdef, hres] at hnone
      cases hnone
    · intro hno
      rw [highestRated_findBestDriver_eq_scanMin heap candidates ride hdef]
      congr 1
      apply scanMin_of_no_smaller
      intro p hp k hk hlt
      obtain ⟨d, hd, hel, hkd⟩ := (candidateKey_eq_some heap ride _ p k).1 hk
      subst hkd
      exact hno ⟨p, hp, d, hd, hel, neg_neg_iff_pos.1 hlt⟩

/-- C6. For both matching policies the result is at most one driver; a returned driver is an
element of the candidate list, its status is AVAILABLE and its vehicle is of the type the ride
requests; and on a candidate list that can be scanned in which no candidate owns a vehicle of
the requested type (the empty list included) both policies return no match. -/
theorem findBestDriver_filtered (sqrt : Double → Double) (s : MatchingStrategy)
    (heap : List Driver) (candidates : List DriverPtr) (ride : Ride) :
    (∀ p, s.findBestDriver sqrt heap candidates ride = some (some p) →
      p ∈ candidates ∧ ∃ d, heap[p]? = some d ∧ d.status = .AVAILABLE ∧
        ∃ v, d.vehicle = some v ∧ v.type = ride.requestedVehicleType) ∧
    (CandidatesDefined heap candidates →
      (∀ p ∈ candidates, ∀ d v, heap[p]? = some d → d.vehicle = some v →
        v.type ≠ ride.requestedVehicleType) →
      s.findBestDriver sqrt heap candidates ride = some none) ∧
    s.findBestDriver sqrt heap [] ride = some none := by
  refine ⟨?_, ?_, ?_⟩
  · intro p h
    obtain ⟨hmem, d, hd, hav, hty⟩ :=
      findBestDriver_eligible sqrt s heap candidates ride p h
    refine ⟨hmem, d, hd, hav, ?_⟩
    cases hveh : d.vehicle with
    | none => simp [hveh] at hty
    | some v => exact ⟨v, rfl, by simpa [hveh] using hty⟩
  · intro hdef hno
    obtain ⟨f, m, hscan⟩ :=
      policy_findBestDriver_eq_scanMin sqrt s heap candidates ride hdef
    rw [hscan]
    congr 1
    apply scanMin_of_no_smaller
    intro p hp k hk _
    obtain ⟨d, hd, hel, -⟩ := (candidateKey_eq_some heap ride f p k).1 hk
    cases hveh : d.vehicle with
    | none => simp [Driver.Eligible, hveh] at hel
    | some v =>
      exact hno p hp d v hd hveh (by simpa [Driver.Eligible, hveh] using hel.2)
  · cases s <;> rfl

theorem exampleDrivers_defined : CandidatesDefined exampleDrivers [0, 1, 2] := by
  intro p hp
  simp only [List.mem_cons, List.mem_singleton, List.not_mem_nil, or_false] at hp
  rcases hp with rfl | rfl | rfl
  · exact ⟨_, rfl, by decide⟩
  · exact ⟨_, rfl, by decide⟩
  · exact ⟨_, rfl, by decide⟩

theorem zeroRatedDrivers_defined : CandidatesDefined zeroRatedDrivers [0, 1] := by
  intro p hp
  simp only [List.mem_cons, List.mem_singleton, List.not_mem_nil, or_false] at hp
  rcases hp with rfl | rfl
  · exact ⟨_, rfl, by decide⟩
  · exact ⟨_, rfl, by decide⟩

theorem distanceTo_pointAt (km : Double) (hkm : 0 ≤ km) :
    (pointAt km).distanceTo Rat.sqrt origin = km := by
  have h : (km / 111 - 0) * (km / 111 - 0) + (0 - 0) * (0 - 0) = (km / 111) * (km / 111) := by
    ring
  simp only [Location.distanceTo, pointAt, origin]
  rw [h, Rat.sqrt_eq, abs_of_nonneg (div_nonneg hkm (by norm_num))]
  field_simp

theorem exampleDrivers_distances :
    exampleDrivers.map (pickupDistance Rat.sqrt (exampleRide .SEDAN)) = [3, 1, 5] := by
  simp [exampleDrivers, pickupDistance, exampleRide, Ride.new, Driver.new, distanceTo_pointAt]

theorem exampleDrivers_nearest :
    NearestDriverStrategy.findBestDriver Rat.sqrt exampleDrivers [0, 1, 2] (exampleRide .SEDAN)
      = some (some 1) := by
  simp [NearestDriverStrategy.findBestDriver, NearestDriverStrategy.loop, exampleDrivers,
    exampleRide, Ride.new, Driver.new, distanceTo_pointAt, Driver.isAvailable, Sedan, DBL_MAX]
  norm_num

theorem exampleDrivers_some_finite :
    ∃ p ∈ [0, 1, 2], ∃ d, exampleDrivers[p]? = some d ∧ d.Eligible (exampleRide .SEDAN) ∧
      pickupDistance Rat.sqrt (exampleRide .SEDAN) d < DBL_MAX := by
  refine ⟨0, by simp,
    Driver.new "D001" "A" "1" (pointAt 3) (some (Sedan "V001" "P1")) 4.8, rfl, by decide, ?_⟩
  simp only [pickupDistance, exampleRide, Ride.new, Driver.new]
  rw [distanceTo_pointAt 3 (by norm_num)]
  norm_num [DBL_MAX]

/-- Witness of C3: the drivers are at 3, 1 and 5 km, and the second is returned. -/
theorem nearest_findBestDriver_first_minimal_witness :
    exampleDrivers.map (pickupDistance Rat.sqrt (exampleRide .SEDAN)) = [3, 1, 5] ∧
    NearestDriverStrategy.findBestDriver Rat.sqrt exampleDrivers [0, 1, 2] (exampleRide .SEDAN)
      = some (some 1) ∧
    CandidatesDefined exampleDrivers [0, 1, 2] ∧
    (∃ p ∈ [0, 1, 2], ∃ d, exampleDrivers[p]? = some d ∧ d.Eligible (exampleRide .SEDAN) ∧
      pickupDistance Rat.sqrt (exampleRide .SEDAN) d < DBL_MAX) ∧
    ∃ (i : Nat) (p : DriverPtr) (d : Driver),
      NearestDriverStrategy.findBestDriver Rat.sqrt exampleDrivers [0, 1, 2]
        (exampleRide .SEDAN) = some (some p) ∧
      [0, 1, 2][i]? = some p ∧ exampleDrivers[p]? = some d ∧ d.Eligible (exampleRide .SEDAN) ∧
      (∀ q ∈ [0, 1, 2], ∀ e, exampleDrivers[q]? = some e → e.Eligible (exampleRide .SEDAN) →
        pickupDistance Rat.sqrt (exampleRide .SEDAN) d ≤
          pickupDistance Rat.sqrt (exampleRide .SEDAN) e) ∧
      (∀ (j : Nat) (q : DriverPtr) (e : Driver), j < i → [0, 1, 2][j]? = some q →
        exampleDrivers[q]? = some e → e.Eligible (exampleRide .SEDAN) →
        pickupDistance Rat.sqrt (exampleRide .SEDAN) d <
          pickupDistance Rat.sqrt (exampleRide .SEDAN) e) :=
  ⟨exampleDrivers_distances, exampleDrivers_nearest, exampleDrivers_defined,
    exampleDrivers_some_finite,
    nearest_findBestDriver_first_minimal Rat.sqrt exampleDrivers [0, 1, 2] (exampleRide .SEDAN)
      exampleDrivers_defined exampleDrivers_some_finite⟩

end RideShare

namespace RideShare

theorem exampleDrivers_highestRated :
    HighestRatedDriverStrategy.findBestDriver exampleDrivers [0, 1, 2] (exampleRide .SEDAN)
      = some (some 1) := by
  simp [HighestRatedDriverStrategy.findBestDriver, HighestRatedDriverStrategy.loop,
    exampleDrivers, exampleRide, Ride.new, Driver.new, Driver.isAvailable, Sedan]
  norm_num

theorem exampleDrivers_some_positive :
    ∃ p ∈ [0, 1, 2], ∃ d, exampleDrivers[p]? = some d ∧ d.Eligible (exampleRide .SEDAN) ∧
      0 < d.rating := by
  refine ⟨0, by simp,
    Driver.new "D001" "A" "1" (pointAt 3) (some (Sedan "V001" "P1")) 4.8, rfl, by decide, ?_⟩
  norm_num [Driver.new]

/-- Witness of C4: of the ratings 4.8, 4.9 and 4.7 the second is returned. -/
theorem highestRated_findBestDriver_first_maximal_witness :
    exampleDrivers.map Driver.rating = [4.8, 4.9, 4.7] ∧
    HighestRatedDriverStrategy.findBestDriver exampleDrivers [0, 1, 2] (exampleRide .SEDAN)
      = some (some 1) ∧
    CandidatesDefined exampleDrivers [0, 1, 2] ∧
    (∃ p ∈ [0, 1, 2], ∃ d, exampleDrivers[p]? = some d ∧ d.Eligible (exampleRide .SEDAN) ∧
      0 < d.rating) ∧
    ∃ (i : Nat) (p : DriverPtr) (d : Driver),
      HighestRatedDriverStrategy.findBestDriver exampleDrivers [0, 1, 2] (exampleRide .SEDAN)
        = some (some p) ∧
      [0, 1, 2][i]? = some p ∧ exampleDrivers[p]? = some d ∧ d.Eligible (exampleRide .SEDAN) ∧
      (∀ q ∈ [0, 1, 2], ∀ e, exampleDrivers[q]? = some e → e.Eligible (exampleRide .SEDAN) →
        e.rating ≤ d.rating) ∧
      (∀ (j : Nat) (q : DriverPtr) (e : Driver), j < i → [0, 1, 2][j]? = some q →
        exampleDrivers[q]? = some e → e.Eligible (exampleRide .SEDAN) → e.rating < d.rating) :=
  ⟨rfl, exampleDrivers_highestRated, exampleDrivers_defined, exampleDrivers_some_positive,
    highestRated_findBestDriver_first_maximal exampleDrivers [0, 1, 2] (exampleRide .SEDAN)
      exampleDrivers_defined exampleDrivers_some_positive⟩

theorem zeroRatedDrivers_no_positive :
    ¬ ∃ p ∈ [0, 1], ∃ d, zeroRatedDrivers[p]? = some d ∧ d.Eligible (exampleRide .SEDAN) ∧
      0 < d.rating := by
  rintro ⟨p, hp, d, hd, -, hpos⟩
  simp only [List.mem_cons, List.mem_singleton, List.not_mem_nil, or_false] at hp
  rcases hp with rfl | rfl
  · cases hd; exact absurd hpos (by decide)
  · cases hd; exact absurd hpos (by decide)

/-- Witness of C5: two eligible drivers rated 0 give no match. -/
theorem highestRated_findBestDriver_none_iff_witness :
    CandidatesDefined zeroRatedDrivers [0, 1] ∧
    (∃ p ∈ [0, 1], ∃ d, zeroRatedDrivers[p]? = some d ∧ d.Eligible (exampleRide .SEDAN)) ∧
    HighestRatedDriverStrategy.findBestDriver zeroRatedDrivers [0, 1] (exampleRide .SEDAN)
      = some none :=
  ⟨zeroRatedDrivers_defined, ⟨0, by simp, _, rfl, by decide⟩,
    ((highestRated_findBestDriver_none_iff zeroRatedDrivers [0, 1] (exampleRide .SEDAN)).2
      zeroRatedDrivers_defined).2 zeroRatedDrivers_no_positive⟩

theorem exampleDrivers_no_bike :
    ∀ p ∈ [0, 1, 2], ∀ d v, exampleDrivers[p]? = some d → d.vehicle = some v →
      v.type ≠ (exampleRide .BIKE).requestedVehicleType := by
  intro p hp d v hd hv
  simp only [List.mem_cons, List.mem_singleton, List.not_mem_nil, or_false] at hp
  rcases hp with rfl | rfl | rfl
  · cases hd; cases hv; decide
  · cases hd; cases hv; decide
  · cases hd; cases hv; decide

/-- Witness of C6: three sedan drivers and a request for a bike give no match under either
policy, and the sedan request is answered with an available sedan driver of the list. -/
theorem findBestDriver_filtered_witness :
    CandidatesDefined exampleDrivers [0, 1, 2] ∧
    MatchingStrategy.NearestDriverStrategy.findBestDriver Rat.sqrt exampleDrivers [0, 1, 2]
      (exampleRide .BIKE) = some none ∧
    MatchingStrategy.HighestRatedDriverStrategy.findBestDriver Rat.sqrt exampleDrivers [0, 1, 2]
      (exampleRide .BIKE) = some none ∧
    (1 ∈ [0, 1, 2] ∧ ∃ d, exampleDrivers[1]? = some d ∧ d.status = .AVAILABLE ∧
      ∃ v, d.vehicle = some v ∧ v.type = (exampleRide .SEDAN).requestedVehicleType) :=
  ⟨exampleDrivers_defined,
    (findBestDriver_filtered Rat.sqrt .NearestDriverStrategy exampleDrivers [0, 1, 2]
      (exampleRide .BIKE)).2.1 exampleDrivers_defined exampleDrivers_no_bike,
    (findBestDriver_filtered Rat.sqrt .HighestRatedDriverStrategy exampleDrivers [0, 1, 2]
      (exampleRide .BIKE)).2.1 exampleDrivers_defined exampleDrivers_no_bike,
    (findBestDriver_filtered Rat.sqrt .NearestDriverStrategy exampleDrivers [0, 1, 2]
      (exampleRide .SEDAN)).1 1 exampleDrivers_nearest⟩

/-! ## Ride identifiers -/

theorem digitValue_digitChar (k : Nat) (hk : k < 10) : digitValue (Nat.digitChar k) = k := by
  interval_cases k <;> rfl

theorem readDigits_append_singleton (l : List Char) (c : Char) :
    readDigits (l ++ [c]) = readDigits l * 10 + digitValue c := by
  simp [readDigits, List.foldl_append]

theorem readDigits_toDigitsCore (fuel : Nat) :
    ∀ (n : Nat) (ds : List Char), n < fuel →
      ∃ D, Nat.toDigitsCore 10 fuel n ds = D ++ ds ∧ readDigits D = n := by
  induction fuel with
  | zero => intro n ds h; omega
  | succ fuel ih =>
    intro n ds h
    unfold Nat.toDigitsCore
    by_cases h0 : n / 10 = 0
    · refine ⟨[Nat.digitChar (n % 10)], by simp [h0], ?_⟩
      have hlt : n % 10 < 10 := Nat.mod_lt _ (by norm_num)
      simp only [readDigits, List.foldl, digitValue_digitChar _ hlt]
      omega
    · obtain ⟨D, hD, hread⟩ := ih (n / 10) (Nat.digitChar (n % 10) :: ds) (by omega)
      refine ⟨D ++ [Nat.digitChar (n % 10)], by simp [h0, hD], ?_⟩
      have hlt : n % 10 < 10 := Nat.mod_lt _ (by norm_num)
      rw [readDigits_append_singleton, hread, digitValue_digitChar _ hlt]
      omega

theorem readDigits_toDigits (n : Nat) : readDigits (Nat.toDigits 10 n) = n := by
  obtain ⟨D, hD, hread⟩ := readDigits_toDigitsCore (n + 1) n [] (by omega)
  unfold Nat.toDigits
  rw [hD, List.append_nil, hread]

theorem natRepr_injective (n m : Nat) (h : Nat.repr n = Nat.repr m) : n = m := by
  have h1 : Nat.toDigits 10 n = Nat.toDigits 10 m := congrArg String.data h
  rw [← readDigits_toDigits n, ← readDigits_toDigits m, h1]

theorem rideIdOf_injective (n m : Int) (hn : 0 ≤ n) (hm : 0 ≤ m)
    (h : rideIdOf n = rideIdOf m) : n = m := by
  obtain ⟨a, rfl⟩ := Int.eq_ofNat_of_zero_le hn
  obtain ⟨b, rfl⟩ := Int.eq_ofNat_of_zero_le hm
  have h1 : ("RIDE_" ++ Nat.repr a).data = ("RIDE_" ++ Nat.repr b).data := congrArg String.data h
  rw [String.data_append, String.data_append] at h1
  have h2 : Nat.repr a = Nat.repr b := String.ext (List.append_cancel_left h1)
  rw [natRepr_injective a b h2]

/-! ## The ride table -/

theorem find_eq_none_of_not_key (t : RideTable) (k : String) (h : k ∉ t.map Prod.fst) :
    t.find k = none := by
  induction t with
  | nil => rfl
  | cons e t ih =>
    obtain ⟨k0, v0⟩ := e
    simp only [List.map_cons, List.mem_cons, not_or] at h
    simp only [RideTable.find]
    rw [if_neg (fun hk => h.1 hk.symm)]
    exact ih h.2

theorem mem_of_find_eq_some (t : RideTable) (k : String) (r : Ride) (h : t.find k = some r) :
    (k, r) ∈ t := by
  induction t with
  | nil => cases h
  | cons e t ih =>
    obtain ⟨k0, v0⟩ := e
    simp only [RideTable.find] at h
    by_cases hk : k0 = k
    · rw [if_pos hk] at h
      cases h
      subst hk
      exact List.mem_cons_self _ _
    · rw [if_neg hk] at h
      exact List.mem_cons_of_mem _ (ih h)

theorem find_eq_some_of_mem (t : RideTable) (k : String) (r : Ride)
    (hnd : (t.map Prod.fst).Nodup) (h : (k, r) ∈ t) : t.find k = some r := by
  induction t with
  | nil => cases h
  | cons e t ih =>
    obtain ⟨k0, v0⟩ := e
    simp only [List.map_cons, List.nodup_cons] at hnd
    simp only [RideTable.find]
    rcases List.mem_cons.1 h with heq | hmem
    · cases heq
      rw [if_pos rfl]
    · have hk : k0 ≠ k := by
        intro hk
        subst hk
        exact hnd.1 (List.mem_map.2 ⟨(k0, r), hmem, rfl⟩)
      rw [if_neg hk]
      exact ih hnd.2 hmem

theorem find_assign_self (t : RideTable) (k : String) (v : Ride) :
    (t.assign k v).find k = some v := by
  induction t with
  | nil => simp [RideTable.assign, RideTable.find]
  | cons e t ih =>
    obtain ⟨k0, v0⟩ := e
    by_cases hk : k0 = k
    · simp [RideTable.assign, RideTable.find, hk]
    · simp [RideTable.assign, RideTable.find, hk, ih]

theorem find_assign_of_ne (t : RideTable) (k k1 : String) (v : Ride) (h : k1 ≠ k) :
    (t.assign k v).find k1 = t.find k1 := by
  induction t with
  | nil => simp [RideTable.assign, RideTable.find, h.symm]
  | cons e t ih =>
    obtain ⟨k0, v0⟩ := e
    by_cases hk : k0 = k
    · subst hk
      simp [RideTable.assign, RideTable.find, h.symm]
    · by_cases hk1 : k0 = k1
      · subst hk1
        simp [RideTable.assign, RideTable.find, hk]
      · simp [RideTable.assign, RideTable.find, hk, hk1, ih]

theorem assign_assign (t : RideTable) (k : String) (a b : Ride) :
    (t.assign k a).assign k b = t.assign k b := by
  induction t with
  | nil => simp [RideTable.assign]
  | cons e t ih =>
    obtain ⟨k0, v0⟩ := e
    by_cases hk : k0 = k
    · simp [RideTable.assign, hk]
    · simp [RideTable.assign, hk, ih]

theorem keys_assign_of_key (t : RideTable) (k : String) (v : Ride) (h : k ∈ t.map Prod.fst) :
    (t.assign k v).map Prod.fst = t.map Prod.fst := by
  induction t with
  | nil => cases h
  | cons e t ih =>
    obtain ⟨k0, v0⟩ := e
    by_cases hk : k0 = k
    · simp [RideTable.assign, hk]
    · have hmem : k ∈ t.map Prod.fst := by
        rcases List.mem_cons.1 h with h1 | h1
        · exact absurd h1.symm hk
        · exact h1
      simp [RideTable.assign, hk, ih hmem]

theorem keys_assign_of_not_key (t : RideTable) (k : String) (v : Ride)
    (h : k ∉ t.map Prod.fst) : (t.assign k v).map Prod.fst = t.map Prod.fst ++ [k] := by
  induction t with
  | nil => simp [RideTable.assign]
  | cons e t ih =>
    obtain ⟨k0, v0⟩ := e
    simp only [List.map_cons, List.mem_cons, not_or] at h
    have hk : ¬ k0 = k := fun hk => h.1 hk.symm
    simp [RideTable.assign, hk, ih h.2]

theorem nodup_keys_assign (t : RideTable) (k : String) (v : Ride)
    (hnd : (t.map Prod.fst).Nodup) : ((t.assign k v).map Prod.fst).Nodup := by
  by_cases h : k ∈ t.map Prod.fst
  · rw [keys_assign_of_key t k v h]
    exact hnd
  · rw [keys_assign_of_not_key t k v h]
    exact List.Nodup.append hnd (List.nodup_singleton k) (by simpa using h)

theorem mem_assign_iff (t : RideTable) (k : String) (v : Ride)
    (hnd : (t.map Prod.fst).Nodup) (e : String × Ride) :
    e ∈ t.assign k v ↔ e = (k, v) ∨ (e ∈ t ∧ e.1 ≠ k) := by
  induction t with
  | nil => simp [RideTable.assign]
  | cons e0 t ih =>
    obtain ⟨k0, v0⟩ := e0
    simp only [List.map_cons, List.nodup_cons] at hnd
    by_cases hk : k0 = k
    · subst hk
      simp only [RideTable.assign, if_true, List.mem_cons]
      constructor
      · rintro (h | h)
        · exact Or.inl h
        · refine Or.inr ⟨Or.inr h, ?_⟩
          intro he
          exact hnd.1 (List.mem_map.2 ⟨e, h, he⟩)
      · rintro (h | ⟨h | h, hne⟩)
        · exact Or.inl h
        · exact absurd (by rw [h]) hne
        · exact Or.inr h
    · simp only [RideTable.assign, if_neg hk, List.mem_cons, ih hnd.2]
      constructor
      · rintro (h | h | ⟨h, hne⟩)
        · exact Or.inr ⟨Or.inl h, by rw [h]; exact hk⟩
        · exact Or.inl h
        · exact Or.inr ⟨Or.inr h, hne⟩
      · rintro (h | ⟨h | h, hne⟩)
        · exact Or.inr (Or.inl h)
        · exact Or.inl h
        · exact Or.inr (Or.inr ⟨h, hne⟩)

/-! ## Lookups of `requestRide` and the fare policies -/

theorem findRider_eq_none (heap : List Rider) (riderId : String) (l : List RiderPtr)
    (h : ∀ p ∈ l, ∃ r, heap[p]? = some r ∧ r.userId ≠ riderId) :
    findRider heap riderId l = some none := by
  induction l with
  | nil => rfl
  | cons a rest ih =>
    obtain ⟨r, hr, hne⟩ := h a (List.mem_cons_self _ _)
    simp only [findRider, hr, if_neg hne]
    exact ih (fun p hp => h p (List.mem_cons_of_mem _ hp))

theorem findRider_eq_some (heap : List Rider) (riderId : String) (l : List RiderPtr)
    (hvalid : ∀ p ∈ l, ∃ r, heap[p]? = some r)
    (hreg : ∃ p ∈ l, ∃ r, heap[p]? = some r ∧ r.userId = riderId) :
    ∃ p ∈ l, ∃ r, heap[p]? = some r ∧ r.userId = riderId ∧
      findRider heap riderId l = some (some p) := by
  induction l with
  | nil => obtain ⟨p, hp, _⟩ := hreg; cases hp
  | cons a rest ih =>
    obtain ⟨r, hr⟩ := hvalid a (List.mem_cons_self _ _)
    by_cases hid : r.userId = riderId
    · exact ⟨a, List.mem_cons_self _ _, r, hr, hid, by simp [findRider, hr, hid]⟩
    · have hreg1 : ∃ p ∈ rest, ∃ r, heap[p]? = some r ∧ r.userId = riderId := by
        obtain ⟨p, hp, r1, hr1, hid1⟩ := hreg
        rcases List.mem_cons.1 hp with rfl | hp1
        · rw [hr] at hr1; cases hr1; exact absurd hid1 hid
        · exact ⟨p, hp1, r1, hr1, hid1⟩
      obtain ⟨p, hp, r1, hr1, hid1, hfind⟩ :=
        ih (fun p hp => hvalid p (List.mem_cons_of_mem _ hp)) hreg1
      exact ⟨p, List.mem_cons_of_mem _ hp, r1, hr1, hid1, by simp [findRider, hr, hid, hfind]⟩

theorem findRider_valid (heap : List Rider) (riderId : String) (l : List RiderPtr)
    (p : RiderPtr) (h : findRider heap riderId l = some (some p)) :
    p ∈ l ∧ ∃ r, heap[p]? = some r ∧ r.userId = riderId := by
  induction l with
  | nil => cases h
  | cons a rest ih =>
    simp only [findRider] at h
    cases hr : heap[a]? with
    | none => simp [hr] at h
    | some r =>
      simp only [hr] at h
      by_cases hid : r.userId = riderId
      · rw [if_pos hid] at h
        cases h
        exact ⟨List.mem_cons_self _ _, r, hr, hid⟩
      · rw [if_neg hid] at h
        obtain ⟨hp, hrest⟩ := ih h
        exact ⟨List.mem_cons_of_mem _ hp, hrest⟩

theorem availableDrivers_spec (heap : List Driver) (l : List DriverPtr) :
    ∀ (available : List DriverPtr), availableDrivers heap l = some available →
      (∀ p ∈ l, ∃ d, heap[p]? = some d) ∧
      (∀ p, p ∈ available ↔ p ∈ l ∧ ∃ d, heap[p]? = some d ∧ d.status = .AVAILABLE) := by
  induction l with
  | nil =>
    intro available h
    cases h
    simp
  | cons a rest ih =>
    intro available h
    simp only [availableDrivers] at h
    cases hd : heap[a]? with
    | none => simp [hd] at h
    | some d =>
      simp only [hd] at h
      cases hrest : availableDrivers heap rest with
      | none => simp [hrest] at h
      | some l1 =>
        simp only [hrest, Option.some.injEq] at h
        obtain ⟨hvalid, hmem⟩ := ih l1 hrest
        refine ⟨?_, ?_⟩
        · intro p hp
          rcases List.mem_cons.1 hp with rfl | hp1
          · exact ⟨d, hd⟩
          · exact hvalid p hp1
        · intro p
          subst h
          by_cases hav : d.status = .AVAILABLE
          · simp only [Driver.isAvailable, hav, decide_True, if_true, List.mem_cons, hmem]
            constructor
            · rintro (rfl | ⟨h1, h2⟩)
              · exact ⟨Or.inl rfl, d, hd, hav⟩
              · exact ⟨Or.inr h1, h2⟩
            · rintro ⟨rfl | h1, h2⟩
              · exact Or.inl rfl
              · exact Or.inr ⟨h1, h2⟩
          · simp only [Driver.isAvailable, hav, decide_False, Bool.false_eq_true, if_false,
              List.mem_cons, hmem]
            constructor
            · rintro ⟨h1, h2⟩
              exact ⟨Or.inr h1, h2⟩
            · rintro ⟨rfl | h1, d1, hd1, hav1⟩
              · rw [hd] at hd1; cases hd1; exact absurd hav1 hav
              · exact ⟨h1, d1, hd1, hav1⟩

theorem availableDrivers_defined (heap : List Driver) (l : List DriverPtr)
    (h : ∀ p ∈ l, ∃ d, heap[p]? = some d) :
    ∃ available, availableDrivers heap l = some available := by
  induction l with
  | nil => exact ⟨[], rfl⟩
  | cons a rest ih =>
    obtain ⟨d, hd⟩ := h a (List.mem_cons_self _ _)
    obtain ⟨l1, hl1⟩ := ih (fun p hp => h p (List.mem_cons_of_mem _ hp))
    refine ⟨if d.isAvailable then a :: l1 else l1, ?_⟩
    simp only [availableDrivers, hd, hl1]

theorem calculateFare_defined (sqrt : Double → Double) (heap : List Driver) (ride : Ride)
    (h : ∀ p, ride.driver = some p → ∃ d, heap[p]? = some d) (c : FareCalculator) :
    ∃ fare, c.calculateFare sqrt heap ride = some fare := by
  induction c with
  | BaseFareCalculator b r =>
    simp only [FareCalculator.calculateFare, BaseFareCalculator.calculateFare]
    cases hp : ride.driver with
    | none => exact ⟨_, rfl⟩
    | some p =>
      obtain ⟨d, hd⟩ := h p hp
      simp only [hd]
      cases d.vehicle with
      | none => exact ⟨_, rfl⟩
      | some v => exact ⟨_, rfl⟩
  | SurgePricingDecorator inner m ih =>
    obtain ⟨f, hf⟩ := ih
    refine ⟨f * m, ?_⟩
    simp only [FareCalculator.calculateFare, hf]
  | DiscountDecorator inner m ih =>
    obtain ⟨f, hf⟩ := ih
    refine ⟨f * (1 - m), ?_⟩
    simp only [FareCalculator.calculateFare, hf]

/-! ## What each operation does to the state -/

theorem requestRide_of_unknown_rider (sqrt : Double → Double) (w : World) (riderId : String)
    (pickup dropoff : Location) (vehicleType : VehicleType) (rideType : RideType)
    (hfind : findRider w.riderHeap riderId w.manager.riders = some none) :
    w.requestRide sqrt riderId pickup dropoff vehicleType rideType = some (none, w) := by
  simp only [World.requestRide, hfind]

theorem requestRide_of_no_match (sqrt : Double → Double) (w : World) (riderId : String)
    (pickup dropoff : Location) (vehicleType : VehicleType) (rideType : RideType)
    (rider : RiderPtr) (available : List DriverPtr)
    (hfind : findRider w.riderHeap riderId w.manager.riders = some (some rider))
    (hcounter : w.manager.rideCounter < INT_MAX)
    (havail : availableDrivers w.driverHeap w.manager.drivers = some available)
    (hbest : w.manager.matchingStrategy.findBestDriver sqrt w.driverHeap available
      (Ride.new (rideIdOf w.manager.rideCounter) rider pickup dropoff vehicleType rideType)
        = some none) :
    w.requestRide sqrt riderId pickup dropoff vehicleType rideType =
      some (none, w.afterNoMatch) := by
  have hbest1 : w.manager.matchingStrategy.findBestDriver sqrt w.driverHeap available
      (Ride.new ("RIDE_" ++ toString w.manager.rideCounter) rider pickup dropoff vehicleType
        rideType) = some none := hbest
  simp only [World.requestRide, hfind, hcounter, not_true_eq_false, if_false, havail, hbest1,
    World.afterNoMatch]

theorem requestRide_of_match (sqrt : Double → Double) (w : World) (riderId : String)
    (pickup dropoff : Location) (vehicleType : VehicleType) (rideType : RideType)
    (rider : RiderPtr) (available : List DriverPtr) (d : DriverPtr) (driver : Driver)
    (hfind : findRider w.riderHeap riderId w.manager.riders = some (some rider))
    (hcounter : w.manager.rideCounter < INT_MAX)
    (havail : availableDrivers w.driverHeap w.manager.drivers = some available)
    (hbest : w.manager.matchingStrategy.findBestDriver sqrt w.driverHeap available
      (Ride.new (rideIdOf w.manager.rideCounter) rider pickup dropoff vehicleType rideType)
        = some (some d))
    (hd : w.driverHeap[d]? = some driver) :
    w.requestRide sqrt riderId pickup dropoff vehicleType rideType =
      some (some (Ride.matched (rideIdOf w.manager.rideCounter) rider pickup dropoff
          vehicleType rideType d),
        w.afterMatch (rideIdOf w.manager.rideCounter)
          (Ride.matched (rideIdOf w.manager.rideCounter) rider pickup dropoff vehicleType
            rideType d) d driver) := by
  have hbest1 : w.manager.matchingStrategy.findBestDriver sqrt w.driverHeap available
      (Ride.new ("RIDE_" ++ toString w.manager.rideCounter) rider pickup dropoff vehicleType
        rideType) = some (some d) := hbest
  simp only [World.requestRide, hfind, hcounter, not_true_eq_false, if_false, havail, hbest1,
    World.logStatus, hd]
  rfl

/-- Every defined outcome of `requestRide` is one of its three exits. -/
theorem requestRide_cases (sqrt : Double → Double) (w : World) (riderId : String)
    (pickup dropoff : Location) (vehicleType : VehicleType) (rideType : RideType)
    (res : Option Ride) (w1 : World)
    (h : w.requestRide sqrt riderId pickup dropoff vehicleType rideType = some (res, w1)) :
    (res = none ∧ w1 = w) ∨ (res = none ∧ w1 = w.afterNoMatch) ∨
    ∃ (rider : RiderPtr) (available : List DriverPtr) (d : DriverPtr) (driver : Driver),
      findRider w.riderHeap riderId w.manager.riders = some (some rider) ∧
      w.manager.rideCounter < INT_MAX ∧
      availableDrivers w.driverHeap w.manager.drivers = some available ∧
      w.manager.matchingStrategy.findBestDriver sqrt w.driverHeap available
        (Ride.new (rideIdOf w.manager.rideCounter) rider pickup dropoff vehicleType rideType)
          = some (some d) ∧
      w.driverHeap[d]? = some driver ∧
      res = some (Ride.matched (rideIdOf w.manager.rideCounter) rider pickup dropoff
        vehicleType rideType d) ∧
      w1 = w.afterMatch (rideIdOf w.manager.rideCounter)
        (Ride.matched (rideIdOf w.manager.rideCounter) rider pickup dropoff vehicleType
          rideType d) d driver := by
  cases hfind : findRider w.riderHeap riderId w.manager.riders with
  | none => simp [World.requestRide, hfind] at h
  | some found =>
    cases found with
    | none =>
      rw [requestRide_of_unknown_rider sqrt w riderId pickup dropoff vehicleType rideType hfind]
        at h
      cases h
      exact Or.inl ⟨rfl, rfl⟩
    | some rider =>
      by_cases hcounter : w.manager.rideCounter < INT_MAX
      · cases havail : availableDrivers w.driverHeap w.manager.drivers with
        | none => simp [World.requestRide, hfind, hcounter, havail] at h
        | some available =>
          cases hbest : w.manager.matchingStrategy.findBestDriver sqrt w.driverHeap available
            (Ride.new (rideIdOf w.manager.rideCounter) rider pickup dropoff vehicleType
              rideType) with
          | none =>
            have hbest1 : w.manager.matchingStrategy.findBestDriver sqrt w.driverHeap available
                (Ride.new ("RIDE_" ++ toString w.manager.rideCounter) rider pickup dropoff
                  vehicleType rideType) = none := hbest
            simp [World.requestRide, hfind, hcounter, havail, hbest1] at h
          | some best =>
            cases best with
            | none =>
              rw [requestRide_of_no_match sqrt w riderId pickup dropoff vehicleType rideType
                rider available hfind hcounter havail hbest] at h
              cases h
              exact Or.inr (Or.inl ⟨rfl, rfl⟩)
            | some d =>
              obtain ⟨-, driver, hd, -⟩ := findBestDriver_eligible sqrt _ _ _ _ d hbest
              rw [requestRide_of_match sqrt w riderId pickup dropoff vehicleType rideType
                rider available d driver hfind hcounter havail hbest hd] at h
              cases h
              exact Or.inr (Or.inr ⟨rider, available, d, driver, rfl, hcounter, rfl,
                hbest, hd, rfl, rfl⟩)
      · simp [World.requestRide, hfind, hcounter] at h

theorem startRide_of_unknown (w : World) (rideId : String)
    (hfind : w.manager.rides.find rideId = none) : w.startRide rideId = some w := by
  simp only [World.startRide, hfind]

theorem startRide_of_found (w : World) (rideId : String) (ride : Ride)
    (hfind : w.manager.rides.find rideId = some ride) :
    w.startRide rideId = some (w.afterStart rideId ride) := by
  simp only [World.startRide, hfind, World.afterStart, World.logStatus, World.storeRide,
    World.notifyRideStatusChanged, World.notify, assign_assign, List.append_assoc,
    List.singleton_append, Ride.setStatus, Ride.startRide]

theorem completeRide_of_unknown (sqrt : Double → Double) (w : World) (rideId : String)
    (hfind : w.manager.rides.find rideId = none) : w.completeRide sqrt rideId = some w := by
  simp only [World.completeRide, hfind]

theorem completeRide_of_found (sqrt : Double → Double) (w : World) (rideId : String)
    (ride : Ride) (fare : Double) (drivers : List Driver) (riders : List Rider)
    (hfind : w.manager.rides.find rideId = some ride)
    (hfare : w.manager.fareCalculator.calculateFare sqrt w.driverHeap ride.completeRide
      = some fare)
    (hdrivers : releaseDriver w.driverHeap rideId ride = some drivers)
    (hriders : recordRider w.riderHeap rideId ride = some riders) :
    w.completeRide sqrt rideId = some (w.afterComplete rideId ride fare drivers riders) := by
  unfold releaseDriver at hdrivers
  unfold recordRider at hriders
  simp only [World.completeRide, hfind, World.logStatus, World.storeRide, hfare]
  cases hp : ride.driver with
  | none =>
    simp only [hp] at hdrivers
    cases hdrivers
    cases hr : w.riderHeap[ride.rider]? with
    | none => simp [hr] at hriders
    | some rider =>
      simp only [hr, Option.some.injEq] at hriders
      subst hriders
      simp [Ride.setFare, Ride.completeRide, hp, hr, World.afterComplete, assign_assign,
        World.notifyRideStatusChanged, World.notifyPaymentCompleted, World.notify]
  | some p =>
    simp only [hp] at hdrivers
    cases hd : w.driverHeap[p]? with
    | none => simp [hd] at hdrivers
    | some driver =>
      simp only [hd, Option.some.injEq] at hdrivers
      subst hdrivers
      cases hr : w.riderHeap[ride.rider]? with
      | none => simp [hr] at hriders
      | some rider =>
        simp only [hr, Option.some.injEq] at hriders
        subst hriders
        simp [Ride.setFare, Ride.completeRide, hp, hd, hr, World.afterComplete, assign_assign,
          World.notifyRideStatusChanged, World.notifyPaymentCompleted, World.notify]

/-- Every defined outcome of `completeRide` is one of its two exits. -/
theorem completeRide_cases (sqrt : Double → Double) (w w1 : World) (rideId : String)
    (h : w.completeRide sqrt rideId = some w1) :
    (w.manager.rides.find rideId = none ∧ w1 = w) ∨
    ∃ (ride : Ride) (fare : Double) (drivers : List Driver) (riders : List Rider),
      w.manager.rides.find rideId = some ride ∧
      w.manager.fareCalculator.calculateFare sqrt w.driverHeap ride.completeRide = some fare ∧
      releaseDriver w.driverHeap rideId ride = some drivers ∧
      recordRider w.riderHeap rideId ride = some riders ∧
      w1 = w.afterComplete rideId ride fare drivers riders := by
  cases hfind : w.manager.rides.find rideId with
  | none =>
    rw [completeRide_of_unknown sqrt w rideId hfind] at h
    cases h
    exact Or.inl ⟨rfl, rfl⟩
  | some ride =>
    right
    cases hfare : w.manager.fareCalculator.calculateFare sqrt w.driverHeap ride.completeRide with
    | none =>
      simp [World.completeRide, hfind, World.logStatus, World.storeRide, hfare] at h
    | some fare =>
      cases hdrivers : releaseDriver w.driverHeap rideId ride with
      | none =>
        exfalso
        unfold releaseDriver at hdrivers
        cases hp : ride.driver with
        | none => simp [hp] at hdrivers
        | some p =>
          simp only [hp] at hdrivers
          cases hd : w.driverHeap[p]? with
          | none =>
            simp only [World.completeRide, hfind, World.logStatus, World.storeRide, hfare] at h
            simp [Ride.setFare, Ride.completeRide, hp, hd] at h
          | some driver => simp [hd] at hdrivers
      | some drivers =>
        cases hriders : recordRider w.riderHeap rideId ride with
        | none =>
          exfalso
          unfold recordRider at hriders
          cases hr : w.riderHeap[ride.rider]? with
          | none =>
            unfold releaseDriver at hdrivers
            cases hp : ride.driver with
            | none =>
              simp only [World.completeRide, hfind, World.logStatus, World.storeRide, hfare]
                at h
              simp [Ride.setFare, Ride.completeRide, hp, hr] at h
            | some p =>
              simp only [hp] at hdrivers
              cases hd : w.driverHeap[p]? with
              | none => simp [hd] at hdrivers
              | some driver =>
                simp only [World.completeRide, hfind, World.logStatus, World.storeRide, hfare]
                  at h
                simp [Ride.setFare, Ride.completeRide, hp, hd, hr] at h
          | some rider => simp [hr] at hriders
        | some riders =>
          rw [completeRide_of_found sqrt w rideId ride fare drivers riders hfind hfare
            hdrivers hriders] at h
          cases h
          exact ⟨ride, fare, drivers, riders, rfl, hfare, hdrivers, hriders, rfl⟩

theorem heap_get_set_self {α : Type} (heap : List α) (p : Nat) (x y : α)
    (h : heap[p]? = some x) : (heap.set p y)[p]? = some y := by
  have hlt : p < heap.length := by
    by_contra hge
    rw [List.getElem?_eq_none (not_lt.1 hge)] at h
    cases h
  exact List.getElem?_set_self hlt

theorem heap_get_set_ne {α : Type} (heap : List α) (p q : Nat) (y : α) (h : q ≠ p) :
    (heap.set p y)[q]? = heap[q]? :=
  List.getElem?_set_ne (fun hpq => h hpq.symm)

theorem registeredWorld_steps :
    freshWorld.run Rat.sqrt registerOps = some registeredWorld ∧
    registeredWorld.step Rat.sqrt requestOp = some requestedWorld := by
  constructor <;> decide!

/-! ## Orchestrator operations: C7 to C12 -/

/-- C8. When the rider id is registered, the counter can be incremented, the registered
drivers can be scanned, and no registered driver is both AVAILABLE and of the requested
vehicle type, `requestRide` returns no ride and leaves the ride table, both heaps (every
driver status and every history), the emitted events and the status log unchanged. -/
theorem requestRide_no_match (sqrt : Double → Double) (w : World) (riderId : String)
    (pickup dropoff : Location) (vehicleType : VehicleType) (rideType : RideType)
    (hvalid : ∀ p ∈ w.manager.riders, ∃ r, w.riderHeap[p]? = some r)
    (hreg : ∃ p ∈ w.manager.riders, ∃ r, w.riderHeap[p]? = some r ∧ r.userId = riderId)
    (hcounter : w.manager.rideCounter < INT_MAX)
    (hdef : CandidatesDefined w.driverHeap w.manager.drivers)
    (hno : ∀ p ∈ w.manager.drivers, ∀ d, w.driverHeap[p]? = some d →
      ¬ (d.status = .AVAILABLE ∧ d.vehicle.map Vehicle.type = some vehicleType)) :
    ∃ w1, w.requestRide sqrt riderId pickup dropoff vehicleType rideType = some (none, w1) ∧
      w1.manager.rides = w.manager.rides ∧ w1.driverHeap = w.driverHeap ∧
      w1.riderHeap = w.riderHeap ∧ w1.events = w.events ∧ w1.statusLog = w.statusLog := by
  obtain ⟨rider, -, -, -, -, hfind⟩ :=
    findRider_eq_some w.riderHeap riderId w.manager.riders hvalid hreg
  obtain ⟨available, havail⟩ := availableDrivers_defined w.driverHeap w.manager.drivers
    (fun p hp => (hdef p hp).imp fun d hd => hd.1)
  obtain ⟨-, hmem⟩ := availableDrivers_spec w.driverHeap w.manager.drivers available havail
  have hdef1 : CandidatesDefined w.driverHeap available :=
    fun p hp => hdef p ((hmem p).1 hp).1
  have hbest : w.manager.matchingStrategy.findBestDriver sqrt w.driverHeap available
      (Ride.new (rideIdOf w.manager.rideCounter) rider pickup dropoff vehicleType rideType)
        = some none := by
    obtain ⟨f, m, hscan⟩ := policy_findBestDriver_eq_scanMin sqrt w.manager.matchingStrategy
      w.driverHeap available
      (Ride.new (rideIdOf w.manager.rideCounter) rider pickup dropoff vehicleType rideType)
      hdef1
    rw [hscan]
    congr 1
    apply scanMin_of_no_smaller
    intro p hp k hk _
    obtain ⟨d, hd, hel, -⟩ := (candidateKey_eq_some _ _ f p k).1 hk
    exact hno p ((hmem p).1 hp).1 d hd hel
  exact ⟨w.afterNoMatch,
    requestRide_of_no_match sqrt w riderId pickup dropoff vehicleType rideType rider available
      hfind hcounter havail hbest, rfl, rfl, rfl, rfl, rfl⟩

theorem requestedWorld_riders_valid :
    ∀ p ∈ requestedWorld.manager.riders, ∃ r, requestedWorld.riderHeap[p]? = some r := by
  intro p hp
  have hp0 : p = 0 := by simpa [requestedWorld, registeredWorld, World.afterMatch,
    World.addDriver, World.addRider, World.addObserver, freshWorld, RideManager.new] using hp
  subst hp0
  exact ⟨_, rfl⟩

theorem requestedWorld_drivers_defined :
    CandidatesDefined requestedWorld.driverHeap requestedWorld.manager.drivers := by
  intro p hp
  have hp0 : p = 0 := by simpa [requestedWorld, registeredWorld, World.afterMatch,
    World.addDriver, World.addRider, World.addObserver, freshWorld, RideManager.new] using hp
  subst hp0
  exact ⟨_, rfl, by decide⟩

theorem requestedWorld_none_available :
    ∀ p ∈ requestedWorld.manager.drivers, ∀ d, requestedWorld.driverHeap[p]? = some d →
      ¬ (d.status = .AVAILABLE ∧ d.vehicle.map Vehicle.type = some .SEDAN) := by
  intro p hp d hd
  have hp0 : p = 0 := by simpa [requestedWorld, registeredWorld, World.afterMatch,
    World.addDriver, World.addRider, World.addObserver, freshWorld, RideManager.new] using hp
  subst hp0
  cases hd
  decide

/-- Witness of C8: the only driver is on a trip, so a second request for a sedan finds no
match and changes nothing but the counter. -/
theorem requestRide_no_match_witness :
    (∀ p ∈ requestedWorld.manager.riders, ∃ r, requestedWorld.riderHeap[p]? = some r) ∧
    (∃ p ∈ requestedWorld.manager.riders, ∃ r, requestedWorld.riderHeap[p]? = some r ∧
      r.userId = "R001") ∧
    requestedWorld.manager.rideCounter < INT_MAX ∧
    CandidatesDefined requestedWorld.driverHeap requestedWorld.manager.drivers ∧
    (∀ p ∈ requestedWorld.manager.drivers, ∀ d, requestedWorld.driverHeap[p]? = some d →
      ¬ (d.status = .AVAILABLE ∧ d.vehicle.map Vehicle.type = some .SEDAN)) ∧
    ∃ w1, requestedWorld.requestRide Rat.sqrt "R001" origin origin .SEDAN .NORMAL
        = some (none, w1) ∧
      w1.manager.rides = requestedWorld.manager.rides ∧
      w1.driverHeap = requestedWorld.driverHeap ∧ w1.riderHeap = requestedWorld.riderHeap ∧
      w1.events = requestedWorld.events ∧ w1.statusLog = requestedWorld.statusLog :=
  ⟨requestedWorld_riders_valid, ⟨0, by decide, _, rfl, by decide⟩, by decide!,
    requestedWorld_drivers_defined, requestedWorld_none_available,
    requestRide_no_match Rat.sqrt requestedWorld "R001" origin origin .SEDAN .NORMAL
      requestedWorld_riders_valid ⟨0, by decide, _, rfl, by decide⟩ (by decide!)
      requestedWorld_drivers_defined requestedWorld_none_available⟩

/-- C9. Not-found leaves the state as it is: `requestRide` with an id that no registered
rider carries returns no ride, and `startRide` and `completeRide` with an id that is not a key
of the ride table return; in all three cases the whole state, the emitted events included, is
the state before the call. -/
theorem not_found_changes_nothing (sqrt : Double → Double) (w : World) (riderId : String)
    (pickup dropoff : Location) (vehicleType : VehicleType) (rideType : RideType)
    (rideId : String)
    (hrider : ∀ p ∈ w.manager.riders, ∃ r, w.riderHeap[p]? = some r ∧ r.userId ≠ riderId)
    (hride : rideId ∉ w.manager.rides.map Prod.fst) :
    w.requestRide sqrt riderId pickup dropoff vehicleType rideType = some (none, w) ∧
    w.startRide rideId = some w ∧ w.completeRide sqrt rideId = some w :=
  ⟨requestRide_of_unknown_rider sqrt w riderId pickup dropoff vehicleType rideType
      (findRider_eq_none _ _ _ hrider),
    startRide_of_unknown w rideId (find_eq_none_of_not_key _ _ hride),
    completeRide_of_unknown sqrt w rideId (find_eq_none_of_not_key _ _ hride)⟩

theorem requestedWorld_no_R002 :
    ∀ p ∈ requestedWorld.manager.riders,
      ∃ r, requestedWorld.riderHeap[p]? = some r ∧ r.userId ≠ "R002" := by
  intro p hp
  have hp0 : p = 0 := by simpa [requestedWorld, registeredWorld, World.afterMatch,
    World.addDriver, World.addRider, World.addObserver, freshWorld, RideManager.new] using hp
  subst hp0
  exact ⟨_, rfl, by decide⟩

/-- Witness of C9: rider `R002` and ride `RIDE_2` are unknown in `requestedWorld`. -/
theorem not_found_changes_nothing_witness :
    (∀ p ∈ requestedWorld.manager.riders,
      ∃ r, requestedWorld.riderHeap[p]? = some r ∧ r.userId ≠ "R002") ∧
    "RIDE_2" ∉ requestedWorld.manager.rides.map Prod.fst ∧
    requestedWorld.requestRide Rat.sqrt "R002" origin origin .SEDAN .NORMAL
      = some (none, requestedWorld) ∧
    requestedWorld.startRide "RIDE_2" = some requestedWorld ∧
    requestedWorld.completeRide Rat.sqrt "RIDE_2" = some requestedWorld :=
  ⟨requestedWorld_no_R002, by decide,
    not_found_changes_nothing Rat.sqrt requestedWorld "R002" origin origin .SEDAN .NORMAL
      "RIDE_2" requestedWorld_no_R002 (by decide)⟩

theorem startedWorld_steps :
    requestedWorld.step Rat.sqrt (.startRide "RIDE_1") = some startedWorld ∧
    startedWorld.step Rat.sqrt (.completeRide "RIDE_1") = some completedWorld := by
  constructor <;> decide!

/-- C10. For a ride of the ride table that has a driver, `completeRide` sets the status of
that driver to AVAILABLE and appends the ride id as one new last entry to the history of the
driver and as one new last entry to the history of the rider; every other driver and every
other rider is left as it was. -/
theorem completeRide_releases_driver (sqrt : Double → Double) (w : World) (rideId : String)
    (ride : Ride) (d : DriverPtr) (driver : Driver) (rider : Rider)
    (hfind : w.manager.rides.find rideId = some ride)
    (hdriver : ride.driver = some d) (hd : w.driverHeap[d]? = some driver)
    (hr : w.riderHeap[ride.rider]? = some rider) :
    ∃ (w1 : World) (driver1 : Driver) (rider1 : Rider),
      w.completeRide sqrt rideId = some w1 ∧
      w1.driverHeap[d]? = some driver1 ∧ driver1.status = .AVAILABLE ∧
      driver1.rideHistory = driver.rideHistory ++ [rideId] ∧
      w1.riderHeap[ride.rider]? = some rider1 ∧
      rider1.rideHistory = rider.rideHistory ++ [rideId] ∧
      (∀ q, q ≠ d → w1.driverHeap[q]? = w.driverHeap[q]?) ∧
      (∀ q, q ≠ ride.rider → w1.riderHeap[q]? = w.riderHeap[q]?) := by
  obtain ⟨fare, hfare⟩ := calculateFare_defined sqrt w.driverHeap ride.completeRide
    (fun p hp => ⟨driver, by
      have hpd : some p = some d := hp.symm.trans hdriver
      cases hpd
      exact hd⟩) w.manager.fareCalculator
  have hdrivers : releaseDriver w.driverHeap rideId ride =
      some (w.driverHeap.set d ((driver.setStatus .AVAILABLE).addRideToHistory rideId)) := by
    simp only [releaseDriver, hdriver, hd]
  have hriders : recordRider w.riderHeap rideId ride =
      some (w.riderHeap.set ride.rider (rider.addRideToHistory rideId)) := by
    simp only [recordRider, hr]
  exact ⟨_, _, _, completeRide_of_found sqrt w rideId ride fare _ _ hfind hfare hdrivers hriders,
    heap_get_set_self _ _ _ _ hd, rfl, rfl, heap_get_set_self _ _ _ _ hr, rfl,
    fun q hq => heap_get_set_ne _ _ _ _ hq, fun q hq => heap_get_set_ne _ _ _ _ hq⟩

/-- Witness of C10: completing `RIDE_1` releases the driver and records the ride in both
histories. -/
theorem completeRide_releases_driver_witness :
    startedWorld.manager.rides.find "RIDE_1" = some startedRide ∧
    startedRide.driver = some 0 ∧
    startedWorld.completeRide Rat.sqrt "RIDE_1" = some completedWorld ∧
    completedWorld.driverHeap.map (fun d => (d.status, d.rideHistory))
      = [(.AVAILABLE, ["RIDE_1"])] ∧
    completedWorld.riderHeap.map (fun r => r.rideHistory) = [["RIDE_1"]] ∧
    ∃ (w1 : World) (driver1 : Driver) (rider1 : Rider),
      startedWorld.completeRide Rat.sqrt "RIDE_1" = some w1 ∧
      w1.driverHeap[0]? = some driver1 ∧ driver1.status = .AVAILABLE ∧
      driver1.rideHistory =
        (Driver.new "D001" "A" "1" origin (some (Sedan "V001" "P1")) 4.8).rideHistory
          ++ ["RIDE_1"] ∧
      w1.riderHeap[startedRide.rider]? = some rider1 ∧
      rider1.rideHistory = (Rider.new "R001" "P" "9" origin 4.5).rideHistory ++ ["RIDE_1"] ∧
      (∀ q, q ≠ 0 → w1.driverHeap[q]? = startedWorld.driverHeap[q]?) ∧
      (∀ q, q ≠ startedRide.rider → w1.riderHeap[q]? = startedWorld.riderHeap[q]?) :=
  ⟨by decide!, rfl, by decide!, by decide!, by decide!,
    completeRide_releases_driver Rat.sqrt startedWorld "RIDE_1" startedRide 0
      ((Driver.new "D001" "A" "1" origin (some (Sedan "V001" "P1")) 4.8).setStatus .ON_TRIP)
      (Rider.new "R001" "P" "9" origin 4.5) (by decide!) rfl (by decide!) (by decide!)⟩

/-- The fare policies read only the locations and the driver of a ride. -/
theorem calculateFare_congr (sqrt : Double → Double) (heap : List Driver) (r1 r2 : Ride)
    (hp : r1.pickupLocation = r2.pickupLocation) (hq : r1.dropoffLocation = r2.dropoffLocation)
    (hd : r1.driver = r2.driver) (c : FareCalculator) :
    c.calculateFare sqrt heap r1 = c.calculateFare sqrt heap r2 := by
  induction c with
  | BaseFareCalculator b r =>
    simp only [FareCalculator.calculateFare, BaseFareCalculator.calculateFare, Ride.getDistance,
      hp, hq, hd]
  | SurgePricingDecorator inner m ih => simp only [FareCalculator.calculateFare, ih]
  | DiscountDecorator inner m ih => simp only [FareCalculator.calculateFare, ih]

/-- C11. For a ride of the ride table whose pointers hold objects, `completeRide` leaves the
ride COMPLETED with the stored fare equal to the amount the active fare policy computes for
it, and emits one status-changed round followed by one payment-completed round, both showing
the ride with the COMPLETED status and the stored fare. -/
theorem completeRide_stores_fare (sqrt : Double → Double) (w : World) (rideId : String)
    (ride : Ride) (rider : Rider)
    (hfind : w.manager.rides.find rideId = some ride)
    (hdriver : ∀ p, ride.driver = some p → ∃ d, w.driverHeap[p]? = some d)
    (hr : w.riderHeap[ride.rider]? = some rider) :
    ∃ (w1 : World) (ride1 : Ride) (fare : Double),
      w.completeRide sqrt rideId = some w1 ∧
      w.manager.fareCalculator.calculateFare sqrt w.driverHeap ride = some fare ∧
      w1.manager.rides.find rideId = some ride1 ∧
      ride1 = { ride with status := .COMPLETED, fare := fare } ∧
      w1.events = w.events ++
        w.manager.observers.map (fun o => ⟨o, .onRideStatusChanged, ride1⟩) ++
        w.manager.observers.map (fun o => ⟨o, .onPaymentCompleted, ride1⟩) := by
  obtain ⟨fare, hfare⟩ := calculateFare_defined sqrt w.driverHeap ride.completeRide
    hdriver w.manager.fareCalculator
  have hfare1 : w.manager.fareCalculator.calculateFare sqrt w.driverHeap ride = some fare := by
    rw [← hfare]
    exact calculateFare_congr sqrt w.driverHeap ride ride.completeRide rfl rfl rfl _
  have hdrivers : ∃ drivers, releaseDriver w.driverHeap rideId ride = some drivers := by
    unfold releaseDriver
    cases hp : ride.driver with
    | none => exact ⟨_, rfl⟩
    | some p =>
      obtain ⟨d, hd⟩ := hdriver p hp
      exact ⟨w.driverHeap.set p ((d.setStatus .AVAILABLE).addRideToHistory rideId), by
        simp only [hd]⟩
  obtain ⟨drivers, hdrivers⟩ := hdrivers
  have hriders : recordRider w.riderHeap rideId ride =
      some (w.riderHeap.set ride.rider (rider.addRideToHistory rideId)) := by
    simp only [recordRider, hr]
  exact ⟨_, _, fare,
    completeRide_of_found sqrt w rideId ride fare _ _ hfind hfare hdrivers hriders, hfare1,
    find_assign_self _ _ _, rfl, rfl⟩

/-- Witness of C11: completing `RIDE_1` stores the fare 60 and emits the two rounds. -/
theorem completeRide_stores_fare_witness :
    startedWorld.manager.rides.find "RIDE_1" = some startedRide ∧
    startedWorld.completeRide Rat.sqrt "RIDE_1" = some completedWorld ∧
    completedWorld.manager.rides.find "RIDE_1" = some completedRide ∧
    completedRide.status = .COMPLETED ∧ completedRide.fare = 60 ∧
    completedWorld.events = startedWorld.events ++
      [⟨7, .onRideStatusChanged, completedRide⟩, ⟨7, .onPaymentCompleted, completedRide⟩] ∧
    ∃ (w1 : World) (ride1 : Ride) (fare : Double),
      startedWorld.completeRide Rat.sqrt "RIDE_1" = some w1 ∧
      startedWorld.manager.fareCalculator.calculateFare Rat.sqrt startedWorld.driverHeap
        startedRide = some fare ∧
      w1.manager.rides.find "RIDE_1" = some ride1 ∧
      ride1 = { startedRide with status := .COMPLETED, fare := fare } ∧
      w1.events = startedWorld.events ++
        startedWorld.manager.observers.map (fun o => ⟨o, .onRideStatusChanged, ride1⟩) ++
        startedWorld.manager.observers.map (fun o => ⟨o, .onPaymentCompleted, ride1⟩) :=
  ⟨by decide!, by decide!, by decide!, rfl, rfl, by decide!,
    completeRide_stores_fare Rat.sqrt startedWorld "RIDE_1" startedRide
      (Rider.new "R001" "P" "9" origin 4.5) (by decide!)
      (fun p hp => ⟨(Driver.new "D001" "A" "1" origin (some (Sedan "V001" "P1")) 4.8).setStatus
        .ON_TRIP, by
          have hp0 : p = 0 := by
            simpa [startedRide, firstRide, Ride.matched, Ride.new, Ride.setDriver,
              Ride.setStatus, Ride.startRide] using hp.symm
          subst hp0
          decide!⟩)
      (by decide!)⟩

/-- C12. For a ride of the ride table, `startRide` sets the status first to DRIVER_EN_ROUTE
and then to IN_PROGRESS, with one status-changed round after each of the two writes (the
first shows DRIVER_EN_ROUTE, the second IN_PROGRESS); the ride ends IN_PROGRESS with its fare
and driver as before, and both heaps (driver statuses and all histories) are unchanged. -/
theorem startRide_two_steps (w : World) (rideId : String) (ride : Ride)
    (hfind : w.manager.rides.find rideId = some ride) :
    ∃ w1, w.startRide rideId = some w1 ∧
      w1.statusLog = w.statusLog ++
        [⟨rideId, ride.status, .DRIVER_EN_ROUTE⟩, ⟨rideId, .DRIVER_EN_ROUTE, .IN_PROGRESS⟩] ∧
      w1.events = w.events ++
        w.manager.observers.map
          (fun o => ⟨o, .onRideStatusChanged, { ride with status := .DRIVER_EN_ROUTE }⟩) ++
        w.manager.observers.map
          (fun o => ⟨o, .onRideStatusChanged, { ride with status := .IN_PROGRESS }⟩) ∧
      w1.manager.rides.find rideId = some { ride with status := .IN_PROGRESS } ∧
      w1.driverHeap = w.driverHeap ∧ w1.riderHeap = w.riderHeap :=
  ⟨_, startRide_of_found w rideId ride hfind, rfl, rfl, find_assign_self _ _ _, rfl, rfl⟩

/-- Witness of C12: starting `RIDE_1` in `requestedWorld`. -/
theorem startRide_two_steps_witness :
    requestedWorld.manager.rides.find "RIDE_1" = some firstRide ∧
    requestedWorld.startRide "RIDE_1" = some startedWorld ∧
    ∃ w1, requestedWorld.startRide "RIDE_1" = some w1 ∧
      w1.statusLog = requestedWorld.statusLog ++
        [⟨"RIDE_1", firstRide.status, .DRIVER_EN_ROUTE⟩,
          ⟨"RIDE_1", .DRIVER_EN_ROUTE, .IN_PROGRESS⟩] ∧
      w1.events = requestedWorld.events ++
        requestedWorld.manager.observers.map
          (fun o => ⟨o, .onRideStatusChanged, { firstRide with status := .DRIVER_EN_ROUTE }⟩) ++
        requestedWorld.manager.observers.map
          (fun o => ⟨o, .onRideStatusChanged, { firstRide with status := .IN_PROGRESS }⟩) ∧
      w1.manager.rides.find "RIDE_1" = some { firstRide with status := .IN_PROGRESS } ∧
      w1.driverHeap = requestedWorld.driverHeap ∧ w1.riderHeap = requestedWorld.riderHeap :=
  ⟨by decide!, by decide!, startRide_two_steps requestedWorld "RIDE_1" firstRide (by decide!)⟩

/-! ## Fare policies: C15 and C16 -/

theorem tenKmRide_distance : tenKmRide.getDistance Rat.sqrt = 10 := by
  simp only [Ride.getDistance, tenKmRide, Ride.new]
  exact distanceTo_pointAt 10 (by norm_num)

/-- C15. `BaseFareCalculator::calculateFare` with flat base `b` and per-km rate `r` on a ride
of distance `d`: when the ride has a driver whose vehicle has base-fare-rate coefficient `c`
the result is `(b + d * r) * (c / 10)`, the divisor being the constant 10 whatever `r` is;
when the ride has no driver, or its driver has no vehicle, the multiplier is 1 and the result
is `b + d * r`. -/
theorem baseFare_formula (sqrt : Double → Double) (heap : List Driver) (b r : Double)
    (ride : Ride) :
    (∀ p driver v, ride.driver = some p → heap[p]? = some driver → driver.vehicle = some v →
      (FareCalculator.BaseFareCalculator b r).calculateFare sqrt heap ride =
        some ((b + ride.getDistance sqrt * r) * (v.baseFareRate / 10))) ∧
    (ride.driver = none →
      (FareCalculator.BaseFareCalculator b r).calculateFare sqrt heap ride =
        some (b + ride.getDistance sqrt * r)) ∧
    (∀ p driver, ride.driver = some p → heap[p]? = some driver → driver.vehicle = none →
      (FareCalculator.BaseFareCalculator b r).calculateFare sqrt heap ride =
        some (b + ride.getDistance sqrt * r)) := by
  refine ⟨?_, ?_, ?_⟩
  · intro p driver v hp hd hv
    simp only [FareCalculator.calculateFare, BaseFareCalculator.calculateFare, hp, hd, hv]
  · intro hp
    simp only [FareCalculator.calculateFare, BaseFareCalculator.calculateFare, hp, mul_one]
  · intro p driver hp hd hv
    simp only [FareCalculator.calculateFare, BaseFareCalculator.calculateFare, hp, hd, hv,
      mul_one]

/-- Witness of C15: distance 10, base 50 and rate 10 give 150 without a driver, and 180 with
a sedan (coefficient 12) although the configured rate is 10. -/
theorem baseFare_formula_witness :
    tenKmRide.driver = none ∧ tenKmRide.getDistance Rat.sqrt = 10 ∧
    (FareCalculator.BaseFareCalculator 50 10).calculateFare Rat.sqrt [] tenKmRide = some 150 ∧
    (FareCalculator.BaseFareCalculator 50 10).calculateFare Rat.sqrt exampleDrivers
      (tenKmRide.setDriver (some 0)) = some 180 := by
  refine ⟨rfl, tenKmRide_distance, ?_, ?_⟩
  · rw [(baseFare_formula Rat.sqrt [] 50 10 tenKmRide).2.1 rfl, tenKmRide_distance]
    norm_num
  · rw [(baseFare_formula Rat.sqrt exampleDrivers 50 10 (tenKmRide.setDriver (some 0))).1 0
      (Driver.new "D001" "A" "1" (pointAt 3) (some (Sedan "V001" "P1")) 4.8)
      (Sedan "V001" "P1") rfl rfl rfl]
    have hd : (tenKmRide.setDriver (some 0)).getDistance Rat.sqrt = 10 := tenKmRide_distance
    rw [hd]
    norm_num [Sedan]

/-- C16. A surge decorator returns the inner fare times its factor and a discount decorator
the inner fare times one minus its fraction, whatever the inner calculator is; on a ride of
distance 10 without a driver the default base calculator gives 150, surge 2.0 gives 300 and
discount 0.15 gives 0.85 times 150. -/
theorem decorator_fares (sqrt : Double → Double) (heap : List Driver) (ride : Ride)
    (inner : FareCalculator) (f p : Double) :
    (FareCalculator.SurgePricingDecorator inner f).calculateFare sqrt heap ride =
      (inner.calculateFare sqrt heap ride).map (fun x => x * f) ∧
    (FareCalculator.DiscountDecorator inner p).calculateFare sqrt heap ride =
      (inner.calculateFare sqrt heap ride).map (fun x => x * (1 - p)) ∧
    (FareCalculator.BaseFareCalculator 50 10).calculateFare Rat.sqrt [] tenKmRide = some 150 ∧
    (FareCalculator.SurgePricingDecorator (.BaseFareCalculator 50 10) 2).calculateFare
      Rat.sqrt [] tenKmRide = some 300 ∧
    (FareCalculator.DiscountDecorator (.BaseFareCalculator 50 10) 0.15).calculateFare
      Rat.sqrt [] tenKmRide = some (0.85 * 150) := by
  have hbase : (FareCalculator.BaseFareCalculator 50 10).calculateFare Rat.sqrt [] tenKmRide
      = some 150 := by
    simp only [FareCalculator.calculateFare, BaseFareCalculator.calculateFare]
    rw [tenKmRide_distance]
    simp only [tenKmRide, Ride.new]
    norm_num
  refine ⟨?_, ?_, hbase, ?_, ?_⟩
  · simp only [FareCalculator.calculateFare]
    cases inner.calculateFare sqrt heap ride <;> rfl
  · simp only [FareCalculator.calculateFare]
    cases inner.calculateFare sqrt heap ride <;> rfl
  · simp only [FareCalculator.calculateFare] at hbase ⊢
    rw [hbase]
    norm_num
  · simp only [FareCalculator.calculateFare] at hbase ⊢
    rw [hbase]
    norm_num

/-- Counterexample to C17: a base calculator configured with base -50, and the default base
calculator under a surge factor -1, both return -50 on a ride of distance 0, in exact and in
binary64 arithmetic. -/
theorem calculateFare_negative :
    (FareCalculator.BaseFareCalculator (-50) 10).calculateFare Rat.sqrt []
      (exampleRide .SEDAN) = some (-50) ∧
    (FareCalculator.SurgePricingDecorator (.BaseFareCalculator 50 10) (-1)).calculateFare
      Rat.sqrt [] (exampleRide .SEDAN) = some (-50) ∧
    ¬ (0 : Double) ≤ -50 ∧
    (FareCalculator.BaseFareCalculator (-50) 10).calculateFare64 Rat.sqrt []
      (exampleRide .SEDAN) = some (.finite (-50)) ∧
    (FareCalculator.SurgePricingDecorator (.BaseFareCalculator 50 10) (-1)).calculateFare64
      Rat.sqrt [] (exampleRide .SEDAN) = some (.finite (-50)) ∧
    ¬ (Binary64.finite 0).le (.finite (-50)) := by
  refine ⟨by decide!, by decide!, by norm_num, by decide!, by decide!, by decide!⟩

theorem calculateFare_nonneg_of_params (sqrt : Double → Double) (heap : List Driver)
    (ride : Ride) (hsqrt : ∀ x, 0 ≤ sqrt x)
    (hcoef : ∀ p driver v, ride.driver = some p → heap[p]? = some driver →
      driver.vehicle = some v → 0 ≤ v.baseFareRate)
    (c : FareCalculator) (hc : c.NonNegParams) :
    ∀ fare, c.calculateFare sqrt heap ride = some fare → 0 ≤ fare := by
  induction c with
  | BaseFareCalculator b r =>
    intro fare hfare
    obtain ⟨hb, hr⟩ := hc
    have hdist : 0 ≤ ride.getDistance sqrt := by
      simp only [Ride.getDistance, Location.distanceTo]
      exact mul_nonneg (hsqrt _) (by norm_num)
    have hsum : 0 ≤ b + ride.getDistance sqrt * r := add_nonneg hb (mul_nonneg hdist hr)
    simp only [FareCalculator.calculateFare, BaseFareCalculator.calculateFare] at hfare
    cases hp : ride.driver with
    | none =>
      simp only [hp, Option.some.injEq] at hfare
      rw [← hfare]
      exact mul_nonneg hsum (by norm_num)
    | some p =>
      simp only [hp] at hfare
      cases hd : heap[p]? with
      | none => simp [hd] at hfare
      | some driver =>
        simp only [hd] at hfare
        cases hv : driver.vehicle with
        | none =>
          simp only [hv, Option.some.injEq] at hfare
          rw [← hfare]
          exact mul_nonneg hsum (by norm_num)
        | some v =>
          simp only [hv, Option.some.injEq] at hfare
          rw [← hfare]
          exact mul_nonneg hsum (div_nonneg (hcoef p driver v hp hd hv) (by norm_num))
  | SurgePricingDecorator inner m ih =>
    intro fare hfare
    simp only [FareCalculator.calculateFare] at hfare
    cases hin : inner.calculateFare sqrt heap ride with
    | none => simp [hin] at hfare
    | some x =>
      simp only [hin, Option.some.injEq] at hfare
      rw [← hfare]
      exact mul_nonneg (ih hc.1 x hin) hc.2
  | DiscountDecorator inner m ih =>
    intro fare hfare
    simp only [FareCalculator.calculateFare] at hfare
    cases hin : inner.calculateFare sqrt heap ride with
    | none => simp [hin] at hfare
    | some x =>
      simp only [hin, Option.some.injEq] at hfare
      rw [← hfare]
      exact mul_nonneg (ih hc.1 x hin) (sub_nonneg.2 hc.2)

/-! ## Rounding to binary64 and the sign of a fare: C17 and C26 -/

theorem roundHalfEven_ge_floor (x : ℚ) : ⌊x⌋ ≤ Binary64.roundHalfEven x := by
  unfold Binary64.roundHalfEven
  split_ifs <;> omega

theorem roundHalfEven_le_floor_succ (x : ℚ) : Binary64.roundHalfEven x ≤ ⌊x⌋ + 1 := by
  unfold Binary64.roundHalfEven
  split_ifs <;> omega

theorem roundHalfEven_intCast (n : ℤ) : Binary64.roundHalfEven (n : ℚ) = n := by
  unfold Binary64.roundHalfEven
  simp

theorem roundHalfEven_mono (x y : ℚ) (h : x ≤ y) :
    Binary64.roundHalfEven x ≤ Binary64.roundHalfEven y := by
  have hfl : ⌊x⌋ ≤ ⌊y⌋ := Int.floor_mono h
  rcases lt_or_eq_of_le hfl with hlt | heq
  · calc Binary64.roundHalfEven x ≤ ⌊x⌋ + 1 := roundHalfEven_le_floor_succ x
      _ ≤ ⌊y⌋ := hlt
      _ ≤ Binary64.roundHalfEven y := roundHalfEven_ge_floor y
  · have hfr : x - ⌊x⌋ ≤ y - ⌊y⌋ := by rw [heq]; linarith
    unfold Binary64.roundHalfEven
    rw [heq]
    split_ifs <;> first | omega | (exfalso; linarith)

theorem roundHalfEven_nonneg (x : ℚ) (h : 0 ≤ x) : 0 ≤ Binary64.roundHalfEven x := by
  have := roundHalfEven_mono 0 x h
  rwa [show (0 : ℚ) = ((0 : ℤ) : ℚ) by norm_num, roundHalfEven_intCast] at this

theorem roundHalfEven_le_of_le (x : ℚ) (n : ℤ) (h : x ≤ n) : Binary64.roundHalfEven x ≤ n := by
  have := roundHalfEven_mono x n h
  rwa [roundHalfEven_intCast] at this

theorem le_roundHalfEven_of_le (x : ℚ) (n : ℤ) (h : (n : ℚ) ≤ x) :
    n ≤ Binary64.roundHalfEven x := by
  have := roundHalfEven_mono n x h
  rwa [roundHalfEven_intCast] at this

theorem quantum_pos (a : ℚ) : 0 < Binary64.quantum a := by
  unfold Binary64.quantum
  positivity

theorem exponent_mono (a b : ℚ) (ha : 0 < a) (h : a ≤ b) :
    Binary64.exponent a ≤ Binary64.exponent b := by
  unfold Binary64.exponent
  exact max_le_max (Int.log_mono_right ha h) (le_refl _)

theorem lt_two_zpow_exponent_succ (a : ℚ) : a < 2 ^ (Binary64.exponent a + 1) := by
  have h1 : a < ((2 : ℕ) : ℚ) ^ (Int.log 2 a + 1) := Int.lt_zpow_succ_log_self (by norm_num) a
  have h2 : ((2 : ℕ) : ℚ) ^ (Int.log 2 a + 1) ≤ ((2 : ℕ) : ℚ) ^ (Binary64.exponent a + 1) :=
    zpow_le_zpow_right₀ (by norm_num) (by unfold Binary64.exponent; omega)
  have := lt_of_lt_of_le h1 h2
  simpa using this

theorem two_zpow_exponent_le (a : ℚ) (ha : 0 < a) (he : -1022 < Binary64.exponent a) :
    2 ^ Binary64.exponent a ≤ a := by
  have hlog : Binary64.exponent a = Int.log 2 a := by
    unfold Binary64.exponent at he ⊢
    omega
  rw [hlog]
  have := Int.zpow_log_le_self (b := 2) (by norm_num) ha
  simpa using this

theorem exponent_eq (a : ℚ) (e : ℤ) (h1 : 2 ^ e ≤ a) (h2 : a < 2 ^ (e + 1)) (he : -1022 ≤ e) :
    Binary64.exponent a = e := by
  have ha : 0 < a := lt_of_lt_of_le (by positivity) h1
  have hlog : Int.log 2 a = e := by
    apply le_antisymm
    · have : Int.log 2 a < e + 1 := by
        rw [← Int.lt_zpow_iff_log_lt (by norm_num) ha]
        simpa using h2
      omega
    · rw [← Int.zpow_le_iff_le_log (by norm_num) ha]
      simpa using h1
  unfold Binary64.exponent
  omega

theorem exponent_of_small (a : ℚ) (ha : 0 < a) (h : a < 2 ^ (-1022 : ℤ)) :
    Binary64.exponent a = -1022 := by
  unfold Binary64.exponent
  have : Int.log 2 a < -1022 := by
    rw [← Int.lt_zpow_iff_log_lt (by norm_num) ha]
    simpa using h
  omega

theorem nearestMagnitude_nonneg (a : ℚ) (h : 0 ≤ a) : 0 ≤ Binary64.nearestMagnitude a := by
  unfold Binary64.nearestMagnitude
  have hq := quantum_pos a
  have : 0 ≤ Binary64.roundHalfEven (a / Binary64.quantum a) :=
    roundHalfEven_nonneg _ (div_nonneg h hq.le)
  have h2 : (0 : ℚ) ≤ (Binary64.roundHalfEven (a / Binary64.quantum a) : ℚ) := by
    exact_mod_cast this
  exact mul_nonneg h2 hq.le

theorem nearestMagnitude_zero : Binary64.nearestMagnitude 0 = 0 := by
  unfold Binary64.nearestMagnitude
  have h := roundHalfEven_intCast 0
  rw [Int.cast_zero] at h
  rw [zero_div, h, Int.cast_zero, zero_mul]

theorem nearestMagnitude_le_two_zpow (a : ℚ) :
    Binary64.nearestMagnitude a ≤ 2 ^ (Binary64.exponent a + 1) := by
  unfold Binary64.nearestMagnitude
  have hq := quantum_pos a
  have h1 : a / Binary64.quantum a ≤ ((2 ^ 53 : ℤ) : ℚ) := by
    rw [div_le_iff₀ hq]
    have h2 : ((2 ^ 53 : ℤ) : ℚ) * Binary64.quantum a = 2 ^ (Binary64.exponent a + 1) := by
      unfold Binary64.quantum
      rw [show Binary64.exponent a + 1 = 53 + (Binary64.exponent a - 52) by ring,
        zpow_add₀ (by norm_num)]
      norm_num
    rw [h2]
    exact (lt_two_zpow_exponent_succ a).le
  have h3 := roundHalfEven_le_of_le _ _ h1
  have h4 : (Binary64.roundHalfEven (a / Binary64.quantum a) : ℚ) ≤ ((2 ^ 53 : ℤ) : ℚ) := by
    exact_mod_cast h3
  calc (Binary64.roundHalfEven (a / Binary64.quantum a) : ℚ) * Binary64.quantum a
      ≤ ((2 ^ 53 : ℤ) : ℚ) * Binary64.quantum a := mul_le_mul_of_nonneg_right h4 hq.le
    _ = 2 ^ (Binary64.exponent a + 1) := by
      unfold Binary64.quantum
      rw [show Binary64.exponent a + 1 = 53 + (Binary64.exponent a - 52) by ring,
        zpow_add₀ (by norm_num)]
      norm_num

theorem two_zpow_le_nearestMagnitude (b : ℚ) (hb : 0 < b) (he : -1022 < Binary64.exponent b) :
    2 ^ Binary64.exponent b ≤ Binary64.nearestMagnitude b := by
  unfold Binary64.nearestMagnitude
  have hq := quantum_pos b
  have hpow : ((2 ^ 52 : ℤ) : ℚ) * Binary64.quantum b = 2 ^ Binary64.exponent b := by
    unfold Binary64.quantum
    rw [show (2 : ℚ) ^ Binary64.exponent b = 2 ^ (52 + (Binary64.exponent b - 52)) by
      congr 1; ring, zpow_add₀ (by norm_num)]
    norm_num
  have h1 : ((2 ^ 52 : ℤ) : ℚ) ≤ b / Binary64.quantum b := by
    rw [le_div_iff₀ hq, hpow]
    exact two_zpow_exponent_le b hb he
  have h3 := le_roundHalfEven_of_le _ _ h1
  have h4 : ((2 ^ 52 : ℤ) : ℚ) ≤ (Binary64.roundHalfEven (b / Binary64.quantum b) : ℚ) := by
    exact_mod_cast h3
  calc (2 : ℚ) ^ Binary64.exponent b = ((2 ^ 52 : ℤ) : ℚ) * Binary64.quantum b := hpow.symm
    _ ≤ _ := mul_le_mul_of_nonneg_right h4 hq.le

theorem nearestMagnitude_mono (a b : ℚ) (ha : 0 ≤ a) (h : a ≤ b) :
    Binary64.nearestMagnitude a ≤ Binary64.nearestMagnitude b := by
  rcases eq_or_lt_of_le ha with h0 | hpos
  · rw [← h0, nearestMagnitude_zero]
    exact nearestMagnitude_nonneg b (le_trans ha h)
  have hb : 0 < b := lt_of_lt_of_le hpos h
  rcases lt_or_eq_of_le (exponent_mono a b hpos h) with hlt | heq
  · calc Binary64.nearestMagnitude a ≤ 2 ^ (Binary64.exponent a + 1) :=
        nearestMagnitude_le_two_zpow a
      _ ≤ 2 ^ Binary64.exponent b := zpow_le_zpow_right₀ (by norm_num) (by omega)
      _ ≤ Binary64.nearestMagnitude b :=
        two_zpow_le_nearestMagnitude b hb (by unfold Binary64.exponent at hlt ⊢; omega)
  · have hq : Binary64.quantum a = Binary64.quantum b := by
      unfold Binary64.quantum
      rw [heq]
    unfold Binary64.nearestMagnitude
    rw [hq]
    have hqb := quantum_pos b
    have h1 : a / Binary64.quantum b ≤ b / Binary64.quantum b :=
      div_le_div_of_nonneg_right h hqb.le
    have h2 := roundHalfEven_mono _ _ h1
    have h3 : (Binary64.roundHalfEven (a / Binary64.quantum b) : ℚ)
        ≤ (Binary64.roundHalfEven (b / Binary64.quantum b) : ℚ) := by exact_mod_cast h2
    exact mul_le_mul_of_nonneg_right h3 hqb.le

theorem nearestMagnitude_of_multiple (a : ℚ) (k : ℤ) (h : a = k * Binary64.quantum a) :
    Binary64.nearestMagnitude a = a := by
  unfold Binary64.nearestMagnitude
  have hq := quantum_pos a
  have : a / Binary64.quantum a = (k : ℚ) := by
    rw [div_eq_iff hq.ne.symm]
    exact h
  rw [this, roundHalfEven_intCast]
  exact h.symm

theorem round_nonneg (q : ℚ) (h : 0 ≤ q) : (Binary64.finite 0).le (Binary64.round q) := by
  unfold Binary64.round
  rw [if_pos h]
  split_ifs
  · trivial
  · exact nearestMagnitude_nonneg q h

theorem round_ge_of_nearest (q0 q : ℚ) (h0 : 0 ≤ q0) (h : q0 ≤ q) :
    (Binary64.finite (Binary64.nearestMagnitude q0)).le (Binary64.round q) := by
  unfold Binary64.round
  rw [if_pos (le_trans h0 h)]
  split_ifs
  · trivial
  · exact nearestMagnitude_mono q0 q h0 h

theorem round_overflow (q : ℚ) (h : 2 ^ (1024 : ℤ) ≤ q) : Binary64.round q = .posInf := by
  have hq : 0 < q := lt_of_lt_of_le (by positivity) h
  have hlog : (1024 : ℤ) ≤ Int.log 2 q := by
    rw [← Int.zpow_le_iff_le_log (by norm_num) hq]
    simpa using h
  have hexp : (1024 : ℤ) ≤ Binary64.exponent q := by
    unfold Binary64.exponent
    omega
  have h1 := two_zpow_le_nearestMagnitude q hq (by omega)
  have h2 : (2 : ℚ) ^ (1024 : ℤ) ≤ 2 ^ Binary64.exponent q :=
    zpow_le_zpow_right₀ (by norm_num) hexp
  have h3 : DBL_MAX < (2 : ℚ) ^ (1024 : ℤ) := by norm_num [DBL_MAX]
  unfold Binary64.round
  rw [if_pos hq.le, if_pos (lt_of_lt_of_le h3 (le_trans h2 h1))]

theorem mul_not_negative (x y : Binary64)
    (hx : x = .nan ∨ (Binary64.finite 0).le x) (hy : y = .nan ∨ (Binary64.finite 0).le y) :
    x.mul y = .nan ∨ (Binary64.finite 0).le (x.mul y) := by
  cases x with
  | nan => exact Or.inl (by cases y <;> rfl)
  | negInf => simp [Binary64.le] at hx
  | posInf =>
    cases y with
    | nan => exact Or.inl rfl
    | negInf => simp [Binary64.le] at hy
    | posInf => exact Or.inr trivial
    | finite b =>
      have hb : 0 ≤ b := by simpa [Binary64.le] using hy
      simp only [Binary64.mul, Binary64.infTimes]
      split_ifs with h1 h2
      · exact Or.inl rfl
      · exact Or.inr trivial
      · exact absurd (lt_of_le_of_ne hb (Ne.symm h1)) (by simpa using h2)
  | finite a =>
    have ha : 0 ≤ a := by simpa [Binary64.le] using hx
    cases y with
    | nan => exact Or.inl rfl
    | negInf => simp [Binary64.le] at hy
    | posInf =>
      simp only [Binary64.mul, Binary64.infTimes]
      split_ifs with h1 h2
      · exact Or.inl rfl
      · exact Or.inr trivial
      · exact absurd (lt_of_le_of_ne ha (Ne.symm h1)) (by simpa using h2)
    | finite b =>
      have hb : 0 ≤ b := by simpa [Binary64.le] using hy
      exact Or.inr (round_nonneg _ (mul_nonneg ha hb))

theorem add_not_negative (x y : Binary64)
    (hx : x = .nan ∨ (Binary64.finite 0).le x) (hy : y = .nan ∨ (Binary64.finite 0).le y) :
    x.add y = .nan ∨ (Binary64.finite 0).le (x.add y) := by
  cases x with
  | nan => exact Or.inl (by cases y <;> rfl)
  | negInf => simp [Binary64.le] at hx
  | posInf =>
    cases y with
    | nan => exact Or.inl rfl
    | negInf => simp [Binary64.le] at hy
    | posInf => exact Or.inr trivial
    | finite b => exact Or.inr trivial
  | finite a =>
    have ha : 0 ≤ a := by simpa [Binary64.le] using hx
    cases y with
    | nan => exact Or.inl rfl
    | negInf => simp [Binary64.le] at hy
    | posInf => exact Or.inr trivial
    | finite b =>
      have hb : 0 ≤ b := by simpa [Binary64.le] using hy
      exact Or.inr (round_nonneg _ (add_nonneg ha hb))

theorem mul_nonneg_of_isPos (x y : Binary64) (hx : (Binary64.finite 0).le x) (hy : y.IsPos) :
    (Binary64.finite 0).le (x.mul y) := by
  cases y with
  | nan => exact absurd hy (by simp [Binary64.IsPos])
  | negInf => exact absurd hy (by simp [Binary64.IsPos])
  | posInf => exact absurd hy (by simp [Binary64.IsPos])
  | finite b =>
    have hb : 0 < b := by simpa [Binary64.IsPos] using hy
    cases x with
    | nan => simp [Binary64.le] at hx
    | negInf => simp [Binary64.le] at hx
    | posInf =>
      simp only [Binary64.mul, Binary64.infTimes]
      rw [if_neg hb.ne.symm, if_pos (by simpa using hb)]
      trivial
    | finite a =>
      have ha : 0 ≤ a := by simpa [Binary64.le] using hx
      exact round_nonneg _ (mul_nonneg ha hb.le)

theorem sqrt_not_negative (sqrt : Double → Double) (hsqrt : ∀ x, 0 ≤ sqrt x) (x : Binary64) :
    Binary64.sqrt sqrt x = .nan ∨ (Binary64.finite 0).le (Binary64.sqrt sqrt x) := by
  cases x with
  | nan => exact Or.inl rfl
  | negInf => exact Or.inl rfl
  | posInf => exact Or.inr trivial
  | finite a =>
    simp only [Binary64.sqrt]
    split_ifs
    · exact Or.inl rfl
    · exact Or.inr (round_nonneg _ (hsqrt a))

theorem getDistance64_not_negative (sqrt : Double → Double) (hsqrt : ∀ x, 0 ≤ sqrt x)
    (ride : Ride) :
    ride.getDistance64 sqrt = .nan ∨ (Binary64.finite 0).le (ride.getDistance64 sqrt) := by
  unfold Ride.getDistance64 Location.distanceTo64
  exact mul_not_negative _ _ (sqrt_not_negative sqrt hsqrt _)
    (Or.inr (by simp [Binary64.le]))

theorem div_ten_nonneg (x : ℚ) (h : 0 ≤ x) :
    (Binary64.finite 0).le ((Binary64.finite x).div (.finite 10)) := by
  simp only [Binary64.div]
  rw [if_neg (by norm_num)]
  exact round_nonneg _ (div_nonneg h (by norm_num))

theorem calculateFare64_of_multiplier (sqrt : Double → Double) (heap : List Driver)
    (b k : Double) (ride : Ride) :
    BaseFareCalculator.calculateFare64 sqrt heap b k ride =
      (vehicleMultiplier64 heap ride).map (fun m =>
        ((Binary64.finite b).add ((ride.getDistance64 sqrt).mul (.finite k))).mul m) := by
  unfold BaseFareCalculator.calculateFare64 vehicleMultiplier64 vehicleCoefficient
  cases ride.driver with
  | none => rfl
  | some p =>
    dsimp only
    cases heap[p]? with
    | none => rfl
    | some driver =>
      dsimp only
      cases driver.vehicle with
      | none => rfl
      | some v => rfl

theorem vehicleMultiplier64_defined (heap : List Driver) (ride : Ride)
    (h : ∀ p, ride.driver = some p → ∃ d, heap[p]? = some d) :
    ∃ m, vehicleMultiplier64 heap ride = some m := by
  unfold vehicleMultiplier64 vehicleCoefficient
  cases hp : ride.driver with
  | none => exact ⟨_, rfl⟩
  | some p =>
    obtain ⟨d, hd⟩ := h p hp
    simp only [hd]
    exact ⟨_, rfl⟩

theorem vehicleMultiplier64_not_negative (heap : List Driver) (ride : Ride)
    (hcoef : ∀ x, vehicleCoefficient heap ride = some (some x) → 0 ≤ x) (m : Binary64)
    (hm : vehicleMultiplier64 heap ride = some m) : (Binary64.finite 0).le m := by
  unfold vehicleMultiplier64 at hm
  cases hv : vehicleCoefficient heap ride with
  | none => simp [hv] at hm
  | some co =>
    simp only [hv, Option.map_some', Option.some.injEq] at hm
    cases co with
    | none =>
      subst hm
      simp [Binary64.le]
    | some x =>
      subst hm
      exact div_ten_nonneg x (hcoef x hv)

theorem calculateFare64_not_negative (sqrt : Double → Double) (heap : List Driver)
    (ride : Ride) (hsqrt : ∀ x, 0 ≤ sqrt x)
    (hdriver : ∀ p, ride.driver = some p → ∃ d, heap[p]? = some d)
    (hcoef : ∀ x, vehicleCoefficient heap ride = some (some x) → 0 ≤ x)
    (c : FareCalculator) (hc : c.NonNegParams) :
    ∃ fare, c.calculateFare64 sqrt heap ride = some fare ∧
      (fare = .nan ∨ (Binary64.finite 0).le fare) := by
  induction c with
  | BaseFareCalculator b r =>
    obtain ⟨m, hm⟩ := vehicleMultiplier64_defined heap ride hdriver
    refine ⟨((Binary64.finite b).add ((ride.getDistance64 sqrt).mul (.finite r))).mul m, by
      simp only [FareCalculator.calculateFare64, calculateFare64_of_multiplier, hm,
        Option.map_some'], ?_⟩
    exact mul_not_negative _ _
      (add_not_negative _ _ (Or.inr (by simpa [Binary64.le] using hc.1))
        (mul_not_negative _ _ (getDistance64_not_negative sqrt hsqrt ride)
          (Or.inr (by simpa [Binary64.le] using hc.2))))
      (Or.inr (vehicleMultiplier64_not_negative heap ride hcoef m hm))
  | SurgePricingDecorator inner m ih =>
    obtain ⟨x, hx, hsign⟩ := ih hc.1
    refine ⟨x.mul (.finite m), by simp only [FareCalculator.calculateFare64, hx], ?_⟩
    exact mul_not_negative _ _ hsign (Or.inr (by simpa [Binary64.le] using hc.2))
  | DiscountDecorator inner p ih =>
    obtain ⟨x, hx, hsign⟩ := ih hc.1
    refine ⟨x.mul ((Binary64.finite 1).sub (.finite p)), by
      simp only [FareCalculator.calculateFare64, hx], ?_⟩
    refine mul_not_negative _ _ hsign (Or.inr ?_)
    simp only [Binary64.sub, Binary64.neg, Binary64.add]
    exact round_nonneg _ (by linarith [hc.2])


theorem calculateFare64_nonneg_of_posFactors (sqrt : Double → Double) (heap : List Driver)
    (ride : Ride) (d : ℚ) (hd : ride.getDistance64 sqrt = .finite d) (hd0 : 0 ≤ d)
    (m : Binary64) (hm : vehicleMultiplier64 heap ride = some m) (hpos : m.IsPos)
    (c : FareCalculator) (hc : c.PosFactors) :
    ∃ fare, c.calculateFare64 sqrt heap ride = some fare ∧ (Binary64.finite 0).le fare := by
  induction c with
  | BaseFareCalculator b r =>
    refine ⟨((Binary64.finite b).add ((ride.getDistance64 sqrt).mul (.finite r))).mul m, by
      simp only [FareCalculator.calculateFare64, calculateFare64_of_multiplier, hm,
        Option.map_some'], ?_⟩
    apply mul_nonneg_of_isPos _ _ _ hpos
    rw [hd]
    have h1 : (Binary64.finite 0).le ((Binary64.finite d).mul (.finite r)) :=
      round_nonneg _ (mul_nonneg hd0 hc.2)
    rcases add_not_negative (.finite b) _ (Or.inr (by simpa [Binary64.le] using hc.1))
      (Or.inr h1) with h | h
    · exfalso
      revert h h1
      cases (Binary64.finite d).mul (.finite r) <;>
        simp [Binary64.add, Binary64.le, Binary64.round]
      intros
      split_ifs <;> simp
    · exact h
  | SurgePricingDecorator inner f ih =>
    obtain ⟨x, hx, hsign⟩ := ih hc.1
    exact ⟨x.mul (.finite f), by simp only [FareCalculator.calculateFare64, hx],
      mul_nonneg_of_isPos _ _ hsign (by simpa [Binary64.IsPos] using hc.2)⟩
  | DiscountDecorator inner p ih =>
    obtain ⟨x, hx, hsign⟩ := ih hc.1
    exact ⟨x.mul ((Binary64.finite 1).sub (.finite p)), by
      simp only [FareCalculator.calculateFare64, hx], mul_nonneg_of_isPos _ _ hsign hc.2⟩


theorem nearestMagnitude_two_zpow (k : ℤ) (hk : -1022 ≤ k) :
    Binary64.nearestMagnitude (2 ^ k) = 2 ^ k := by
  have he : Binary64.exponent ((2 : ℚ) ^ k) = k :=
    exponent_eq _ k (le_refl _) (zpow_lt_zpow_right₀ (by norm_num) (by omega)) hk
  apply nearestMagnitude_of_multiple _ (2 ^ 52)
  unfold Binary64.quantum
  rw [he, show (2 : ℚ) ^ k = 2 ^ (52 + (k - 52)) by congr 1; ring, zpow_add₀ (by norm_num)]
  norm_num

theorem sub_isPos (p : Double) (h0 : 0 ≤ p) (h1 : p ≤ 1 - 2 ^ (-53 : ℤ)) :
    ((Binary64.finite 1).sub (.finite p)).IsPos := by
  have hlow : (1 : ℚ) / 9007199254740992 ≤ 1 + -p := by
    have : (2 : ℚ) ^ (-53 : ℤ) = 1 / 9007199254740992 := by norm_num [zpow_neg]
    rw [this] at h1
    linarith
  have hq : (0 : ℚ) ≤ 1 + -p := le_trans (by norm_num) hlow
  have hup : Binary64.nearestMagnitude (1 + -p) ≤ 1 := by
    have h := nearestMagnitude_mono (1 + -p) 1 hq (by linarith)
    have h2 : Binary64.nearestMagnitude 1 = 1 := by decide!
    rwa [h2] at h
  have hdown : (1 : ℚ) / 9007199254740992 ≤ Binary64.nearestMagnitude (1 + -p) := by
    have h := nearestMagnitude_mono (1 / 9007199254740992) (1 + -p) (by norm_num) hlow
    have h2 : (1 : ℚ) / 9007199254740992 = 2 ^ (-53 : ℤ) := by norm_num [zpow_neg]
    rwa [h2, nearestMagnitude_two_zpow (-53) (by norm_num), ← h2] at h
  simp only [Binary64.sub, Binary64.neg, Binary64.add, Binary64.round]
  rw [if_pos hq, if_neg (not_lt.2 (le_trans hup (by norm_num [DBL_MAX])))]
  exact lt_of_lt_of_le (by norm_num) hdown

theorem builtIn_multiplier (v : Vehicle) (h : v.BuiltIn) :
    ∃ μ : ℚ, (Binary64.finite v.baseFareRate).div (.finite 10) = .finite μ ∧
      5404319552844595 / 9007199254740992 ≤ μ := by
  have h8 : (Binary64.finite 8).div (.finite 10)
      = .finite (3602879701896397 / 4503599627370496) := by decide!
  have h12 : (Binary64.finite 12).div (.finite 10)
      = .finite (5404319552844595 / 4503599627370496) := by decide!
  have h18 : (Binary64.finite 18).div (.finite 10)
      = .finite (8106479329266893 / 4503599627370496) := by decide!
  have h6 : (Binary64.finite 6).div (.finite 10)
      = .finite (5404319552844595 / 9007199254740992) := by decide!
  obtain ⟨id, plate, h1 | h1 | h1 | h1⟩ := h <;> subst h1
  · exact ⟨_, h8, by norm_num⟩
  · exact ⟨_, h12, by norm_num⟩
  · exact ⟨_, h18, by norm_num⟩
  · exact ⟨_, h6, by norm_num⟩

theorem vehicleMultiplier64_builtIn (heap : List Driver) (ride : Ride)
    (hdriver : ∀ p, ride.driver = some p → ∃ d, heap[p]? = some d)
    (hbuilt : ∀ p driver v, ride.driver = some p → heap[p]? = some driver →
      driver.vehicle = some v → v.BuiltIn) :
    ∃ μ : ℚ, vehicleMultiplier64 heap ride = some (.finite μ) ∧
      5404319552844595 / 9007199254740992 ≤ μ := by
  unfold vehicleMultiplier64 vehicleCoefficient
  cases hp : ride.driver with
  | none => exact ⟨1, rfl, by norm_num⟩
  | some p =>
    obtain ⟨d, hd⟩ := hdriver p hp
    simp only [hd, Option.map_some']
    cases hv : d.vehicle with
    | none => exact ⟨1, rfl, by norm_num⟩
    | some v =>
      obtain ⟨μ, hμ, hle⟩ := builtIn_multiplier v (hbuilt p d v hp hd hv)
      exact ⟨μ, by simp only [Option.map_some', hμ], hle⟩

theorem default_amount_ge_fifty (d : ℚ) (hd0 : 0 ≤ d) :
    (Binary64.finite 50).le
      ((Binary64.finite 50).add ((Binary64.finite d).mul (.finite 10))) := by
  have h1 : (Binary64.finite 0).le (Binary64.round (d * 10)) :=
    round_nonneg _ (mul_nonneg hd0 (by norm_num))
  have h50 : Binary64.nearestMagnitude 50 = 50 := by decide!
  simp only [Binary64.mul]
  cases hr : Binary64.round (d * 10) with
  | nan => rw [hr] at h1; exact absurd h1 (by simp [Binary64.le])
  | negInf => rw [hr] at h1; exact absurd h1 (by simp [Binary64.le])
  | posInf => trivial
  | finite v =>
    rw [hr] at h1
    have hv : 0 ≤ v := by simpa [Binary64.le] using h1
    have h := round_ge_of_nearest 50 (50 + v) (by norm_num) (by linarith)
    rw [h50] at h
    exact h

theorem mul_ge_thirty (x : Binary64) (μ : ℚ) (hx : (Binary64.finite 50).le x)
    (hμ : 5404319552844595 / 9007199254740992 ≤ μ) :
    (Binary64.finite 30).le (x.mul (.finite μ)) := by
  have hpos : (0 : ℚ) < μ := lt_of_lt_of_le (by norm_num) hμ
  have h30 : Binary64.nearestMagnitude (50 * (5404319552844595 / 9007199254740992)) = 30 := by
    decide!
  cases x with
  | nan => simp [Binary64.le] at hx
  | negInf => simp [Binary64.le] at hx
  | posInf =>
    simp only [Binary64.mul, Binary64.infTimes]
    rw [if_neg hpos.ne.symm, if_pos (by simpa using hpos)]
    trivial
  | finite v =>
    have hv : 50 ≤ v := by simpa [Binary64.le] using hx
    have h := round_ge_of_nearest (50 * (5404319552844595 / 9007199254740992)) (v * μ)
      (by norm_num) (mul_le_mul hv hμ (by norm_num) (by linarith))
    rw [h30] at h
    exact h

theorem default_fare_ge_thirty (sqrt : Double → Double) (heap : List Driver) (ride : Ride)
    (d : ℚ) (hd : ride.getDistance64 sqrt = .finite d) (hd0 : 0 ≤ d)
    (hdriver : ∀ p, ride.driver = some p → ∃ x, heap[p]? = some x)
    (hbuilt : ∀ p driver v, ride.driver = some p → heap[p]? = some driver →
      driver.vehicle = some v → v.BuiltIn) :
    ∃ fare, (FareCalculator.BaseFareCalculator 50 10).calculateFare64 sqrt heap ride
      = some fare ∧ (Binary64.finite 30).le fare := by
  obtain ⟨μ, hm, hμ⟩ := vehicleMultiplier64_builtIn heap ride hdriver hbuilt
  refine ⟨((Binary64.finite 50).add ((Binary64.finite d).mul (.finite 10))).mul (.finite μ), by
    simp only [FareCalculator.calculateFare64, calculateFare64_of_multiplier, hm,
      Option.map_some', hd], ?_⟩
  exact mul_ge_thirty _ μ (default_amount_ge_fifty d hd0) hμ

/-- C17, amended. With a square root that is never negative, a ride whose driver pointer
holds an object and whose vehicle coefficient is at least 0, and a policy chain whose base,
rate and surge factors are at least 0 and whose discount fractions are at most 1 (every
member a finite number), `calculateFare` returns a value, and in binary64 arithmetic that
value is never a negative amount: it is NaN or at least 0 (possibly +∞); so it is not -∞, and
when it is a finite amount the amount is at least 0. -/
theorem calculateFare_never_negative (sqrt : Double → Double) (heap : List Driver)
    (ride : Ride) (c : FareCalculator) (hsqrt : ∀ x, 0 ≤ sqrt x)
    (hdriver : ∀ p, ride.driver = some p → ∃ d, heap[p]? = some d)
    (hcoef : ∀ p driver v, ride.driver = some p → heap[p]? = some driver →
      driver.vehicle = some v → 0 ≤ v.baseFareRate)
    (hc : c.NonNegParams) :
    ∃ fare, c.calculateFare64 sqrt heap ride = some fare ∧
      (fare = .nan ∨ (Binary64.finite 0).le fare) ∧
      fare ≠ .negInf ∧ ∀ v, fare = .finite v → 0 ≤ v := by
  have hcoef1 : ∀ x, vehicleCoefficient heap ride = some (some x) → 0 ≤ x := by
    intro x hx
    unfold vehicleCoefficient at hx
    cases hp : ride.driver with
    | none => simp [hp] at hx
    | some p =>
      simp only [hp] at hx
      cases hd : heap[p]? with
      | none => simp [hd] at hx
      | some driver =>
        simp only [hd, Option.some.injEq] at hx
        cases hv : driver.vehicle with
        | none => simp [hv] at hx
        | some v =>
          simp only [hv, Option.map_some', Option.some.injEq] at hx
          rw [← hx]
          exact hcoef p driver v hp hd hv
  obtain ⟨fare, hfare, hsign⟩ :=
    calculateFare64_not_negative sqrt heap ride hsqrt hdriver hcoef1 c hc
  refine ⟨fare, hfare, hsign, ?_, ?_⟩
  · intro h
    rw [h] at hsign
    simp [Binary64.le] at hsign
  · intro v h
    rw [h] at hsign
    simpa [Binary64.le] using hsign

/-- Witness of C17, amended: surge 2 over a discount 0.25 over the default base calculator,
on the ride of distance 0, costs 75. -/
theorem calculateFare_never_negative_witness :
    (∀ x, 0 ≤ Rat.sqrt x) ∧
    (FareCalculator.SurgePricingDecorator
      (.DiscountDecorator (.BaseFareCalculator 50 10) 0.25) 2).NonNegParams ∧
    (FareCalculator.SurgePricingDecorator
      (.DiscountDecorator (.BaseFareCalculator 50 10) 0.25) 2).calculateFare64 Rat.sqrt []
        (exampleRide .SEDAN) = some (.finite 75) ∧
    ∃ fare, (FareCalculator.SurgePricingDecorator
      (.DiscountDecorator (.BaseFareCalculator 50 10) 0.25) 2).calculateFare64 Rat.sqrt []
        (exampleRide .SEDAN) = some fare ∧
      (fare = .nan ∨ (Binary64.finite 0).le fare) ∧
      fare ≠ .negInf ∧ ∀ v, fare = .finite v → 0 ≤ v :=
  ⟨Rat.sqrt_nonneg, by simp only [FareCalculator.NonNegParams]; norm_num, by decide!,
    calculateFare_never_negative Rat.sqrt [] (exampleRide .SEDAN) _ Rat.sqrt_nonneg
      (fun p hp => by cases hp) (fun p driver v hp => by cases hp)
      (by simp only [FareCalculator.NonNegParams]; norm_num)⟩

/-! ## Policy switches: C18 -/

/-- C18. `setFareCalculator` and `setMatchingStrategy` replace the active policy and nothing
else: the ride table (so every ride found by `getRide`, with its status and stored fare), the
registries, the sinks, the counter, both heaps, the events and the status log are as before;
in particular a ride completed before the switch keeps the fare stored at its completion. -/
theorem policy_switch_frame (sqrt : Double → Double) (w : World) (calculator : FareCalculator)
    (strategy : MatchingStrategy) (rideId : String) :
    (w.setFareCalculator calculator) =
      { w with manager := { w.manager with fareCalculator := calculator } } ∧
    (w.setMatchingStrategy strategy) =
      { w with manager := { w.manager with matchingStrategy := strategy } } ∧
    (w.setFareCalculator calculator).manager.rides = w.manager.rides ∧
    (w.setMatchingStrategy strategy).manager.rides = w.manager.rides ∧
    (w.setFareCalculator calculator).getRide rideId = w.getRide rideId ∧
    (w.setMatchingStrategy strategy).getRide rideId = w.getRide rideId ∧
    (w.setFareCalculator calculator).riderHeap = w.riderHeap ∧
    (w.setFareCalculator calculator).driverHeap = w.driverHeap ∧
    (w.setMatchingStrategy strategy).riderHeap = w.riderHeap ∧
    (w.setMatchingStrategy strategy).driverHeap = w.driverHeap ∧
    (w.completeRide sqrt rideId).map (fun w1 => (w1.setFareCalculator calculator).getRide rideId)
      = (w.completeRide sqrt rideId).map (fun w1 => w1.getRide rideId) :=
  ⟨rfl, rfl, rfl, rfl, rfl, rfl, rfl, rfl, rfl, rfl, rfl⟩

/-! ## Reachable states -/

theorem reachable_run (sqrt : Double → Double) (ops : List Op) :
    ∀ (w w1 : World), Reachable sqrt w → w.run sqrt ops = some w1 → Reachable sqrt w1 := by
  induction ops with
  | nil =>
    intro w w1 hw h
    simp only [World.run, Option.some.injEq] at h
    exact h ▸ hw
  | cons op ops ih =>
    intro w w1 hw h
    simp only [World.run] at h
    cases hstep : w.step sqrt op with
    | none => simp [hstep] at h
    | some w2 =>
      simp only [hstep] at h
      exact ih w2 w1 (Reachable.step w w2 op hw hstep) h

theorem reachableUnder_run (sqrt : Double → Double) (allowed : World → Op → Prop)
    (w w1 : World) (op : Op) (hw : ReachableUnder sqrt allowed w) (hop : allowed w op)
    (h : w.step sqrt op = some w1) : ReachableUnder sqrt allowed w1 :=
  ReachableUnder.step w w1 op hw hop h

theorem reachableUnder_true_iff (sqrt : Double → Double) (w : World) :
    ReachableUnder sqrt (fun _ _ => True) w ↔ Reachable sqrt w := by
  constructor
  · intro h
    induction h with
    | init w hw => exact Reachable.init w hw
    | step w w1 op _ _ hstep ih => exact Reachable.step w w1 op ih hstep
  · intro h
    induction h with
    | init w hw => exact ReachableUnder.init w hw
    | step w w1 op _ hstep ih => exact ReachableUnder.step w w1 op ih trivial hstep

theorem reachable_of_reachableUnder (sqrt : Double → Double) (allowed : World → Op → Prop)
    (w : World) (h : ReachableUnder sqrt allowed w) : Reachable sqrt w := by
  induction h with
  | init w hw => exact Reachable.init w hw
  | step w w1 op _ _ hstep ih => exact Reachable.step w w1 op ih hstep

theorem freshWorld_initial : freshWorld.Initial := by
  refine ⟨rfl, rfl, rfl, ?_, ?_⟩
  · intro r hr
    simp only [freshWorld, List.mem_singleton] at hr
    subst hr
    rfl
  · intro d hd
    simp only [freshWorld, List.mem_singleton] at hd
    subst hd
    exact ⟨rfl, rfl⟩

theorem registeredWorld_reachable : Reachable Rat.sqrt registeredWorld :=
  reachable_run Rat.sqrt registerOps freshWorld registeredWorld
    (Reachable.init _ freshWorld_initial) registeredWorld_steps.1

theorem requestedWorld_reachable : Reachable Rat.sqrt requestedWorld :=
  Reachable.step _ _ _ registeredWorld_reachable registeredWorld_steps.2

theorem startedWorld_reachable : Reachable Rat.sqrt startedWorld :=
  Reachable.step _ _ _ requestedWorld_reachable startedWorld_steps.1

theorem completedWorld_reachable : Reachable Rat.sqrt completedWorld :=
  Reachable.step _ _ _ startedWorld_reachable startedWorld_steps.2

theorem restartedWorld_step :
    completedWorld.step Rat.sqrt (.startRide "RIDE_1") = some restartedWorld := by
  decide!

theorem restartedWorld_reachable : Reachable Rat.sqrt restartedWorld :=
  Reachable.step _ _ _ completedWorld_reachable restartedWorld_step

/-- Every defined step either leaves heaps, ride table and status log alone, or is one of
the three effects on them: a match, a start, a completion. -/
theorem step_cases (sqrt : Double → Double) (w w1 : World) (op : Op)
    (h : w.step sqrt op = some w1) :
    (w1.driverHeap = w.driverHeap ∧ w1.riderHeap = w.riderHeap ∧
      w1.manager.rides = w.manager.rides ∧ w1.statusLog = w.statusLog ∧
      (w1.manager.rideCounter = w.manager.rideCounter ∨
        w1.manager.rideCounter = w.manager.rideCounter + 1)) ∨
    (∃ (riderId : String) (pickup dropoff : Location) (vehicleType : VehicleType)
      (rideType : RideType) (rider : RiderPtr) (d : DriverPtr) (driver : Driver),
      op = .requestRide riderId pickup dropoff vehicleType rideType ∧
      w.driverHeap[d]? = some driver ∧ driver.status = .AVAILABLE ∧
      w1 = w.afterMatch (rideIdOf w.manager.rideCounter)
        (Ride.matched (rideIdOf w.manager.rideCounter) rider pickup dropoff vehicleType
          rideType d) d driver) ∨
    (∃ (rideId : String) (ride : Ride), op = .startRide rideId ∧
      w.manager.rides.find rideId = some ride ∧ w1 = w.afterStart rideId ride) ∨
    (∃ (rideId : String) (ride : Ride) (fare : Double) (drivers : List Driver)
      (riders : List Rider), op = .completeRide rideId ∧
      w.manager.rides.find rideId = some ride ∧
      w.manager.fareCalculator.calculateFare sqrt w.driverHeap ride.completeRide = some fare ∧
      releaseDriver w.driverHeap rideId ride = some drivers ∧
      recordRider w.riderHeap rideId ride = some riders ∧
      w1 = w.afterComplete rideId ride fare drivers riders) := by
  cases op with
  | addRider r => cases h; exact Or.inl ⟨rfl, rfl, rfl, rfl, Or.inl rfl⟩
  | addDriver r => cases h; exact Or.inl ⟨rfl, rfl, rfl, rfl, Or.inl rfl⟩
  | addObserver r => cases h; exact Or.inl ⟨rfl, rfl, rfl, rfl, Or.inl rfl⟩
  | removeObserver r => cases h; exact Or.inl ⟨rfl, rfl, rfl, rfl, Or.inl rfl⟩
  | setMatchingStrategy r => cases h; exact Or.inl ⟨rfl, rfl, rfl, rfl, Or.inl rfl⟩
  | setFareCalculator r => cases h; exact Or.inl ⟨rfl, rfl, rfl, rfl, Or.inl rfl⟩
  | requestRide riderId pickup dropoff vehicleType rideType =>
    simp only [World.step] at h
    cases hreq : w.requestRide sqrt riderId pickup dropoff vehicleType rideType with
    | none => simp [hreq] at h
    | some res =>
      obtain ⟨r, w2⟩ := res
      simp only [hreq, Option.some.injEq] at h
      subst h
      rcases requestRide_cases sqrt w riderId pickup dropoff vehicleType rideType r w2 hreq with
        ⟨-, hw⟩ | ⟨-, hw⟩ | ⟨rider, available, d, driver, -, -, -, hbest, hd, -, hw⟩
      · subst hw; exact Or.inl ⟨rfl, rfl, rfl, rfl, Or.inl rfl⟩
      · subst hw; exact Or.inl ⟨rfl, rfl, rfl, rfl, Or.inr rfl⟩
      · obtain ⟨-, driver1, hd1, hel⟩ := findBestDriver_eligible sqrt _ _ _ _ d hbest
        rw [hd] at hd1
        cases hd1
        exact Or.inr (Or.inl ⟨riderId, pickup, dropoff, vehicleType, rideType, rider, d, driver,
          rfl, hd, hel.1, hw⟩)
  | startRide rideId =>
    simp only [World.step] at h
    cases hfind : w.manager.rides.find rideId with
    | none =>
      rw [startRide_of_unknown w rideId hfind] at h
      cases h
      exact Or.inl ⟨rfl, rfl, rfl, rfl, Or.inl rfl⟩
    | some ride =>
      rw [startRide_of_found w rideId ride hfind] at h
      cases h
      exact Or.inr (Or.inr (Or.inl ⟨rideId, ride, rfl, hfind, rfl⟩))
  | completeRide rideId =>
    simp only [World.step] at h
    rcases completeRide_cases sqrt w w1 rideId h with
      ⟨-, hw⟩ | ⟨ride, fare, drivers, riders, hfind, hfare, hdrivers, hriders, hw⟩
    · subst hw; exact Or.inl ⟨rfl, rfl, rfl, rfl, Or.inl rfl⟩
    · exact Or.inr (Or.inr (Or.inr ⟨rideId, ride, fare, drivers, riders, rfl, hfind, hfare,
        hdrivers, hriders, hw⟩))

theorem mem_assign_subset (t : RideTable) (k : String) (v : Ride) (e : String × Ride)
    (h : e ∈ t.assign k v) : e = (k, v) ∨ e ∈ t := by
  induction t with
  | nil =>
    simp only [RideTable.assign, List.mem_singleton] at h
    exact Or.inl h
  | cons e0 t ih =>
    obtain ⟨k0, v0⟩ := e0
    by_cases hk : k0 = k
    · simp only [RideTable.assign, if_pos hk, List.mem_cons] at h
      rcases h with h | h
      · exact Or.inl (by rw [h, hk])
      · exact Or.inr (List.mem_cons_of_mem _ h)
    · simp only [RideTable.assign, if_neg hk, List.mem_cons] at h
      rcases h with h | h
      · exact Or.inr (by rw [h]; exact List.mem_cons_self _ _)
      · rcases ih h with h1 | h1
        · exact Or.inl h1
        · exact Or.inr (List.mem_cons_of_mem _ h1)

/-- A property of rides that holds for every freshly matched ride and survives the updates of
`startRide` and `completeRide`, as far as `allowed` admits them, holds for every table ride
of every state reachable under `allowed`. -/
theorem forall_rides_of_reachableUnder (sqrt : Double → Double)
    (allowed : World → Op → Prop) (P : Ride → Prop)
    (hmatch : ∀ id rider pickup dropoff vehicleType rideType d,
      P (Ride.matched id rider pickup dropoff vehicleType rideType d))
    (hstart : ∀ (w : World) (id : String) (ride : Ride), allowed w (.startRide id) →
      w.manager.rides.find id = some ride → P ride →
      P (ride.setStatus .DRIVER_EN_ROUTE).startRide)
    (hcomplete : ∀ (w : World) (id : String) (ride : Ride) (fare : Double),
      allowed w (.completeRide id) → w.manager.rides.find id = some ride → P ride →
      P (ride.completeRide.setFare fare)) :
    ∀ w, ReachableUnder sqrt allowed w → ∀ e ∈ w.manager.rides, P e.2 := by
  intro w hw
  induction hw with
  | init w hinit =>
    intro e he
    rw [hinit.1] at he
    cases he
  | step w w1 op _ hop hstep ih =>
    intro e he
    rcases step_cases sqrt w w1 op hstep with
      ⟨-, -, hrides, -⟩ | ⟨_, _, _, _, _, _, d, driver, -, -, -, hw1⟩ |
      ⟨id, ride, hopeq, hfind, hw1⟩ |
      ⟨id, ride, fare, drivers, riders, hopeq, hfind, -, -, -, hw1⟩
    · rw [hrides] at he
      exact ih e he
    · subst hw1
      rcases mem_assign_subset _ _ _ e he with h1 | h1
      · rw [h1]; exact hmatch _ _ _ _ _ _ _
      · exact ih e h1
    · subst hw1 hopeq
      rcases mem_assign_subset _ _ _ e he with h1 | h1
      · rw [h1]
        exact hstart w id ride hop hfind (ih _ (mem_of_find_eq_some _ _ _ hfind))
      · exact ih e h1
    · subst hw1 hopeq
      rcases mem_assign_subset _ _ _ e he with h1 | h1
      · rw [h1]
        exact hcomplete w id ride fare hop hfind (ih _ (mem_of_find_eq_some _ _ _ hfind))
      · exact ih e h1

theorem completedWorld_reachableUnder (allowed : World → Op → Prop)
    (hsilent : ∀ (w : World) (op : Op), (∀ id, op ≠ .startRide id) →
      (∀ id, op ≠ .completeRide id) → allowed w op)
    (hstart : allowed requestedWorld (.startRide "RIDE_1"))
    (hcomplete : allowed startedWorld (.completeRide "RIDE_1")) :
    ReachableUnder Rat.sqrt allowed completedWorld := by
  have h0 : ReachableUnder Rat.sqrt allowed freshWorld :=
    ReachableUnder.init _ freshWorld_initial
  have h1 : ReachableUnder Rat.sqrt allowed (freshWorld.addObserver 7) :=
    ReachableUnder.step _ _ (.addObserver 7) h0
      (hsilent _ _ (fun _ h => by cases h) (fun _ h => by cases h)) rfl
  have h2 : ReachableUnder Rat.sqrt allowed ((freshWorld.addObserver 7).addRider 0) :=
    ReachableUnder.step _ _ (.addRider 0) h1
      (hsilent _ _ (fun _ h => by cases h) (fun _ h => by cases h)) rfl
  have h3 : ReachableUnder Rat.sqrt allowed registeredWorld :=
    ReachableUnder.step _ _ (.addDriver 0) h2
      (hsilent _ _ (fun _ h => by cases h) (fun _ h => by cases h)) rfl
  have h4 : ReachableUnder Rat.sqrt allowed requestedWorld :=
    ReachableUnder.step _ _ requestOp h3
      (hsilent _ _ (fun _ h => by cases h) (fun _ h => by cases h)) registeredWorld_steps.2
  have h5 : ReachableUnder Rat.sqrt allowed startedWorld :=
    ReachableUnder.step _ _ _ h4 hstart startedWorld_steps.1
  exact ReachableUnder.step _ _ _ h5 hcomplete startedWorld_steps.2

theorem requestedWorld_find : requestedWorld.manager.rides.find "RIDE_1" = some firstRide := by
  decide!

theorem startedWorld_find : startedWorld.manager.rides.find "RIDE_1" = some startedRide := by
  decide!

/-! ## Lifecycle invariants: C13, C19, C20 -/

/-- Counterexample to C13: `completeRide` on the DRIVER_ASSIGNED ride of `requestedWorld`
completes it, stores the fare 60 and changes both heaps; `startRide` on the COMPLETED ride of
`completedWorld` puts it back IN_PROGRESS. -/
theorem transitions_not_guarded :
    requestedWorld.manager.rides.find "RIDE_1" = some firstRide ∧
    firstRide.status = .DRIVER_ASSIGNED ∧ firstRide.fare = 0 ∧
    requestedWorld.completeRide Rat.sqrt "RIDE_1" = some skippedWorld ∧
    skippedWorld.manager.rides.find "RIDE_1" = some { firstRide with
      status := .COMPLETED, fare := 60 } ∧
    skippedWorld.driverHeap ≠ requestedWorld.driverHeap ∧
    skippedWorld.riderHeap ≠ requestedWorld.riderHeap ∧
    completedWorld.manager.rides.find "RIDE_1" = some completedRide ∧
    completedRide.status = .COMPLETED ∧
    completedWorld.startRide "RIDE_1" = some restartedWorld ∧
    restartedWorld.manager.rides.find "RIDE_1" = some { completedRide with
      status := .IN_PROGRESS } := by
  refine ⟨by decide!, rfl, rfl, by decide!, by decide!, by decide!, by decide!, by decide!, rfl,
    by decide!, by decide!⟩

/-- C13, amended. `startRide` and `completeRide` look at the ride id only: for a ride of the
ride table in any status (its pointers holding objects), `startRide` leaves it IN_PROGRESS
and both heaps as they were, and `completeRide` leaves it COMPLETED with the amount of the
active fare policy stored and one status write from the status it had, leaves its driver (if
it has one) AVAILABLE with the ride id appended to the history, and appends the ride id to the
history of its rider. -/
theorem transitions_ignore_status (sqrt : Double → Double) (w : World) (rideId : String)
    (ride : Ride) (rider : Rider)
    (hfind : w.manager.rides.find rideId = some ride)
    (hdriver : ∀ p, ride.driver = some p → ∃ d, w.driverHeap[p]? = some d)
    (hr : w.riderHeap[ride.rider]? = some rider) :
    (∃ w1, w.startRide rideId = some w1 ∧
      w1.manager.rides.find rideId = some { ride with status := .IN_PROGRESS } ∧
      w1.driverHeap = w.driverHeap ∧ w1.riderHeap = w.riderHeap) ∧
    (∃ w2 fare rider1, w.completeRide sqrt rideId = some w2 ∧
      w.manager.fareCalculator.calculateFare sqrt w.driverHeap ride = some fare ∧
      w2.manager.rides.find rideId = some { ride with status := .COMPLETED, fare := fare } ∧
      w2.statusLog = w.statusLog ++ [⟨rideId, ride.status, .COMPLETED⟩] ∧
      releaseDriver w.driverHeap rideId ride = some w2.driverHeap ∧
      recordRider w.riderHeap rideId ride = some w2.riderHeap ∧
      (∀ d driver, ride.driver = some d → w.driverHeap[d]? = some driver →
        ∃ driver1, w2.driverHeap[d]? = some driver1 ∧ driver1.status = .AVAILABLE ∧
          driver1.rideHistory = driver.rideHistory ++ [rideId]) ∧
      (ride.driver = none → w2.driverHeap = w.driverHeap) ∧
      w2.riderHeap[ride.rider]? = some rider1 ∧
      rider1.rideHistory = rider.rideHistory ++ [rideId]) := by
  refine ⟨⟨_, startRide_of_found w rideId ride hfind, find_assign_self _ _ _, rfl, rfl⟩, ?_⟩
  obtain ⟨fare, hfare⟩ := calculateFare_defined sqrt w.driverHeap ride.completeRide
    hdriver w.manager.fareCalculator
  have hfare1 : w.manager.fareCalculator.calculateFare sqrt w.driverHeap ride = some fare := by
    rw [← hfare]
    exact calculateFare_congr sqrt w.driverHeap ride ride.completeRide rfl rfl rfl _
  have hriders : recordRider w.riderHeap rideId ride =
      some (w.riderHeap.set ride.rider (rider.addRideToHistory rideId)) := by
    simp only [recordRider, hr]
  have hdrivers : ∃ drivers, releaseDriver w.driverHeap rideId ride = some drivers ∧
      (∀ d driver, ride.driver = some d → w.driverHeap[d]? = some driver →
        ∃ driver1, drivers[d]? = some driver1 ∧ driver1.status = .AVAILABLE ∧
          driver1.rideHistory = driver.rideHistory ++ [rideId]) ∧
      (ride.driver = none → drivers = w.driverHeap) := by
    unfold releaseDriver
    cases hp : ride.driver with
    | none => exact ⟨_, rfl, fun d driver hd _ => (by cases hd), fun _ => rfl⟩
    | some p =>
      obtain ⟨d0, hd0⟩ := hdriver p hp
      refine ⟨w.driverHeap.set p ((d0.setStatus .AVAILABLE).addRideToHistory rideId),
        (by simp only [hd0]), ?_, fun h => (by cases h)⟩
      intro d driver hd hdriver1
      cases hd
      have hsame : d0 = driver := Option.some.inj (hd0.symm.trans hdriver1)
      subst hsame
      exact ⟨_, heap_get_set_self _ _ _ _ hd0, rfl, rfl⟩
  obtain ⟨drivers, hdrivers, hstatus, hnone⟩ := hdrivers
  exact ⟨_, fare, _,
    completeRide_of_found sqrt w rideId ride fare _ _ hfind hfare hdrivers hriders, hfare1,
    find_assign_self _ _ _, rfl, hdrivers, hriders, hstatus, hnone,
    heap_get_set_self _ _ _ _ hr, rfl⟩

/-- Witness of C13, amended: the DRIVER_ASSIGNED ride of `requestedWorld`. -/
theorem transitions_ignore_status_witness :
    requestedWorld.manager.rides.find "RIDE_1" = some firstRide ∧
    firstRide.status = .DRIVER_ASSIGNED ∧
    requestedWorld.completeRide Rat.sqrt "RIDE_1" = some skippedWorld ∧
    requestedWorld.driverHeap.map (fun d => (d.status, d.rideHistory)) = [(.ON_TRIP, [])] ∧
    skippedWorld.driverHeap.map (fun d => (d.status, d.rideHistory))
      = [(.AVAILABLE, ["RIDE_1"])] ∧
    skippedWorld.riderHeap.map (fun r => r.rideHistory) = [["RIDE_1"]] ∧
    (∃ w1, requestedWorld.startRide "RIDE_1" = some w1 ∧
      w1.manager.rides.find "RIDE_1" = some { firstRide with status := .IN_PROGRESS } ∧
      w1.driverHeap = requestedWorld.driverHeap ∧ w1.riderHeap = requestedWorld.riderHeap) ∧
    (∃ w2 fare rider1, requestedWorld.completeRide Rat.sqrt "RIDE_1" = some w2 ∧
      requestedWorld.manager.fareCalculator.calculateFare Rat.sqrt requestedWorld.driverHeap
        firstRide = some fare ∧
      w2.manager.rides.find "RIDE_1"
        = some { firstRide with status := .COMPLETED, fare := fare } ∧
      w2.statusLog = requestedWorld.statusLog ++ [⟨"RIDE_1", firstRide.status, .COMPLETED⟩] ∧
      releaseDriver requestedWorld.driverHeap "RIDE_1" firstRide = some w2.driverHeap ∧
      recordRider requestedWorld.riderHeap "RIDE_1" firstRide = some w2.riderHeap ∧
      (∀ d driver, firstRide.driver = some d → requestedWorld.driverHeap[d]? = some driver →
        ∃ driver1, w2.driverHeap[d]? = some driver1 ∧ driver1.status = .AVAILABLE ∧
          driver1.rideHistory = driver.rideHistory ++ ["RIDE_1"]) ∧
      (firstRide.driver = none → w2.driverHeap = requestedWorld.driverHeap) ∧
      w2.riderHeap[firstRide.rider]? = some rider1 ∧
      rider1.rideHistory = (Rider.new "R001" "P" "9" origin 4.5).rideHistory ++ ["RIDE_1"]) :=
  ⟨requestedWorld_find, rfl, by decide!, by decide!, by decide!, by decide!,
    transitions_ignore_status Rat.sqrt requestedWorld "RIDE_1" firstRide
      (Rider.new "R001" "P" "9" origin 4.5) requestedWorld_find
      (fun p hp => ⟨(Driver.new "D001" "A" "1" origin (some (Sedan "V001" "P1")) 4.8).setStatus
        .ON_TRIP, by
          have hp0 : p = 0 := by
            simpa [firstRide, Ride.matched, Ride.new, Ride.setDriver, Ride.setStatus]
              using hp.symm
          subst hp0
          decide!⟩)
      (by decide!)⟩

/-- C19. In every state reachable by orchestrator operations every ride of the ride table has
a driver and a status among DRIVER_ASSIGNED, DRIVER_EN_ROUTE, IN_PROGRESS and COMPLETED; so
the REQUESTED ride without a driver that `requestRide` constructs is never in the table. -/
theorem rides_assigned_of_reachable (sqrt : Double → Double) (w : World)
    (h : Reachable sqrt w) :
    RidesAssigned w ∧
    ∀ e ∈ w.manager.rides, ∀ id rider pickup dropoff vehicleType rideType,
      e.2 ≠ Ride.new id rider pickup dropoff vehicleType rideType := by
  have key : RidesAssigned w := by
    apply forall_rides_of_reachableUnder sqrt (fun _ _ => True)
      (fun r => r.driver ≠ none ∧ (r.status = .DRIVER_ASSIGNED ∨ r.status = .DRIVER_EN_ROUTE ∨
        r.status = .IN_PROGRESS ∨ r.status = .COMPLETED))
    · intro id rider pickup dropoff vehicleType rideType d
      exact ⟨by simp [Ride.matched, Ride.setStatus, Ride.setDriver], Or.inl rfl⟩
    · intro w id ride _ _ hP
      exact ⟨hP.1, Or.inr (Or.inr (Or.inl rfl))⟩
    · intro w id ride fare _ _ hP
      exact ⟨hP.1, Or.inr (Or.inr (Or.inr rfl))⟩
    · exact (reachableUnder_true_iff sqrt w).2 h
  refine ⟨key, ?_⟩
  intro e he id rider pickup dropoff vehicleType rideType heq
  have hdrv := (key e he).1
  rw [heq] at hdrv
  exact hdrv rfl

/-- Witness of C19: the reachable state `requestedWorld`, whose table holds `RIDE_1`. -/
theorem rides_assigned_of_reachable_witness :
    Reachable Rat.sqrt requestedWorld ∧
    requestedWorld.manager.rides = [("RIDE_1", firstRide)] ∧
    RidesAssigned requestedWorld ∧
    ∀ e ∈ requestedWorld.manager.rides, ∀ id rider pickup dropoff vehicleType rideType,
      e.2 ≠ Ride.new id rider pickup dropoff vehicleType rideType :=
  ⟨requestedWorld_reachable, by decide!,
    rides_assigned_of_reachable Rat.sqrt requestedWorld requestedWorld_reachable⟩

/-- Counterexample to C20: `restartedWorld` is reachable (request, start, complete, start
again) and its ride `RIDE_1` is IN_PROGRESS with the stored fare 60. -/
theorem fare_set_while_in_progress :
    Reachable Rat.sqrt restartedWorld ∧
    restartedWorld.manager.rides.find "RIDE_1" = some { completedRide with
      status := .IN_PROGRESS } ∧
    completedRide.fare = 60 ∧ ¬ FareOnlyWhenCompleted restartedWorld :=
  ⟨restartedWorld_reachable, by decide!, rfl, by decide!⟩

/-- C20, amended. In every state reachable by orchestrator operations in which `startRide` is
never invoked on a ride that is already COMPLETED, a table ride has a stored fare other than
0 only when its status is COMPLETED. -/
theorem fare_only_when_completed (sqrt : Double → Double) (w : World)
    (h : ReachableUnder sqrt Op.StartsUncompleted w) : FareOnlyWhenCompleted w := by
  apply forall_rides_of_reachableUnder sqrt Op.StartsUncompleted
    (fun r => r.fare ≠ 0 → r.status = .COMPLETED)
  · intro id rider pickup dropoff vehicleType rideType d hfare
    exact absurd rfl hfare
  · intro w id ride hallowed hfind hP hfare
    exact absurd (hP hfare) (hallowed ride hfind)
  · intro w id ride fare _ _ _ _
    rfl
  · exact h

theorem completedWorld_startsUncompleted :
    ReachableUnder Rat.sqrt Op.StartsUncompleted completedWorld := by
  apply completedWorld_reachableUnder
  · intro w op hs _
    cases op with
    | startRide id => exact absurd rfl (hs id)
    | _ => trivial
  · intro r hr
    rw [requestedWorld_find] at hr
    cases hr
    decide
  · trivial

/-- Witness of C20, amended: `completedWorld` is reached without restarting a completed ride,
and its only ride is COMPLETED with fare 60. -/
theorem fare_only_when_completed_witness :
    ReachableUnder Rat.sqrt Op.StartsUncompleted completedWorld ∧
    completedWorld.manager.rides = [("RIDE_1", completedRide)] ∧
    completedRide.fare = 60 ∧ completedRide.status = .COMPLETED ∧
    FareOnlyWhenCompleted completedWorld :=
  ⟨completedWorld_startsUncompleted, by decide!, rfl, rfl,
    fare_only_when_completed Rat.sqrt completedWorld completedWorld_startsUncompleted⟩

/-! ## Status transitions: C2 -/

/-- Counterexample to C2: in the reachable state `requestedWorld` the operation
`completeRide` moves `RIDE_1` from DRIVER_ASSIGNED straight to COMPLETED, and in the reachable
state `completedWorld` the operation `startRide` moves it from COMPLETED back to
DRIVER_EN_ROUTE; neither write is an edge of the lifecycle. -/
theorem status_skips_and_regresses :
    Reachable Rat.sqrt requestedWorld ∧
    requestedWorld.step Rat.sqrt (.completeRide "RIDE_1") = some skippedWorld ∧
    skippedWorld.statusLog = requestedWorld.statusLog ++
      [⟨"RIDE_1", .DRIVER_ASSIGNED, .COMPLETED⟩] ∧
    RideStatus.allowedEdge .DRIVER_ASSIGNED .COMPLETED = false ∧
    Reachable Rat.sqrt completedWorld ∧
    completedWorld.step Rat.sqrt (.startRide "RIDE_1") = some restartedWorld ∧
    restartedWorld.statusLog = completedWorld.statusLog ++
      [⟨"RIDE_1", .COMPLETED, .DRIVER_EN_ROUTE⟩, ⟨"RIDE_1", .DRIVER_EN_ROUTE, .IN_PROGRESS⟩] ∧
    RideStatus.allowedEdge .COMPLETED .DRIVER_EN_ROUTE = false :=
  ⟨requestedWorld_reachable, by decide!, by decide!, rfl, completedWorld_reachable,
    restartedWorld_step, by decide!, rfl⟩

theorem replayStatus_assign_one (t : RideTable) (k : String) (v : Ride) (old : RideStatus)
    (key : String) :
    ((t.assign k v).find key).map Ride.status =
      replayStatus key ((t.find key).map Ride.status) [⟨k, old, v.status⟩] := by
  by_cases hk : k = key
  · subst hk
    simp [replayStatus, find_assign_self]
  · simp [replayStatus, hk, find_assign_of_ne t k key v (fun h => hk h.symm)]

theorem replayStatus_assign_two (t : RideTable) (k : String) (v : Ride)
    (old mid : RideStatus) (key : String) :
    ((t.assign k v).find key).map Ride.status =
      replayStatus key ((t.find key).map Ride.status) [⟨k, old, mid⟩, ⟨k, mid, v.status⟩] := by
  by_cases hk : k = key
  · subst hk
    simp [replayStatus, find_assign_self]
  · simp [replayStatus, hk, find_assign_of_ne t k key v (fun h => hk h.symm)]

/-- C2, amended. Every operation appends its status writes to the status log, and the log
accounts for every change of a table ride's status: the status after the operation is the
status before it with the appended writes replayed.  The writes are REQUESTED to
DRIVER_ASSIGNED for the ride `requestRide` stores, the current status to DRIVER_EN_ROUTE to
IN_PROGRESS for `startRide`, and the current status to COMPLETED for `completeRide`; so when
`startRide` meets a DRIVER_ASSIGNED ride and `completeRide` an IN_PROGRESS ride, every write is
an edge of the lifecycle. -/
theorem status_writes_of_step (sqrt : Double → Double) (w w1 : World) (op : Op)
    (hstep : w.step sqrt op = some w1) :
    ∃ added, w1.statusLog = w.statusLog ++ added ∧
      (∀ key, (w1.manager.rides.find key).map Ride.status =
        replayStatus key ((w.manager.rides.find key).map Ride.status) added) ∧
      (added = [] ∨
        (∃ id, (∃ a b c d e, op = .requestRide a b c d e) ∧
          added = [⟨id, .REQUESTED, .DRIVER_ASSIGNED⟩]) ∨
        (∃ id ride, op = .startRide id ∧ w.manager.rides.find id = some ride ∧
          added = [⟨id, ride.status, .DRIVER_EN_ROUTE⟩,
            ⟨id, .DRIVER_EN_ROUTE, .IN_PROGRESS⟩]) ∨
        (∃ id ride, op = .completeRide id ∧ w.manager.rides.find id = some ride ∧
          added = [⟨id, ride.status, .COMPLETED⟩])) ∧
      (Op.InExpectedState w op → ∀ c ∈ added, c.old.allowedEdge c.new = true) := by
  rcases step_cases sqrt w w1 op hstep with
    ⟨-, -, hrides, hlog, -⟩ | ⟨a, b, c, d1, e, rider, d, driver, hopeq, -, -, hw1⟩ |
    ⟨id, ride, hopeq, hfind, hw1⟩ |
    ⟨id, ride, fare, drivers, riders, hopeq, hfind, -, -, -, hw1⟩
  · refine ⟨[], by rw [hlog, List.append_nil], ?_, Or.inl rfl, ?_⟩
    · intro key
      rw [hrides]
      rfl
    · intro _ c hc
      cases hc
  · subst hw1
    refine ⟨_, rfl, ?_, Or.inr (Or.inl ⟨_, ⟨a, b, c, d1, e, hopeq⟩, rfl⟩), ?_⟩
    · intro key
      exact replayStatus_assign_one _ _ _ _ key
    · intro _ c hc
      simp only [List.mem_singleton] at hc
      subst hc
      rfl
  · subst hw1
    refine ⟨_, rfl, ?_, Or.inr (Or.inr (Or.inl ⟨id, ride, hopeq, hfind, rfl⟩)), ?_⟩
    · intro key
      exact replayStatus_assign_two _ _ _ _ _ key
    · intro hexp c hc
      subst hopeq
      have hs : ride.status = .DRIVER_ASSIGNED := hexp ride hfind
      simp only [List.mem_cons, List.mem_singleton, List.not_mem_nil, or_false] at hc
      rcases hc with rfl | rfl
      · simp only [hs]; rfl
      · rfl
  · subst hw1
    refine ⟨_, rfl, ?_, Or.inr (Or.inr (Or.inr ⟨id, ride, hopeq, hfind, rfl⟩)), ?_⟩
    · intro key
      exact replayStatus_assign_one _ _ _ _ key
    · intro hexp c hc
      subst hopeq
      have hs : ride.status = .IN_PROGRESS := hexp ride hfind
      simp only [List.mem_singleton] at hc
      subst hc
      simp only [hs]
      rfl

/-- Witness of C2, amended: `startRide` on the DRIVER_ASSIGNED ride of `requestedWorld`. -/
theorem status_writes_of_step_witness :
    requestedWorld.step Rat.sqrt (.startRide "RIDE_1") = some startedWorld ∧
    Op.InExpectedState requestedWorld (.startRide "RIDE_1") ∧
    startedWorld.statusLog = requestedWorld.statusLog ++
      [⟨"RIDE_1", .DRIVER_ASSIGNED, .DRIVER_EN_ROUTE⟩,
        ⟨"RIDE_1", .DRIVER_EN_ROUTE, .IN_PROGRESS⟩] ∧
    ∃ added, startedWorld.statusLog = requestedWorld.statusLog ++ added ∧
      (∀ key, (startedWorld.manager.rides.find key).map Ride.status =
        replayStatus key ((requestedWorld.manager.rides.find key).map Ride.status) added) ∧
      (added = [] ∨
        (∃ id, (∃ a b c d e, Op.startRide "RIDE_1" = .requestRide a b c d e) ∧
          added = [⟨id, .REQUESTED, .DRIVER_ASSIGNED⟩]) ∨
        (∃ id ride, Op.startRide "RIDE_1" = .startRide id ∧
          requestedWorld.manager.rides.find id = some ride ∧
          added = [⟨id, ride.status, .DRIVER_EN_ROUTE⟩,
            ⟨id, .DRIVER_EN_ROUTE, .IN_PROGRESS⟩]) ∨
        (∃ id ride, Op.startRide "RIDE_1" = .completeRide id ∧
          requestedWorld.manager.rides.find id = some ride ∧
          added = [⟨id, ride.status, .COMPLETED⟩])) ∧
      (Op.InExpectedState requestedWorld (.startRide "RIDE_1") →
        ∀ c ∈ added, c.old.allowedEdge c.new = true) :=
  ⟨startedWorld_steps.1,
    fun r hr => by rw [requestedWorld_find] at hr; cases hr; rfl,
    by decide!,
    status_writes_of_step Rat.sqrt requestedWorld startedWorld (.startRide "RIDE_1")
      startedWorld_steps.1⟩

/-! ## Ride table keys and the booking invariant: C1 and C14 -/

theorem keysInv_fresh (rides : RideTable) (counter : Int) (h : KeysInv rides counter) :
    rideIdOf counter ∉ rides.map Prod.fst := by
  intro hmem
  obtain ⟨e, he, hk⟩ := List.mem_map.1 hmem
  obtain ⟨n, hn1, hnc, hen⟩ := h.2.2 e he
  have heq : n = counter :=
    rideIdOf_injective n counter (by omega) (by have := h.2.1; omega) (by rw [← hen, hk])
  omega

theorem keysInv_afterMatch (rides : RideTable) (counter : Int) (v : Ride)
    (h : KeysInv rides counter) : KeysInv (rides.assign (rideIdOf counter) v) (counter + 1) := by
  refine ⟨nodup_keys_assign _ _ _ h.1, by have := h.2.1; omega, ?_⟩
  intro e he
  rcases mem_assign_subset _ _ _ e he with h1 | h1
  · exact ⟨counter, h.2.1, by omega, by rw [h1]⟩
  · obtain ⟨n, hn1, hnc, hen⟩ := h.2.2 e h1
    exact ⟨n, hn1, by omega, hen⟩

theorem keysInv_assign_found (rides : RideTable) (counter : Int) (k : String) (r v : Ride)
    (h : KeysInv rides counter) (hfind : rides.find k = some r) :
    KeysInv (rides.assign k v) counter := by
  refine ⟨nodup_keys_assign _ _ _ h.1, h.2.1, ?_⟩
  intro e he
  rcases mem_assign_subset _ _ _ e he with h1 | h1
  · obtain ⟨n, hn1, hnc, hen⟩ := h.2.2 (k, r) (mem_of_find_eq_some _ _ _ hfind)
    exact ⟨n, hn1, hnc, by rw [h1]; exact hen⟩
  · exact h.2.2 e h1

theorem keysInv_of_reachable (sqrt : Double → Double) (w : World) (h : Reachable sqrt w) :
    KeysInv w.manager.rides w.manager.rideCounter := by
  induction h with
  | init w hinit =>
    rw [hinit.1]
    refine ⟨List.nodup_nil, le_refl _, ?_⟩
    intro e he
    cases he
  | step w w1 op _ hstep ih =>
    rcases step_cases sqrt w w1 op hstep with
      ⟨-, -, hrides, -, hc | hc⟩ | ⟨_, _, _, _, _, _, d, driver, -, -, -, hw1⟩ |
      ⟨id, ride, -, hfind, hw1⟩ | ⟨id, ride, fare, drivers, riders, -, hfind, -, -, -, hw1⟩
    · rw [hrides, hc]; exact ih
    · rw [hrides, hc]
      exact ⟨ih.1, by have := ih.2.1; omega, fun e he => by
        obtain ⟨n, hn1, hnc, hen⟩ := ih.2.2 e he
        exact ⟨n, hn1, by omega, hen⟩⟩
    · subst hw1; exact keysInv_afterMatch _ _ _ ih
    · subst hw1; exact keysInv_assign_found _ _ _ ride _ ih hfind
    · subst hw1; exact keysInv_assign_found _ _ _ ride _ ih hfind

theorem entry_eq_of_key (rides : RideTable) (k : String) (ride : Ride)
    (hnd : (rides.map Prod.fst).Nodup) (hfind : rides.find k = some ride)
    (e : String × Ride) (he : e ∈ rides) (hk : e.1 = k) : e = (k, ride) := by
  obtain ⟨k1, r1⟩ := e
  simp only at hk
  subst hk
  have h1 := find_eq_some_of_mem rides k1 r1 hnd he
  rw [hfind] at h1
  cases h1
  rfl

theorem booking_afterMatch (heap : List Driver) (rides : RideTable) (k : String) (ride : Ride)
    (d : DriverPtr) (driver : Driver) (hnd : (rides.map Prod.fst).Nodup)
    (hfresh : k ∉ rides.map Prod.fst) (hb : BookingInv heap rides)
    (hd : heap[d]? = some driver) (hav : driver.status = .AVAILABLE)
    (hrd : ride.driver = some d) (hact : ride.Active) :
    BookingInv (heap.set d (driver.setStatus .ON_TRIP)) (rides.assign k ride) := by
  have hmem := mem_assign_iff rides k ride hnd
  have hold : ∀ e ∈ rides, e.1 ≠ k := fun e he hk => hfresh (List.mem_map.2 ⟨e, he, hk⟩)
  obtain ⟨h1, h2, h3⟩ := hb
  have hclash : ∀ e ∈ rides, e.2.Active → e.2.driver = some d → False := by
    intro e he hea hed
    have hs := h2 e he hea d driver hed hd
    rw [hav] at hs
    cases hs
  refine ⟨?_, ?_, ?_⟩
  · intro p x hx hon
    by_cases hp : p = d
    · subst hp
      exact ⟨(k, ride), (hmem _).2 (Or.inl rfl), hrd, hact⟩
    · rw [heap_get_set_ne _ _ _ _ hp] at hx
      obtain ⟨e, he, hed, hea⟩ := h1 p x hx hon
      exact ⟨e, (hmem e).2 (Or.inr ⟨he, hold e he⟩), hed, hea⟩
  · intro e he hea p x hep hx
    rcases (hmem e).1 he with heq | ⟨he1, -⟩
    · subst heq
      have hpd : p = d := by
        have h4 : some d = some p := hrd.symm.trans hep
        exact (Option.some.inj h4).symm
      subst hpd
      rw [heap_get_set_self _ _ _ _ hd] at hx
      cases hx
      rfl
    · by_cases hp : p = d
      · subst hp
        exact absurd hep (fun h => hclash e he1 hea h)
      · rw [heap_get_set_ne _ _ _ _ hp] at hx
        exact h2 e he1 hea p x hep hx
  · intro e1 he1 e2 he2 ha1 ha2 p hp1 hp2
    rcases (hmem e1).1 he1 with heq1 | ⟨h1', -⟩ <;>
      rcases (hmem e2).1 he2 with heq2 | ⟨h2', -⟩
    · rw [heq1, heq2]
    · subst heq1
      have hpd : p = d := by
        have h4 : some d = some p := hrd.symm.trans hp1
        exact (Option.some.inj h4).symm
      subst hpd
      exact (hclash e2 h2' ha2 hp2).elim
    · subst heq2
      have hpd : p = d := by
        have h4 : some d = some p := hrd.symm.trans hp2
        exact (Option.some.inj h4).symm
      subst hpd
      exact (hclash e1 h1' ha1 hp1).elim
    · exact h3 e1 h1' e2 h2' ha1 ha2 p hp1 hp2

theorem booking_afterStart (heap : List Driver) (rides : RideTable) (k : String)
    (ride ride1 : Ride) (hnd : (rides.map Prod.fst).Nodup)
    (hfind : rides.find k = some ride) (hact : ride.Active) (hact1 : ride1.Active)
    (hdrv : ride1.driver = ride.driver) (hb : BookingInv heap rides) :
    BookingInv heap (rides.assign k ride1) := by
  have hmem := mem_assign_iff rides k ride1 hnd
  have hkr : (k, ride) ∈ rides := mem_of_find_eq_some _ _ _ hfind
  have huniq := entry_eq_of_key rides k ride hnd hfind
  obtain ⟨h1, h2, h3⟩ := hb
  refine ⟨?_, ?_, ?_⟩
  · intro p x hx hon
    obtain ⟨e, he, hed, hea⟩ := h1 p x hx hon
    by_cases hek : e.1 = k
    · have heq := huniq e he hek
      subst heq
      exact ⟨(k, ride1), (hmem _).2 (Or.inl rfl), hdrv.trans hed, hact1⟩
    · exact ⟨e, (hmem e).2 (Or.inr ⟨he, hek⟩), hed, hea⟩
  · intro e he hea p x hep hx
    rcases (hmem e).1 he with heq | ⟨he1, -⟩
    · subst heq
      exact h2 (k, ride) hkr hact p x (hdrv.symm.trans hep) hx
    · exact h2 e he1 hea p x hep hx
  · intro e1 he1 e2 he2 ha1 ha2 p hp1 hp2
    rcases (hmem e1).1 he1 with heq1 | ⟨h1', hne1⟩ <;>
      rcases (hmem e2).1 he2 with heq2 | ⟨h2', hne2⟩
    · rw [heq1, heq2]
    · subst heq1
      have heq := h3 (k, ride) hkr e2 h2' hact ha2 p (hdrv.symm.trans hp1) hp2
      exact absurd (by rw [← heq]) hne2
    · subst heq2
      have heq := h3 e1 h1' (k, ride) hkr ha1 hact p hp1 (hdrv.symm.trans hp2)
      exact absurd (by rw [heq]) hne1
    · exact h3 e1 h1' e2 h2' ha1 ha2 p hp1 hp2

theorem booking_afterComplete (heap heap1 : List Driver) (rides : RideTable) (k : String)
    (ride ride1 : Ride) (hnd : (rides.map Prod.fst).Nodup)
    (hfind : rides.find k = some ride) (hact : ride.Active) (hfin : ¬ ride1.Active)
    (hrel : releaseDriver heap k ride = some heap1) (hb : BookingInv heap rides) :
    BookingInv heap1 (rides.assign k ride1) := by
  have hmem := mem_assign_iff rides k ride1 hnd
  have hkr : (k, ride) ∈ rides := mem_of_find_eq_some _ _ _ hfind
  have huniq := entry_eq_of_key rides k ride hnd hfind
  obtain ⟨h1, h2, h3⟩ := hb
  have hother : ∀ p x, ride.driver ≠ some p → heap1[p]? = some x → heap[p]? = some x := by
    intro p x hne hx
    unfold releaseDriver at hrel
    cases hq : ride.driver with
    | none =>
      simp only [hq, Option.some.injEq] at hrel
      rw [← hrel] at hx
      exact hx
    | some q =>
      simp only [hq] at hrel
      cases hdq : heap[q]? with
      | none => simp [hdq] at hrel
      | some dq =>
        simp only [hdq, Option.some.injEq] at hrel
        rw [← hrel] at hx
        have hpq : p ≠ q := fun h => hne (by rw [hq, h])
        rw [heap_get_set_ne _ _ _ _ hpq] at hx
        exact hx
  have hreleased : ∀ p x, ride.driver = some p → heap1[p]? = some x →
      x.status = .AVAILABLE := by
    intro p x hp hx
    unfold releaseDriver at hrel
    simp only [hp] at hrel
    cases hdp : heap[p]? with
    | none => simp [hdp] at hrel
    | some dp =>
      simp only [hdp, Option.some.injEq] at hrel
      rw [← hrel, heap_get_set_self _ _ _ _ hdp] at hx
      cases hx
      rfl
  refine ⟨?_, ?_, ?_⟩
  · intro p x hx hon
    have hne : ride.driver ≠ some p := by
      intro hp
      have hs := hreleased p x hp hx
      rw [hon] at hs
      cases hs
    obtain ⟨e, he, hed, hea⟩ := h1 p x (hother p x hne hx) hon
    have hek : e.1 ≠ k := by
      intro hek
      have heq := huniq e he hek
      subst heq
      exact hne hed
    exact ⟨e, (hmem e).2 (Or.inr ⟨he, hek⟩), hed, hea⟩
  · intro e he hea p x hep hx
    rcases (hmem e).1 he with heq | ⟨he1, hne1⟩
    · subst heq
      exact absurd hea hfin
    · have hne : ride.driver ≠ some p := by
        intro hp
        have heq := h3 e he1 (k, ride) hkr hea hact p hep hp
        exact hne1 (by rw [heq])
      exact h2 e he1 hea p x hep (hother p x hne hx)
  · intro e1 he1 e2 he2 ha1 ha2 p hp1 hp2
    rcases (hmem e1).1 he1 with heq1 | ⟨h1', -⟩
    · subst heq1
      exact absurd ha1 hfin
    · rcases (hmem e2).1 he2 with heq2 | ⟨h2', -⟩
      · subst heq2
        exact absurd ha2 hfin
      · exact h3 e1 h1' e2 h2' ha1 ha2 p hp1 hp2

theorem booking_of_reachableUnder (sqrt : Double → Double) (w : World)
    (h : ReachableUnder sqrt Op.AvoidsFinished w) :
    BookingInv w.driverHeap w.manager.rides := by
  induction h with
  | init w hinit =>
    rw [hinit.1]
    refine ⟨?_, ?_, ?_⟩
    · intro p d hd hon
      have hs := (hinit.2.2.2.2 d (List.getElem?_mem hd)).1
      rw [hon] at hs
      cases hs
    · intro e he
      cases he
    · intro e he
      cases he
  | step w w1 op hw hop hstep ih =>
    have hkeys := keysInv_of_reachable sqrt w (reachable_of_reachableUnder sqrt _ w hw)
    rcases step_cases sqrt w w1 op hstep with
      ⟨hheap, -, hrides, -, -⟩ | ⟨_, _, _, _, _, _, d, driver, -, hd, hav, hw1⟩ |
      ⟨id, ride, hopeq, hfind, hw1⟩ |
      ⟨id, ride, fare, drivers, riders, hopeq, hfind, -, hrel, -, hw1⟩
    · rw [hheap, hrides]
      exact ih
    · subst hw1
      exact booking_afterMatch _ _ _ _ d driver hkeys.1 (keysInv_fresh _ _ hkeys) ih hd hav rfl
        ⟨by simp [Ride.matched, Ride.setStatus], by simp [Ride.matched, Ride.setStatus]⟩
    · subst hw1 hopeq
      exact booking_afterStart _ _ _ ride _ hkeys.1 hfind (hop ride hfind)
        ⟨by simp [Ride.startRide], by simp [Ride.startRide]⟩ rfl ih
    · subst hw1 hopeq
      exact booking_afterComplete _ _ _ _ ride _ hkeys.1 hfind (hop ride hfind)
        (fun hact => hact.1 rfl) hrel ih

theorem startedWorld_reachableUnder (allowed : World → Op → Prop)
    (hsilent : ∀ (w : World) (op : Op), (∀ id, op ≠ .startRide id) →
      (∀ id, op ≠ .completeRide id) → allowed w op)
    (hstart : allowed requestedWorld (.startRide "RIDE_1")) :
    ReachableUnder Rat.sqrt allowed startedWorld := by
  have h0 : ReachableUnder Rat.sqrt allowed freshWorld :=
    ReachableUnder.init _ freshWorld_initial
  have h1 : ReachableUnder Rat.sqrt allowed (freshWorld.addObserver 7) :=
    ReachableUnder.step _ _ (.addObserver 7) h0
      (hsilent _ _ (fun _ h => by cases h) (fun _ h => by cases h)) rfl
  have h2 : ReachableUnder Rat.sqrt allowed ((freshWorld.addObserver 7).addRider 0) :=
    ReachableUnder.step _ _ (.addRider 0) h1
      (hsilent _ _ (fun _ h => by cases h) (fun _ h => by cases h)) rfl
  have h3 : ReachableUnder Rat.sqrt allowed registeredWorld :=
    ReachableUnder.step _ _ (.addDriver 0) h2
      (hsilent _ _ (fun _ h => by cases h) (fun _ h => by cases h)) rfl
  have h4 : ReachableUnder Rat.sqrt allowed requestedWorld :=
    ReachableUnder.step _ _ requestOp h3
      (hsilent _ _ (fun _ h => by cases h) (fun _ h => by cases h)) registeredWorld_steps.2
  exact ReachableUnder.step _ _ _ h4 hstart startedWorld_steps.1

theorem startedWorld_avoidsFinished :
    ReachableUnder Rat.sqrt Op.AvoidsFinished startedWorld := by
  apply startedWorld_reachableUnder
  · intro w op hs hc
    cases op with
    | startRide id => exact absurd rfl (hs id)
    | completeRide id => exact absurd rfl (hc id)
    | _ => trivial
  · intro r hr
    rw [requestedWorld_find] at hr
    cases hr
    decide

theorem doubleBookedWorld_reachable : Reachable Rat.sqrt doubleBookedWorld :=
  reachable_run Rat.sqrt doubleBookingOps registeredWorld doubleBookedWorld
    registeredWorld_reachable (by decide!)

/-- Counterexample to C1: `restartedWorld` is reachable (request, start, complete, start
again); its registered driver is AVAILABLE although the table ride `RIDE_1`, which has this
driver, is IN_PROGRESS. -/
theorem available_driver_on_active_ride :
    Reachable Rat.sqrt restartedWorld ∧
    restartedWorld.manager.drivers = [0] ∧
    restartedWorld.driverHeap.map Driver.status = [.AVAILABLE] ∧
    restartedWorld.manager.rides.map (fun e => (e.1, e.2.driver, e.2.status))
      = [("RIDE_1", some 0, .IN_PROGRESS)] ∧
    ¬ OnTripIffAssigned restartedWorld :=
  ⟨restartedWorld_reachable, by decide!, by decide!, by decide!, by decide!⟩

/-- C1, amended. In every state reachable by orchestrator operations in which `startRide` and
`completeRide` are never invoked on a ride that is already COMPLETED or CANCELLED, a
registered driver is ON_TRIP if and only if some ride of the ride table has this driver and a
status other than COMPLETED and CANCELLED. -/
theorem onTrip_iff_assigned (sqrt : Double → Double) (w : World)
    (h : ReachableUnder sqrt Op.AvoidsFinished w) : OnTripIffAssigned w := by
  obtain ⟨h1, h2, -⟩ := booking_of_reachableUnder sqrt w h
  intro p _ d hd
  have hd1 : w.driverHeap[p]? = some d := hd
  constructor
  · intro hon
    exact h1 p d hd1 hon
  · rintro ⟨e, he, hed, hea⟩
    exact h2 e he hea p d hed hd1

/-- Witness of C1, amended: in `startedWorld` the driver is ON_TRIP and `RIDE_1` is
IN_PROGRESS. -/
theorem onTrip_iff_assigned_witness :
    ReachableUnder Rat.sqrt Op.AvoidsFinished startedWorld ∧
    startedWorld.driverHeap.map Driver.status = [.ON_TRIP] ∧
    startedWorld.manager.rides.map (fun e => (e.1, e.2.driver, e.2.status))
      = [("RIDE_1", some 0, .IN_PROGRESS)] ∧
    OnTripIffAssigned startedWorld :=
  ⟨startedWorld_avoidsFinished, by decide!, by decide!,
    onTrip_iff_assigned Rat.sqrt startedWorld startedWorld_avoidsFinished⟩

/-- Counterexample to C14: `doubleBookedWorld` is reachable (request, complete, request,
complete the first ride again, request); its rides `RIDE_2` and `RIDE_3` are both
DRIVER_ASSIGNED with the same driver. -/
theorem driver_booked_twice :
    Reachable Rat.sqrt doubleBookedWorld ∧
    doubleBookedWorld.manager.rides.map (fun e => (e.1, e.2.driver, e.2.status))
      = [("RIDE_1", some 0, .COMPLETED), ("RIDE_2", some 0, .DRIVER_ASSIGNED),
        ("RIDE_3", some 0, .DRIVER_ASSIGNED)] ∧
    ¬ NoDoubleBooking doubleBookedWorld :=
  ⟨doubleBookedWorld_reachable, by decide!, by decide!⟩

/-- C14, amended. In every state reachable by orchestrator operations in which `startRide`
and `completeRide` are never invoked on a ride that is already COMPLETED or CANCELLED, no
driver is the driver of two distinct rides of the ride table that are both active. -/
theorem no_double_booking (sqrt : Double → Double) (w : World)
    (h : ReachableUnder sqrt Op.AvoidsFinished w) : NoDoubleBooking w := by
  obtain ⟨-, -, h3⟩ := booking_of_reachableUnder sqrt w h
  intro e1 he1 e2 he2 ha1 ha2 hne heq
  cases hp : e1.2.driver with
  | none => exact absurd hp hne
  | some p => exact h3 e1 he1 e2 he2 ha1 ha2 p hp (by rw [← heq, hp])

theorem rebookedWorld_avoidsFinished :
    ReachableUnder Rat.sqrt Op.AvoidsFinished rebookedWorld := by
  have h1 : ReachableUnder Rat.sqrt Op.AvoidsFinished completedWorld :=
    ReachableUnder.step _ _ (.completeRide "RIDE_1") startedWorld_avoidsFinished
      (by
        intro r hr
        rw [startedWorld_find] at hr
        cases hr
        decide)
      startedWorld_steps.2
  exact ReachableUnder.step _ _ requestOp h1 trivial (by decide!)

/-- Witness of C14, amended: `startedWorld`, with its one active ride, and `rebookedWorld`,
where the driver of the completed `RIDE_1` is the driver of the active `RIDE_2`. -/
theorem no_double_booking_witness :
    ReachableUnder Rat.sqrt Op.AvoidsFinished startedWorld ∧
    startedWorld.manager.rides.map (fun e => (e.1, e.2.driver, e.2.status))
      = [("RIDE_1", some 0, .IN_PROGRESS)] ∧
    NoDoubleBooking startedWorld ∧
    ReachableUnder Rat.sqrt Op.AvoidsFinished rebookedWorld ∧
    rebookedWorld.manager.rides.map (fun e => (e.1, e.2.driver, e.2.status))
      = [("RIDE_1", some 0, .COMPLETED), ("RIDE_2", some 0, .DRIVER_ASSIGNED)] ∧
    NoDoubleBooking rebookedWorld :=
  ⟨startedWorld_avoidsFinished, by decide!,
    no_double_booking Rat.sqrt startedWorld startedWorld_avoidsFinished,
    rebookedWorld_avoidsFinished, by decide!,
    no_double_booking Rat.sqrt rebookedWorld rebookedWorld_avoidsFinished⟩

/-! ## Notification rounds and descriptions: C22 and C23 -/

/-- C22. For each of the three event kinds one notification round appends exactly one
handler invocation per registration, of the matching handler, in the order of the vector of
sinks, each showing the given ride; `addObserver` appends the sink at the end of that vector,
so the order is the order of registration; `removeObserver` drops every registration of the
given sink and keeps every other registration, in the same relative order. -/
theorem notification_round (w : World) (ride : Ride) (observer : ObserverPtr) :
    (w.notifyRideStatusChanged ride).events =
      w.events ++ w.manager.observers.map (fun o => ⟨o, .onRideStatusChanged, ride⟩) ∧
    (w.notifyDriverAssigned ride).events =
      w.events ++ w.manager.observers.map (fun o => ⟨o, .onDriverAssigned, ride⟩) ∧
    (w.notifyPaymentCompleted ride).events =
      w.events ++ w.manager.observers.map (fun o => ⟨o, .onPaymentCompleted, ride⟩) ∧
    (∀ kind, ((w.notify kind ride).events.drop w.events.length).map Event.observer
      = w.manager.observers) ∧
    (∀ kind, ∀ e ∈ (w.notify kind ride).events.drop w.events.length,
      e.kind = kind ∧ e.ride = ride) ∧
    (w.addObserver observer).manager.observers = w.manager.observers ++ [observer] ∧
    (w.removeObserver observer).manager.observers
      = w.manager.observers.filter (fun o => o ≠ observer) ∧
    observer ∉ (w.removeObserver observer).manager.observers ∧
    (w.removeObserver observer).manager.observers.Sublist w.manager.observers ∧
    (∀ o, o ≠ observer →
      (w.removeObserver observer).manager.observers.count o = w.manager.observers.count o) := by
  refine ⟨rfl, rfl, rfl, ?_, ?_, rfl, rfl, ?_, ?_, ?_⟩
  · intro kind
    simp [World.notify, Function.comp_def]
  · intro kind e he
    simp only [World.notify, List.drop_left, List.mem_map] at he
    obtain ⟨o, -, rfl⟩ := he
    exact ⟨rfl, rfl⟩
  · simp [World.removeObserver]
  · exact List.filter_sublist _
  · intro o ho
    simp only [World.removeObserver]
    rw [List.count_filter]
    simpa using ho

theorem getDescription_wrap (ds : List Decorator) :
    ∀ inner : FareCalculator, (inner.wrap ds).getDescription =
      inner.getDescription ++ concatAll (ds.map Decorator.fragment) := by
  induction ds with
  | nil =>
    intro inner
    simp [FareCalculator.wrap, concatAll]
  | cons d ds ih =>
    intro inner
    simp only [FareCalculator.wrap, List.map_cons, concatAll]
    rw [ih (d.apply inner), ← String.append_assoc]
    cases d <;> rfl

theorem exists_wrap (c : FareCalculator) :
    ∃ (b r : Double) (ds : List Decorator), c = (FareCalculator.BaseFareCalculator b r).wrap ds := by
  have hsnoc : ∀ (ds : List Decorator) (inner : FareCalculator) (d : Decorator),
      inner.wrap (ds ++ [d]) = d.apply (inner.wrap ds) := by
    intro ds
    induction ds with
    | nil => intro inner d; rfl
    | cons d0 ds ih =>
      intro inner d
      simp only [List.cons_append, FareCalculator.wrap]
      exact ih (d0.apply inner) d
  induction c with
  | BaseFareCalculator b r => exact ⟨b, r, [], rfl⟩
  | SurgePricingDecorator inner f ih =>
    obtain ⟨b, r, ds, h⟩ := ih
    exact ⟨b, r, ds ++ [.surge f], by rw [hsnoc, ← h]; rfl⟩
  | DiscountDecorator inner p ih =>
    obtain ⟨b, r, ds, h⟩ := ih
    exact ⟨b, r, ds ++ [.discount p], by rw [hsnoc, ← h]; rfl⟩

/-- C23. `getDescription` of the base calculator is "Base Fare Calculator", of a surge
decorator the inner description followed by " + Surge Pricing", of a discount decorator the
inner description followed by " + Discount Applied"; so the description of a chain of
decorators around a base calculator is the base description followed by the fragments of the
decorators, innermost first, and every fare policy is such a chain. -/
theorem description_of_chain (b r f p : Double) (inner : FareCalculator)
    (ds : List Decorator) (c : FareCalculator) :
    (FareCalculator.BaseFareCalculator b r).getDescription = "Base Fare Calculator" ∧
    (FareCalculator.SurgePricingDecorator inner f).getDescription =
      inner.getDescription ++ " + Surge Pricing" ∧
    (FareCalculator.DiscountDecorator inner p).getDescription =
      inner.getDescription ++ " + Discount Applied" ∧
    ((FareCalculator.BaseFareCalculator b r).wrap ds).getDescription =
      "Base Fare Calculator" ++ concatAll (ds.map Decorator.fragment) ∧
    (∃ (b1 r1 : Double) (ds1 : List Decorator),
      c = (FareCalculator.BaseFareCalculator b1 r1).wrap ds1 ∧
      c.getDescription = "Base Fare Calculator" ++ concatAll (ds1.map Decorator.fragment)) ∧
    (FareCalculator.DiscountDecorator
      (.SurgePricingDecorator (.BaseFareCalculator 50 10) 2) 0.15).getDescription =
      "Base Fare Calculator + Surge Pricing + Discount Applied" := by
  refine ⟨rfl, rfl, rfl, getDescription_wrap ds _, ?_, by decide⟩
  obtain ⟨b1, r1, ds1, h⟩ := exists_wrap c
  exact ⟨b1, r1, ds1, h, by rw [h]; exact getDescription_wrap ds1 _⟩

/-- Witness of C22: with the registrations 7, 8, 7 a round invokes 7, 8, 7 in this order, and
removing the sink 7 leaves the registration 8. -/
theorem notification_round_witness :
    threeSinksWorld.manager.observers = [7, 8, 7] ∧
    (threeSinksWorld.notifyDriverAssigned firstRide).events =
      [⟨7, .onDriverAssigned, firstRide⟩, ⟨8, .onDriverAssigned, firstRide⟩,
        ⟨7, .onDriverAssigned, firstRide⟩] ∧
    (threeSinksWorld.removeObserver 7).manager.observers = [8] ∧
    (8 : ObserverPtr) ≠ 7 ∧
    (threeSinksWorld.removeObserver 7).manager.observers.count 8
      = threeSinksWorld.manager.observers.count 8 :=
  ⟨rfl, by decide!, by decide!, by decide,
    (notification_round threeSinksWorld firstRide 7).2.2.2.2.2.2.2.2.2 8 (by decide)⟩

/-! ## Fare policies: C24 to C26 -/

theorem calculateFare_of_coefficient (sqrt : Double → Double) (c : FareCalculator)
    (heap1 heap2 : List Driver) (r1 r2 : Ride)
    (hp : r1.pickupLocation = r2.pickupLocation)
    (hq : r1.dropoffLocation = r2.dropoffLocation)
    (hv : vehicleCoefficient heap1 r1 = vehicleCoefficient heap2 r2) :
    c.calculateFare sqrt heap1 r1 = c.calculateFare sqrt heap2 r2 := by
  have hbase : ∀ (heap : List Driver) (r : Ride) (b k : Double),
      BaseFareCalculator.calculateFare sqrt heap b k r =
        (vehicleCoefficient heap r).map (fun co =>
          match co with
          | none => (b + r.getDistance sqrt * k) * 1
          | some x => (b + r.getDistance sqrt * k) * (x / 10)) := by
    intro heap r b k
    unfold BaseFareCalculator.calculateFare vehicleCoefficient
    cases r.driver with
    | none => rfl
    | some p =>
      dsimp only
      cases heap[p]? with
      | none => rfl
      | some driver =>
        dsimp only
        cases driver.vehicle with
        | none => rfl
        | some v => rfl
  induction c with
  | BaseFareCalculator b k =>
    simp only [FareCalculator.calculateFare, hbase, hv, Ride.getDistance, hp, hq]
  | SurgePricingDecorator inner m ih => simp only [FareCalculator.calculateFare, ih]
  | DiscountDecorator inner m ih => simp only [FareCalculator.calculateFare, ih]

theorem vehicleCoefficient_released (heap heap1 : List Driver) (id : String) (ride ride1 : Ride)
    (hdrv : ride1.driver = ride.driver) (hrel : releaseDriver heap id ride = some heap1) :
    vehicleCoefficient heap1 ride1 = vehicleCoefficient heap ride := by
  unfold releaseDriver at hrel
  unfold vehicleCoefficient
  rw [hdrv]
  cases hp : ride.driver with
  | none => rfl
  | some p =>
    simp only [hp] at hrel
    cases hd : heap[p]? with
    | none => simp [hd] at hrel
    | some driver =>
      simp only [hd, Option.some.injEq] at hrel
      subst hrel
      simp only [heap_get_set_self _ _ _ _ hd, hd]
      rfl

/-- C24. The amount a fare policy returns is a function of the pickup location, the dropoff
location and the vehicle coefficient of the driver alone: two calls that agree on these
return the same amount, whatever else differs in the ride or among the drivers (the embedded
`calculateFare` returns the amount and nothing else, as the method assigns to no member of
the ride or of the calculator).  In particular, after `completeRide` a second call of the
active policy on the completed ride returns the fare that was stored. -/
theorem calculateFare_idempotent (sqrt : Double → Double) (w : World) (rideId : String)
    (ride : Ride) (rider : Rider)
    (hfind : w.manager.rides.find rideId = some ride)
    (hdriver : ∀ p, ride.driver = some p → ∃ d, w.driverHeap[p]? = some d)
    (hr : w.riderHeap[ride.rider]? = some rider) :
    (∀ (c : FareCalculator) (heap1 heap2 : List Driver) (r1 r2 : Ride),
      r1.pickupLocation = r2.pickupLocation → r1.dropoffLocation = r2.dropoffLocation →
      vehicleCoefficient heap1 r1 = vehicleCoefficient heap2 r2 →
      c.calculateFare sqrt heap1 r1 = c.calculateFare sqrt heap2 r2) ∧
    ∃ (w1 : World) (ride1 : Ride),
      w.completeRide sqrt rideId = some w1 ∧ w1.getRide rideId = some ride1 ∧
      w1.manager.fareCalculator = w.manager.fareCalculator ∧
      w.manager.fareCalculator.calculateFare sqrt w.driverHeap ride = some ride1.fare ∧
      w1.manager.fareCalculator.calculateFare sqrt w1.driverHeap ride1 = some ride1.fare := by
  refine ⟨fun c heap1 heap2 r1 r2 hp hq hv =>
    calculateFare_of_coefficient sqrt c heap1 heap2 r1 r2 hp hq hv, ?_⟩
  obtain ⟨fare, hfare⟩ := calculateFare_defined sqrt w.driverHeap ride.completeRide
    hdriver w.manager.fareCalculator
  have hdrivers : ∃ drivers, releaseDriver w.driverHeap rideId ride = some drivers := by
    unfold releaseDriver
    cases hp : ride.driver with
    | none => exact ⟨_, rfl⟩
    | some p =>
      obtain ⟨d, hd⟩ := hdriver p hp
      exact ⟨w.driverHeap.set p ((d.setStatus .AVAILABLE).addRideToHistory rideId), by
        simp only [hd]⟩
  obtain ⟨drivers, hdrivers⟩ := hdrivers
  have hriders : recordRider w.riderHeap rideId ride =
      some (w.riderHeap.set ride.rider (rider.addRideToHistory rideId)) := by
    simp only [recordRider, hr]
  refine ⟨_, ride.completeRide.setFare fare,
    completeRide_of_found sqrt w rideId ride fare _ _ hfind hfare hdrivers hriders,
    find_assign_self _ _ _, rfl, ?_, ?_⟩
  · show w.manager.fareCalculator.calculateFare sqrt w.driverHeap ride = some fare
    rw [← hfare]
    exact calculateFare_of_coefficient sqrt _ _ _ ride ride.completeRide rfl rfl rfl
  · show w.manager.fareCalculator.calculateFare sqrt drivers (ride.completeRide.setFare fare)
      = some fare
    rw [← hfare]
    exact calculateFare_of_coefficient sqrt _ _ _ _ _ rfl rfl
      (vehicleCoefficient_released _ _ rideId ride _ rfl hdrivers)

/-- Witness of C24: completing `RIDE_1` stores 60, and the policy returns 60 again on the
completed ride. -/
theorem calculateFare_idempotent_witness :
    startedWorld.manager.rides.find "RIDE_1" = some startedRide ∧
    completedWorld.manager.fareCalculator.calculateFare Rat.sqrt completedWorld.driverHeap
      completedRide = some 60 ∧
    ∃ (w1 : World) (ride1 : Ride),
      startedWorld.completeRide Rat.sqrt "RIDE_1" = some w1 ∧
      w1.getRide "RIDE_1" = some ride1 ∧
      w1.manager.fareCalculator = startedWorld.manager.fareCalculator ∧
      startedWorld.manager.fareCalculator.calculateFare Rat.sqrt startedWorld.driverHeap
        startedRide = some ride1.fare ∧
      w1.manager.fareCalculator.calculateFare Rat.sqrt w1.driverHeap ride1
        = some ride1.fare :=
  ⟨startedWorld_find, by decide!,
    (calculateFare_idempotent Rat.sqrt startedWorld "RIDE_1" startedRide
      (Rider.new "R001" "P" "9" origin 4.5) startedWorld_find
      (fun p hp => ⟨(Driver.new "D001" "A" "1" origin (some (Sedan "V001" "P1")) 4.8).setStatus
        .ON_TRIP, by
          have hp0 : p = 0 := by
            simpa [startedRide, firstRide, Ride.matched, Ride.new, Ride.setDriver,
              Ride.setStatus, Ride.startRide] using hp.symm
          subst hp0
          decide!⟩)
      (by decide!)).2⟩

theorem calculateFare_wrap (sqrt : Double → Double) (heap : List Driver) (ride : Ride)
    (ds : List Decorator) :
    ∀ inner : FareCalculator, (inner.wrap ds).calculateFare sqrt heap ride =
      (inner.calculateFare sqrt heap ride).map (fun x => x * (ds.map Decorator.factor).prod) := by
  induction ds with
  | nil =>
    intro inner
    simp [FareCalculator.wrap]
  | cons d ds ih =>
    intro inner
    simp only [FareCalculator.wrap, List.map_cons, List.prod_cons]
    rw [ih (d.apply inner)]
    have hd : (d.apply inner).calculateFare sqrt heap ride =
        (inner.calculateFare sqrt heap ride).map (fun x => x * d.factor) := by
      cases d <;>
        simp only [Decorator.apply, Decorator.factor, FareCalculator.calculateFare] <;>
        cases inner.calculateFare sqrt heap ride <;> rfl
    rw [hd]
    cases inner.calculateFare sqrt heap ride with
    | none => rfl
    | some x => simp [mul_assoc]

/-- C25. The fare of a chain of decorators of any length around a base calculator is the fare
of the base calculator times the product of the factors of the decorators (the surge factor,
one minus the discount fraction); hence two chains over the same base calculator whose
decorators are a rearrangement of each other return the same amount, and every fare policy
is such a chain. -/
theorem chain_fare_is_product (sqrt : Double → Double) (heap : List Driver) (ride : Ride)
    (b r : Double) (ds ds1 : List Decorator) (c : FareCalculator) :
    ((FareCalculator.BaseFareCalculator b r).wrap ds).calculateFare sqrt heap ride =
      ((FareCalculator.BaseFareCalculator b r).calculateFare sqrt heap ride).map
        (fun x => x * (ds.map Decorator.factor).prod) ∧
    (ds.Perm ds1 →
      ((FareCalculator.BaseFareCalculator b r).wrap ds).calculateFare sqrt heap ride =
        ((FareCalculator.BaseFareCalculator b r).wrap ds1).calculateFare sqrt heap ride) ∧
    ∃ (b1 r1 : Double) (ds2 : List Decorator),
      c = (FareCalculator.BaseFareCalculator b1 r1).wrap ds2 := by
  refine ⟨calculateFare_wrap sqrt heap ride ds _, ?_, exists_wrap c⟩
  intro hperm
  rw [calculateFare_wrap sqrt heap ride ds, calculateFare_wrap sqrt heap ride ds1,
    (hperm.map Decorator.factor).prod_eq]

/-- Witness of C25: surge 2 and discount 0.15 around the default base calculator give 255 on
the ride of 10 km in either nesting order. -/
theorem chain_fare_is_product_witness :
    [Decorator.surge 2, Decorator.discount 0.15].Perm [Decorator.discount 0.15, Decorator.surge 2] ∧
    (FareCalculator.BaseFareCalculator 50 10).wrap [.surge 2, .discount 0.15] =
      .DiscountDecorator (.SurgePricingDecorator (.BaseFareCalculator 50 10) 2) 0.15 ∧
    (FareCalculator.DiscountDecorator
      (.SurgePricingDecorator (.BaseFareCalculator 50 10) 2) 0.15).calculateFare Rat.sqrt []
        tenKmRide = some 255 ∧
    ((FareCalculator.BaseFareCalculator 50 10).wrap [.surge 2, .discount 0.15]).calculateFare
        Rat.sqrt [] tenKmRide =
      ((FareCalculator.BaseFareCalculator 50 10).wrap [.discount 0.15, .surge 2]).calculateFare
        Rat.sqrt [] tenKmRide := by
  have hbase : (FareCalculator.BaseFareCalculator 50 10).calculateFare Rat.sqrt [] tenKmRide
      = some 150 := by
    simp only [FareCalculator.calculateFare, BaseFareCalculator.calculateFare]
    rw [tenKmRide_distance]
    simp only [tenKmRide, Ride.new]
    norm_num
  refine ⟨List.Perm.swap _ _ _, rfl, ?_,
    (chain_fare_is_product Rat.sqrt [] tenKmRide 50 10 [.surge 2, .discount 0.15]
      [.discount 0.15, .surge 2] (.BaseFareCalculator 50 10)).2.1 (List.Perm.swap _ _ _)⟩
  have h := (chain_fare_is_product Rat.sqrt [] tenKmRide 50 10 [.surge 2, .discount 0.15]
      [.discount 0.15, .surge 2] (.BaseFareCalculator 50 10)).1
  rw [hbase] at h
  simp only [FareCalculator.wrap, Decorator.apply] at h
  rw [h]
  norm_num [Decorator.factor]

theorem calculateFare_nonneg_of_distance (sqrt : Double → Double) (heap : List Driver)
    (ride : Ride) (hdist : 0 ≤ ride.getDistance sqrt)
    (hcoef : ∀ x, vehicleCoefficient heap ride = some (some x) → 0 ≤ x)
    (c : FareCalculator) (hc : c.NonNegParams) :
    ∀ fare, c.calculateFare sqrt heap ride = some fare → 0 ≤ fare := by
  induction c with
  | BaseFareCalculator b r =>
    intro fare hfare
    obtain ⟨hb, hr⟩ := hc
    have hsum : 0 ≤ b + ride.getDistance sqrt * r := add_nonneg hb (mul_nonneg hdist hr)
    simp only [FareCalculator.calculateFare, BaseFareCalculator.calculateFare] at hfare
    unfold vehicleCoefficient at hcoef
    cases hp : ride.driver with
    | none =>
      simp only [hp, Option.some.injEq] at hfare
      rw [← hfare]
      exact mul_nonneg hsum (by norm_num)
    | some p =>
      simp only [hp] at hfare hcoef
      cases hd : heap[p]? with
      | none => simp [hd] at hfare
      | some driver =>
        simp only [hd] at hfare hcoef
        cases hv : driver.vehicle with
        | none =>
          simp only [hv, Option.some.injEq] at hfare
          rw [← hfare]
          exact mul_nonneg hsum (by norm_num)
        | some v =>
          simp only [hv, Option.some.injEq] at hfare
          rw [← hfare]
          exact mul_nonneg hsum
            (div_nonneg (hcoef v.baseFareRate (by simp [hv])) (by norm_num))
  | SurgePricingDecorator inner m ih =>
    intro fare hfare
    simp only [FareCalculator.calculateFare] at hfare
    cases hin : inner.calculateFare sqrt heap ride with
    | none => simp [hin] at hfare
    | some x =>
      simp only [hin, Option.some.injEq] at hfare
      rw [← hfare]
      exact mul_nonneg (ih hc.1 x hin) hc.2
  | DiscountDecorator inner m ih =>
    intro fare hfare
    simp only [FareCalculator.calculateFare] at hfare
    cases hin : inner.calculateFare sqrt heap ride with
    | none => simp [hin] at hfare
    | some x =>
      simp only [hin, Option.some.injEq] at hfare
      rw [← hfare]
      exact mul_nonneg (ih hc.1 x hin) (sub_nonneg.2 hc.2)

theorem builtIn_coefficient (v : Vehicle) (h : v.BuiltIn) : 6 ≤ v.baseFareRate := by
  obtain ⟨id, plate, h1 | h1 | h1 | h1⟩ := h <;> subst h1 <;>
    simp only [Bike, Sedan, SUV, AutoRickshaw] <;> norm_num

theorem hugeAmount_nonneg : 0 ≤ hugeAmount := by
  unfold hugeAmount
  exact (pow_pos two_pos 1023).le

theorem round_hugeAmount_overflow : Binary64.round (333 * hugeAmount) = .posInf :=
  round_overflow _ (by norm_num [hugeAmount])

theorem longRide_getDistance64 : longRide.getDistance64 Rat.sqrt = .finite 333 := by decide!

theorem hugeAmount_fare_overflow :
    (FareCalculator.BaseFareCalculator hugeAmount hugeAmount).calculateFare64 Rat.sqrt []
      longRide = some .posInf := by
  have h1 : (FareCalculator.BaseFareCalculator hugeAmount hugeAmount).calculateFare64
      Rat.sqrt [] longRide = some (((Binary64.finite hugeAmount).add
        ((longRide.getDistance64 Rat.sqrt).mul (.finite hugeAmount))).mul (.finite 1)) := rfl
  have h2 : (Binary64.finite 333).mul (.finite hugeAmount)
      = Binary64.round (333 * hugeAmount) := rfl
  have h3 : (Binary64.finite hugeAmount).add .posInf = .posInf := rfl
  have h4 : Binary64.posInf.mul (.finite 1) = .posInf := by decide!
  rw [h1, longRide_getDistance64, h2, round_hugeAmount_overflow, h3, h4]

/-- Counterexample to C26: the base calculator with base and rate 2^1023 (finite amounts, at
least 0) computes the amount +∞ for the ride of 333 km without a driver; under the surge
factor 0, and under the discount fraction 1, `calculateFare` then returns NaN, which is not at
least 0, although every condition of the claim holds. -/
theorem calculateFare64_nan :
    (FareCalculator.SurgePricingDecorator (.BaseFareCalculator hugeAmount hugeAmount)
      0).NonNegParams ∧
    (FareCalculator.DiscountDecorator (.BaseFareCalculator hugeAmount hugeAmount)
      1).NonNegParams ∧
    hugeAmount = 2 ^ 1023 ∧ hugeAmount < DBL_MAX ∧
    longRide.getDistance64 Rat.sqrt = .finite 333 ∧
    vehicleCoefficient [] longRide = some none ∧
    (FareCalculator.BaseFareCalculator hugeAmount hugeAmount).calculateFare64 Rat.sqrt []
      longRide = some .posInf ∧
    (FareCalculator.SurgePricingDecorator (.BaseFareCalculator hugeAmount hugeAmount)
      0).calculateFare64 Rat.sqrt [] longRide = some .nan ∧
    (FareCalculator.DiscountDecorator (.BaseFareCalculator hugeAmount hugeAmount)
      1).calculateFare64 Rat.sqrt [] longRide = some .nan ∧
    ¬ (Binary64.finite 0).le .nan := by
  have hzero : (Binary64.finite 1).sub (.finite 1) = .finite 0 := by decide!
  have hnan : Binary64.posInf.mul (.finite 0) = .nan := by decide!
  have hsurge : (FareCalculator.SurgePricingDecorator
      (.BaseFareCalculator hugeAmount hugeAmount) 0).calculateFare64 Rat.sqrt [] longRide
      = ((FareCalculator.BaseFareCalculator hugeAmount hugeAmount).calculateFare64 Rat.sqrt
        [] longRide).map (fun x => x.mul (.finite 0)) := by
    simp only [FareCalculator.calculateFare64]
    cases BaseFareCalculator.calculateFare64 Rat.sqrt [] hugeAmount hugeAmount longRide <;> rfl
  have hdiscount : (FareCalculator.DiscountDecorator
      (.BaseFareCalculator hugeAmount hugeAmount) 1).calculateFare64 Rat.sqrt [] longRide
      = ((FareCalculator.BaseFareCalculator hugeAmount hugeAmount).calculateFare64 Rat.sqrt
        [] longRide).map (fun x => x.mul ((Binary64.finite 1).sub (.finite 1))) := by
    simp only [FareCalculator.calculateFare64]
    cases BaseFareCalculator.calculateFare64 Rat.sqrt [] hugeAmount hugeAmount longRide <;> rfl
  refine ⟨⟨⟨hugeAmount_nonneg, hugeAmount_nonneg⟩, le_refl _⟩,
    ⟨⟨hugeAmount_nonneg, hugeAmount_nonneg⟩, le_refl _⟩, rfl, by norm_num [hugeAmount, DBL_MAX],
    longRide_getDistance64, rfl, hugeAmount_fare_overflow, ?_, ?_, fun h => h⟩
  · rw [hsurge, hugeAmount_fare_overflow, Option.map_some', hnan]
  · rw [hdiscount, hugeAmount_fare_overflow, Option.map_some', hzero, hnan]

/-- C26, amended. In binary64 arithmetic, for a ride whose distance is a finite amount at
least 0 and whose driver pointer holds an object, every member a finite number: when the
vehicle multiplier (1.0 without a vehicle, the coefficient divided by 10.0 otherwise) is
finite and greater than 0, base and rate are at least 0, every surge factor is greater than 0
and one minus every discount fraction is finite and greater than 0, `calculateFare` returns a
value that is at least 0 (possibly +∞) and not NaN; when the vehicle of the driver, if there is one, is of a built-in
class, the multiplier is such a number and the default base calculator returns a value that
is at least 30; and one minus a discount fraction between 0 and 1 - 2^(-53), the largest
binary64 number below 1, is finite and greater than 0. -/
theorem fare_nonneg_sufficient (sqrt : Double → Double) (heap : List Driver) (ride : Ride)
    (c : FareCalculator) (d : ℚ) (hdist : ride.getDistance64 sqrt = .finite d) (hd0 : 0 ≤ d)
    (hdriver : ∀ p, ride.driver = some p → ∃ x, heap[p]? = some x) :
    ((∀ m, vehicleMultiplier64 heap ride = some m → m.IsPos) → c.PosFactors →
      ∃ fare, c.calculateFare64 sqrt heap ride = some fare ∧ (Binary64.finite 0).le fare ∧
        fare ≠ .nan) ∧
    ((∀ p driver v, ride.driver = some p → heap[p]? = some driver →
        driver.vehicle = some v → v.BuiltIn) →
      (∃ m, vehicleMultiplier64 heap ride = some m ∧ m.IsPos) ∧
      ∃ fare, (FareCalculator.BaseFareCalculator 50 10).calculateFare64 sqrt heap ride
        = some fare ∧ (Binary64.finite 30).le fare) ∧
    (∀ p : Double, 0 ≤ p → p ≤ 1 - 2 ^ (-53 : ℤ) →
      ((Binary64.finite 1).sub (.finite p)).IsPos) := by
  refine ⟨?_, ?_, sub_isPos⟩
  · intro hmult hc
    obtain ⟨m, hm⟩ := vehicleMultiplier64_defined heap ride hdriver
    obtain ⟨fare, hfare, hle⟩ := calculateFare64_nonneg_of_posFactors sqrt heap ride d hdist hd0
      m hm (hmult m hm) c hc
    refine ⟨fare, hfare, hle, ?_⟩
    intro h
    rw [h] at hle
    simp [Binary64.le] at hle
  · intro hbuilt
    obtain ⟨μ, hm, hμ⟩ := vehicleMultiplier64_builtIn heap ride hdriver hbuilt
    exact ⟨⟨_, hm, lt_of_lt_of_le (by norm_num) hμ⟩,
      default_fare_ge_thirty sqrt heap ride d hdist hd0 hdriver hbuilt⟩

/-- Witness of C26, amended: the ride of distance 0 with the auto-rickshaw driver costs
exactly 30 under the default base calculator, and 75 under surge 2 over discount 0.25 without
a driver. -/
theorem fare_nonneg_sufficient_witness :
    (exampleRide .SEDAN).getDistance64 Rat.sqrt = .finite 0 ∧
    (FareCalculator.BaseFareCalculator 50 10).calculateFare64 Rat.sqrt
      [Driver.new "D004" "K" "4" origin (some (AutoRickshaw "V004" "P4")) 4.6]
      ((exampleRide .AUTO_RICKSHAW).setDriver (some 0)) = some (.finite 30) ∧
    (FareCalculator.SurgePricingDecorator
      (.DiscountDecorator (.BaseFareCalculator 50 10) 0.25) 2).PosFactors ∧
    (FareCalculator.SurgePricingDecorator
      (.DiscountDecorator (.BaseFareCalculator 50 10) 0.25) 2).calculateFare64 Rat.sqrt []
        (exampleRide .SEDAN) = some (.finite 75) ∧
    (∃ fare, (FareCalculator.SurgePricingDecorator
      (.DiscountDecorator (.BaseFareCalculator 50 10) 0.25) 2).calculateFare64 Rat.sqrt []
        (exampleRide .SEDAN) = some fare ∧ (Binary64.finite 0).le fare ∧ fare ≠ .nan) ∧
    (∃ m, vehicleMultiplier64 [] (exampleRide .SEDAN) = some m ∧ m.IsPos) ∧
    ∃ fare, (FareCalculator.BaseFareCalculator 50 10).calculateFare64 Rat.sqrt []
      (exampleRide .SEDAN) = some fare ∧ (Binary64.finite 30).le fare :=
  ⟨by decide!, by decide!, ⟨⟨⟨by norm_num, by norm_num⟩, by decide!⟩, by norm_num⟩, by decide!,
    (fare_nonneg_sufficient Rat.sqrt [] (exampleRide .SEDAN) _ 0 (by decide!) (le_refl _)
      (fun p hp => by cases hp)).1 (fun m hm => by
        have h1 : m = .finite 1 := by
          have h2 : vehicleMultiplier64 [] (exampleRide .SEDAN) = some (.finite 1) := rfl
          rw [h2] at hm
          exact (Option.some.inj hm).symm
        rw [h1]
        decide)
      ⟨⟨⟨by norm_num, by norm_num⟩, by decide!⟩, by norm_num⟩,
    ((fare_nonneg_sufficient Rat.sqrt [] (exampleRide .SEDAN) (.BaseFareCalculator 50 10) 0
      (by decide!) (le_refl _) (fun p hp => by cases hp)).2.1
        (fun p driver v hp => by cases hp)).1,
    ((fare_nonneg_sufficient Rat.sqrt [] (exampleRide .SEDAN) (.BaseFareCalculator 50 10) 0
      (by decide!) (le_refl _) (fun p hp => by cases hp)).2.1
        (fun p driver v hp => by cases hp)).2⟩

/-! ## Ride identifiers and the append-only table: C21 -/

theorem key_of_find_eq_some (t : RideTable) (k : String) (r : Ride) (h : t.find k = some r) :
    k ∈ t.map Prod.fst :=
  List.mem_map.2 ⟨(k, r), mem_of_find_eq_some t k r h, rfl⟩

theorem requestRide_counter (sqrt : Double → Double) (w : World) (riderId : String)
    (pickup dropoff : Location) (vehicleType : VehicleType) (rideType : RideType)
    (res : Option Ride) (w1 : World)
    (h : w.requestRide sqrt riderId pickup dropoff vehicleType rideType = some (res, w1)) :
    w.manager.rideCounter ≤ w1.manager.rideCounter ∧
    ∀ ride, res = some ride → ride.rideId = rideIdOf w.manager.rideCounter ∧
      w1.manager.rideCounter = w.manager.rideCounter + 1 ∧
      w1.manager.rides = w.manager.rides.assign (rideIdOf w.manager.rideCounter) ride := by
  rcases requestRide_cases sqrt w riderId pickup dropoff vehicleType rideType res w1 h with
    ⟨hres, hw⟩ | ⟨hres, hw⟩ | ⟨rider, available, d, driver, -, -, -, -, -, hres, hw⟩
  · subst hw hres
    exact ⟨le_refl _, fun ride hr => by cases hr⟩
  · subst hw hres
    exact ⟨by simp only [World.afterNoMatch]; omega, fun ride hr => by cases hr⟩
  · subst hw hres
    refine ⟨by simp only [World.afterMatch]; omega, ?_⟩
    intro ride hr
    cases hr
    exact ⟨rfl, rfl, rfl⟩

theorem step_counter_le (sqrt : Double → Double) (w w1 : World) (op : Op)
    (h : w.step sqrt op = some w1) : w.manager.rideCounter ≤ w1.manager.rideCounter := by
  rcases step_cases sqrt w w1 op h with
    ⟨-, -, -, -, hc | hc⟩ | ⟨_, _, _, _, _, _, d, driver, -, -, -, hw1⟩ |
    ⟨id, ride, -, -, hw1⟩ | ⟨id, ride, fare, drivers, riders, -, -, -, -, -, hw1⟩
  · omega
  · omega
  · subst hw1; simp only [World.afterMatch]; omega
  · subst hw1; exact le_refl _
  · subst hw1; exact le_refl _

theorem runReturned_increasing (sqrt : Double → Double) (ops : List Op) :
    ∀ (w w1 : World) (rides : List Ride), w.runReturned sqrt ops = some (rides, w1) →
      ∃ ns : List Int, rides.map Ride.rideId = ns.map rideIdOf ∧ ns.Pairwise (· < ·) ∧
        (∀ n ∈ ns, w.manager.rideCounter ≤ n ∧ n < w1.manager.rideCounter) ∧
        w.manager.rideCounter ≤ w1.manager.rideCounter := by
  induction ops with
  | nil =>
    intro w w1 rides h
    simp only [World.runReturned, Option.some.injEq, Prod.mk.injEq] at h
    obtain ⟨hr, hw⟩ := h
    subst hr hw
    exact ⟨[], rfl, List.Pairwise.nil, (fun n hn => by cases hn), le_refl _⟩
  | cons op ops ih =>
    intro w w1 rides h
    have hother : ∀ w2, w.step sqrt op = some w2 →
        World.runReturned sqrt w2 ops = some (rides, w1) →
        ∃ ns : List Int, rides.map Ride.rideId = ns.map rideIdOf ∧ ns.Pairwise (· < ·) ∧
          (∀ n ∈ ns, w.manager.rideCounter ≤ n ∧ n < w1.manager.rideCounter) ∧
          w.manager.rideCounter ≤ w1.manager.rideCounter := by
      intro w2 hstep hrun
      obtain ⟨ns, hids, hpair, hbound, hle⟩ := ih w2 w1 rides hrun
      have hc := step_counter_le sqrt w w2 op hstep
      exact ⟨ns, hids, hpair, (fun n hn => ⟨(by have := (hbound n hn).1; omega),
        (hbound n hn).2⟩), (by omega)⟩
    have hsilent : (∀ a b c d e, op ≠ .requestRide a b c d e) →
        ∃ w2, w.step sqrt op = some w2 ∧
          World.runReturned sqrt w2 ops = some (rides, w1) := by
      intro hne
      cases op with
      | requestRide a b c d e => exact absurd rfl (hne a b c d e)
      | _ =>
        simp only [World.runReturned] at h
        split at h
        · cases h
        · rename_i w2 hstep
          exact ⟨w2, hstep, h⟩
    cases op with
    | requestRide riderId pickup dropoff vehicleType rideType =>
      simp only [World.runReturned] at h
      cases hreq : w.requestRide sqrt riderId pickup dropoff vehicleType rideType with
      | none => simp [hreq] at h
      | some out =>
        obtain ⟨res, w2⟩ := out
        simp only [hreq] at h
        cases hrun : World.runReturned sqrt w2 ops with
        | none => simp [hrun] at h
        | some out1 =>
          obtain ⟨rides1, w3⟩ := out1
          simp only [hrun, Option.some.injEq, Prod.mk.injEq] at h
          obtain ⟨hr, hw⟩ := h
          subst hr hw
          obtain ⟨ns, hids, hpair, hbound, hle⟩ := ih w2 w3 rides1 hrun
          obtain ⟨hc, hsome⟩ := requestRide_counter sqrt w riderId pickup dropoff vehicleType
            rideType res w2 hreq
          cases res with
          | none =>
            exact ⟨ns, (by simpa using hids), hpair, (fun n hn =>
              ⟨(by have := (hbound n hn).1; omega), (hbound n hn).2⟩), (by omega)⟩
          | some ride =>
            obtain ⟨hid, hc1, -⟩ := hsome ride rfl
            refine ⟨w.manager.rideCounter :: ns, ?_, ?_, ?_, by omega⟩
            · simp only [Option.toList, List.singleton_append, List.map_cons, hid, hids]
            · exact List.Pairwise.cons
                (fun n hn => by have := (hbound n hn).1; omega) hpair
            · intro n hn
              rcases List.mem_cons.1 hn with rfl | hn1
              · exact ⟨le_refl _, by omega⟩
              · exact ⟨(by have := (hbound n hn1).1; omega), (hbound n hn1).2⟩
    | addRider r =>
      obtain ⟨w2, hstep, hrun⟩ := hsilent (fun _ _ _ _ _ h => by cases h)
      exact hother w2 hstep hrun
    | addDriver r =>
      obtain ⟨w2, hstep, hrun⟩ := hsilent (fun _ _ _ _ _ h => by cases h)
      exact hother w2 hstep hrun
    | addObserver r =>
      obtain ⟨w2, hstep, hrun⟩ := hsilent (fun _ _ _ _ _ h => by cases h)
      exact hother w2 hstep hrun
    | removeObserver r =>
      obtain ⟨w2, hstep, hrun⟩ := hsilent (fun _ _ _ _ _ h => by cases h)
      exact hother w2 hstep hrun
    | setMatchingStrategy r =>
      obtain ⟨w2, hstep, hrun⟩ := hsilent (fun _ _ _ _ _ h => by cases h)
      exact hother w2 hstep hrun
    | setFareCalculator r =>
      obtain ⟨w2, hstep, hrun⟩ := hsilent (fun _ _ _ _ _ h => by cases h)
      exact hother w2 hstep hrun
    | startRide r =>
      obtain ⟨w2, hstep, hrun⟩ := hsilent (fun _ _ _ _ _ h => by cases h)
      exact hother w2 hstep hrun
    | completeRide r =>
      obtain ⟨w2, hstep, hrun⟩ := hsilent (fun _ _ _ _ _ h => by cases h)
      exact hother w2 hstep hrun

theorem step_keeps_rides (sqrt : Double → Double) (w w1 : World) (op : Op)
    (hkeys : KeysInv w.manager.rides w.manager.rideCounter)
    (hstep : w.step sqrt op = some w1) :
    (∃ added, w1.manager.rides.map Prod.fst = w.manager.rides.map Prod.fst ++ added) ∧
    ∀ k r, w.getRide k = some r → ∃ r1, w1.getRide k = some r1 ∧ r1.SameIdentity r := by
  have hsame : ∀ r : Ride, r.SameIdentity r := fun r => ⟨rfl, rfl, rfl, rfl, rfl, rfl, rfl⟩
  have hupdate : ∀ (id : String) (ride ride1 : Ride), w.manager.rides.find id = some ride →
      ride1.SameIdentity ride →
      (∃ added, (w.manager.rides.assign id ride1).map Prod.fst
        = w.manager.rides.map Prod.fst ++ added) ∧
      ∀ k r, w.manager.rides.find k = some r →
        ∃ r1, (w.manager.rides.assign id ride1).find k = some r1 ∧ r1.SameIdentity r := by
    intro id ride ride1 hfind hid
    refine ⟨⟨[], by rw [keys_assign_of_key _ _ _ (key_of_find_eq_some _ _ _ hfind),
      List.append_nil]⟩, ?_⟩
    intro k r hk
    by_cases hkid : k = id
    · subst hkid
      rw [hfind] at hk
      cases hk
      exact ⟨ride1, find_assign_self _ _ _, hid⟩
    · exact ⟨r, (by rw [find_assign_of_ne _ _ _ _ hkid]; exact hk), hsame r⟩
  rcases step_cases sqrt w w1 op hstep with
    ⟨-, -, hrides, -, -⟩ | ⟨_, _, _, _, _, _, d, driver, -, -, -, hw1⟩ |
    ⟨id, ride, -, hfind, hw1⟩ | ⟨id, ride, fare, drivers, riders, -, hfind, -, -, -, hw1⟩
  · refine ⟨⟨[], by rw [hrides, List.append_nil]⟩, ?_⟩
    intro k r hk
    exact ⟨r, (by simpa only [World.getRide, hrides] using hk), hsame r⟩
  · subst hw1
    have hfresh := keysInv_fresh _ _ hkeys
    refine ⟨⟨[rideIdOf w.manager.rideCounter], keys_assign_of_not_key _ _ _ hfresh⟩, ?_⟩
    intro k r hk
    have hne : k ≠ rideIdOf w.manager.rideCounter := by
      intro heq
      subst heq
      exact hfresh (key_of_find_eq_some _ _ _ hk)
    have hk1 : ∀ v : Ride,
        (w.manager.rides.assign (rideIdOf w.manager.rideCounter) v).find k = some r := by
      intro v
      rw [find_assign_of_ne _ _ _ _ hne]
      exact hk
    exact ⟨r, hk1 _, hsame r⟩
  · subst hw1
    exact hupdate id ride _ hfind ⟨rfl, rfl, rfl, rfl, rfl, rfl, rfl⟩
  · subst hw1
    exact hupdate id ride _ hfind ⟨rfl, rfl, rfl, rfl, rfl, rfl, rfl⟩

/-- C21. In every state reachable by orchestrator operations the counter is at least 1 and
every key of the ride table is "RIDE_n" for an n between 1 and the counter; identifiers of
distinct numbers differ.  From such a state, the rides returned by the successful
`requestRide` calls of any sequence of operations have the identifiers "RIDE_n" of strictly
increasing numbers n, in call order, none below the counter; a successful `requestRide`
returns the identifier of the current counter, which is not yet a key, and stores the ride
under it; and every operation keeps the keys of the table in place, adding new ones at the
end only, and keeps under each key the same ride (only status and fare may differ). -/
theorem ride_ids_increase_table_grows (sqrt : Double → Double) (w : World)
    (hw : Reachable sqrt w) :
    (1 ≤ w.manager.rideCounter ∧
      ∀ e ∈ w.manager.rides, ∃ n : Int, 1 ≤ n ∧ n < w.manager.rideCounter ∧
        e.1 = "RIDE_" ++ toString n) ∧
    (∀ n m : Int, 0 ≤ n → 0 ≤ m → "RIDE_" ++ toString n = "RIDE_" ++ toString m → n = m) ∧
    (∀ (ops : List Op) (w1 : World) (rides : List Ride),
      w.runReturned sqrt ops = some (rides, w1) →
      ∃ ns : List Int, rides.map Ride.rideId = ns.map (fun n => "RIDE_" ++ toString n) ∧
        ns.Pairwise (· < ·) ∧ ∀ n ∈ ns, 1 ≤ n ∧ w.manager.rideCounter ≤ n) ∧
    (∀ riderId pickup dropoff vehicleType rideType ride w1,
      w.requestRide sqrt riderId pickup dropoff vehicleType rideType = some (some ride, w1) →
      ride.rideId = "RIDE_" ++ toString w.manager.rideCounter ∧
      ride.rideId ∉ w.manager.rides.map Prod.fst ∧ w1.getRide ride.rideId = some ride) ∧
    (∀ (op : Op) (w1 : World), w.step sqrt op = some w1 →
      (∃ added, w1.manager.rides.map Prod.fst = w.manager.rides.map Prod.fst ++ added) ∧
      ∀ k r, w.getRide k = some r → ∃ r1, w1.getRide k = some r1 ∧ r1.SameIdentity r) := by
  have hkeys := keysInv_of_reachable sqrt w hw
  refine ⟨⟨hkeys.2.1, hkeys.2.2⟩, fun n m hn hm h => rideIdOf_injective n m hn hm h, ?_, ?_,
    fun op w1 hstep => step_keeps_rides sqrt w w1 op hkeys hstep⟩
  · intro ops w1 rides hrun
    obtain ⟨ns, hids, hpair, hbound, -⟩ := runReturned_increasing sqrt ops w w1 rides hrun
    exact ⟨ns, hids, hpair, fun n hn =>
      ⟨(by have := (hbound n hn).1; have := hkeys.2.1; omega), (hbound n hn).1⟩⟩
  · intro riderId pickup dropoff vehicleType rideType ride w1 hreq
    obtain ⟨-, hsome⟩ := requestRide_counter sqrt w riderId pickup dropoff vehicleType
      rideType (some ride) w1 hreq
    obtain ⟨hid, -, hrides⟩ := hsome ride rfl
    refine ⟨hid, (by rw [hid]; exact keysInv_fresh _ _ hkeys), ?_⟩
    show w1.manager.rides.find ride.rideId = some ride
    rw [hrides, hid]
    exact find_assign_self _ _ _

/-- Witness of C21: from `registeredWorld` the three requests of `doubleBookingOps` return
`RIDE_1`, `RIDE_2` and `RIDE_3`. -/
theorem ride_ids_increase_table_grows_witness :
    Reachable Rat.sqrt registeredWorld ∧
    (registeredWorld.runReturned Rat.sqrt doubleBookingOps).map
      (fun out => out.1.map Ride.rideId) = some ["RIDE_1", "RIDE_2", "RIDE_3"] ∧
    (1 ≤ registeredWorld.manager.rideCounter ∧
      ∀ e ∈ registeredWorld.manager.rides, ∃ n : Int, 1 ≤ n ∧
        n < registeredWorld.manager.rideCounter ∧ e.1 = "RIDE_" ++ toString n) :=
  ⟨registeredWorld_reachable, by decide!,
    (ride_ids_increase_table_grows Rat.sqrt registeredWorld registeredWorld_reachable).1⟩

end RideShare
